import Mathlib

/-!
Verification of the spt-aki-item-tweaker record-transformation engine.

The TypeScript sources (`applicator.ts`, `query.ts`, the `ItemTweaker` mod
class) are shallowly embedded below.  JavaScript runtime values are the
inductive `JVal`; the JS `undefined` is `Option.none`, so a possibly-absent
value is an `Option JVal`.  JS numbers are modelled as exact rationals
(`Rat`); code paths that can throw are embedded in `Except String`.
Reference equality of JS composites (`===` on objects/arrays) is modelled as
structural equality over immutable trees.  This identification is exact on
primitives and on comparisons of a written value with its own read-back, but
it cannot express the aliasing created when a composite source value is
stored into the target and compared again on a later pass; for that case the
set applicator is additionally embedded further below over an explicit store
(`HVal`, `Store`) that carries object identity, and the theorems that depend
on reference identity are stated over that refinement.
-/

/-- A JavaScript value as the engine sees it: the JSON universe.
`undefined` is represented outside this type, as `Option.none`. -/
inductive JVal : Type where
  | null : JVal
  | bool : Bool → JVal
  | num : Rat → JVal
  | str : String → JVal
  | arr : List JVal → JVal
  | obj : List (String × JVal) → JVal

mutual

/-- Structural equality of two `JVal`s (the model of `===`/`JSON.stringify`
comparison on values read out of JSON data). -/
def JVal.beq : JVal → JVal → Bool
  | .null, .null => true
  | .bool a, .bool b => a == b
  | .num a, .num b => a == b
  | .str a, .str b => a == b
  | .arr a, .arr b => JVal.beqList a b
  | .obj a, .obj b => JVal.beqFields a b
  | _, _ => false

/-- Elementwise structural equality of two value lists. -/
def JVal.beqList : List JVal → List JVal → Bool
  | [], [] => true
  | x :: xs, y :: ys => JVal.beq x y && JVal.beqList xs ys
  | _, _ => false

/-- Fieldwise structural equality of two field lists (names, values, order). -/
def JVal.beqFields : List (String × JVal) → List (String × JVal) → Bool
  | [], [] => true
  | (k, v) :: xs, (l, w) :: ys => k == l && JVal.beq v w && JVal.beqFields xs ys
  | _, _ => false

end

mutual

theorem JVal.beq_iff : ∀ a b : JVal, JVal.beq a b = true ↔ a = b
  | .null, .null => by simp [JVal.beq]
  | .bool _, .bool _ => by simp [JVal.beq]
  | .num _, .num _ => by simp [JVal.beq]
  | .str _, .str _ => by simp [JVal.beq]
  | .arr x, .arr y => by simp [JVal.beq, JVal.beqList_iff x y]
  | .obj x, .obj y => by simp [JVal.beq, JVal.beqFields_iff x y]
  | .null, .bool _ | .null, .num _ | .null, .str _ | .null, .arr _ | .null, .obj _
  | .bool _, .null | .bool _, .num _ | .bool _, .str _ | .bool _, .arr _ | .bool _, .obj _
  | .num _, .null | .num _, .bool _ | .num _, .str _ | .num _, .arr _ | .num _, .obj _
  | .str _, .null | .str _, .bool _ | .str _, .num _ | .str _, .arr _ | .str _, .obj _
  | .arr _, .null | .arr _, .bool _ | .arr _, .num _ | .arr _, .str _ | .arr _, .obj _
  | .obj _, .null | .obj _, .bool _ | .obj _, .num _ | .obj _, .str _ | .obj _, .arr _ => by
    simp [JVal.beq]

theorem JVal.beqList_iff : ∀ xs ys : List JVal, JVal.beqList xs ys = true ↔ xs = ys
  | [], [] => by simp [JVal.beqList]
  | x :: xs, y :: ys => by simp [JVal.beqList, JVal.beq_iff x y, JVal.beqList_iff xs ys]
  | [], _ :: _ => by simp [JVal.beqList]
  | _ :: _, [] => by simp [JVal.beqList]

theorem JVal.beqFields_iff :
    ∀ xs ys : List (String × JVal), JVal.beqFields xs ys = true ↔ xs = ys
  | [], [] => by simp [JVal.beqFields]
  | (k, v) :: xs, (l, w) :: ys => by
    simp [JVal.beqFields, JVal.beq_iff v w, JVal.beqFields_iff xs ys, Prod.ext_iff, and_assoc]
  | [], _ :: _ => by simp [JVal.beqFields]
  | _ :: _, [] => by simp [JVal.beqFields]

end

instance : DecidableEq JVal := fun a b => decidable_of_iff _ (JVal.beq_iff a b)

deriving instance DecidableEq for Except

/-- Model of the `typeof` operator; the argument is a possibly-`undefined`
JS value, with `typeof undefined = "undefined"` and `typeof null = "object"`. -/
def jsTypeof : Option JVal → String
  | none => "undefined"
  | some .null => "object"
  | some (.bool _) => "boolean"
  | some (.num _) => "number"
  | some (.str _) => "string"
  | some (.arr _) => "object"
  | some (.obj _) => "object"

/-- Model of the loose non-null test `x != null` (false exactly on
`null` and `undefined`). -/
def jsNonNull : Option JVal → Bool
  | none => false
  | some .null => false
  | some _ => true

/-- Model of JS truthiness (used where the sources test `negation`,
`strict` etc. directly as conditions). -/
def jsTruthy : Option JVal → Bool
  | none => false
  | some .null => false
  | some (.bool b) => b
  | some (.num q) => q != 0
  | some (.str s) => s ≠ ""
  | some (.arr _) => true
  | some (.obj _) => true

/-- Model of `Array.isArray`. -/
def jsIsArray : Option JVal → Bool
  | some (.arr _) => true
  | _ => false

/-- First binding of a key in a field list, the model of JS own-property
lookup on a plain object. -/
def lookupField : List (String × JVal) → String → Option JVal
  | [], _ => none
  | (k, v) :: fs, key => if k = key then some v else lookupField fs key

/-- Accumulate a decimal value over digit characters. -/
def digitsToNatGo (acc : Nat) : List Char → Nat
  | [] => acc
  | c :: cs => digitsToNatGo (acc * 10 + (c.toNat - '0'.toNat)) cs

/-- A canonical array index: the string must be exactly the decimal
rendering of the parsed value (digits only, no leading zero) —
non-canonical numeric strings are ordinary absent properties on a JS
array. -/
def jsArrayIndex? (s : String) : Option Nat :=
  let i := digitsToNatGo 0 s.data
  if Nat.toDigits 10 i = s.data then some i else none

/-- Element of an array addressed by a decimal index string. -/
def arrIndex (xs : List JVal) (k : String) : Option JVal :=
  (jsArrayIndex? k).bind fun i => xs.get? i

/-- Property access `v[k]` on a value that is known (or assumed) not to be
`null`/`undefined`: objects give field lookup, arrays decimal indexing plus
`length`, strings `length` plus character indexing, primitives `undefined`.
On `null`/`undefined` this returns `undefined`; use `jsDot` where the source
reaches the access unconditionally (and so can throw). -/
def dotSafe (v : Option JVal) (k : String) : Option JVal :=
  match v with
  | some (.obj fs) => lookupField fs k
  | some (.arr xs) => arrIndex xs k
  | some (.str s) =>
    if k = "length" then some (.num s.data.length)
    else (jsArrayIndex? k).bind fun i => (s.data.get? i).map fun c => .str (String.mk [c])
  | _ => none

/-- Property access `v[k]` as the JS runtime performs it: a `TypeError` is
raised when `v` is `null` or `undefined`. -/
def jsDot (v : Option JVal) (k : String) : Except String (Option JVal) :=
  match v with
  | none => .error "TypeError: cannot read properties of undefined"
  | some .null => .error "TypeError: cannot read properties of null"
  | some x => .ok (dotSafe (some x) k)

/-- Split on the "." separator, one segment per run between dots, as
`propertyPath.split(".")` does (the empty string yields one empty
segment). -/
def splitDotGo (acc : List Char) : List Char → List String
  | [] => [String.mk acc.reverse]
  | c :: cs =>
    if c = '.' then String.mk acc.reverse :: splitDotGo [] cs
    else splitDotGo (c :: acc) cs

/-- The segments of a dotted property path. -/
def jsSplitDot (s : String) : List String := splitDotGo [] s.data

/-- True exactly when `typeof v` is `"object"`, i.e. when the guard
`typeof targetObj !== "object"` in the nested-property helpers passes. -/
def isObjectTypeof (v : Option JVal) : Bool := jsTypeof v == "object"

/-- Embedding of `Applicator.getNestedProperty` working on an already-split
path (the source splits on "." and re-joins the tail, which round-trips).
A non-`"object"`-typed target, including `undefined`, hits the explicit
throw; indexing `null` raises a `TypeError`.  The empty segment list, which
`split` never produces, resolves to the target itself. -/
def getNestedSegs : Option JVal → List String → Except String (Option JVal)
  | none, _ => .error "targetObj is not an object"
  | some x, [] =>
    if isObjectTypeof (some x) then .ok (some x)
    else .error "targetObj is not an object"
  | some x, [head] =>
    if isObjectTypeof (some x) then jsDot (some x) head
    else .error "targetObj is not an object"
  | some x, head :: rest =>
    if isObjectTypeof (some x) then
      jsDot (some x) head >>= fun child => getNestedSegs child rest
    else .error "targetObj is not an object"

/-- Embedding of `Applicator.getNestedProperty` itself: the property path is
an arbitrary JS value; a non-string path is the second explicit throw. -/
def getNestedProperty (targetObj : Option JVal) (propertyPath : JVal) :
    Except String (Option JVal) :=
  match propertyPath with
  | .str s => getNestedSegs targetObj (jsSplitDot s)
  | _ => .error "propertyPath is not a string"

/-- Assignment `v[k] = w` on an object or array (the leaf step of
`setNestedProperty`): objects update the binding in place or append a new
one; arrays update in range (the engine only writes through properties it
has already read, so the JS sparse extension of an out-of-range write is
modelled as a no-op).  Assigning to `null` is a `TypeError`; assigning to a
primitive is silently ignored. -/
def jsSetKey : JVal → String → JVal → Except String JVal
  | .obj fs, k, w => .ok (.obj (setField fs k w))
  | .arr xs, k, w =>
    match jsArrayIndex? k with
    | some i => .ok (.arr (arrWrite xs i w))
    | none => .ok (.arr xs)
  | .null, _, _ => .error "TypeError: cannot set properties of null"
  | x, _, _ => .ok x
where
  /-- Replace the first binding of `k`, or append one. -/
  setField : List (String × JVal) → String → JVal → List (String × JVal)
    | [], k, w => [(k, w)]
    | (k', v) :: fs, k, w =>
      if k' = k then (k', w) :: fs else (k', v) :: setField fs k w
  /-- Write at an index already in range. -/
  arrWrite : List JVal → Nat → JVal → List JVal
    | [], _, _ => []
    | _ :: xs, 0, w => w :: xs
    | x :: xs, n + 1, w => x :: arrWrite xs n w

/-- Embedding of `Applicator.setNestedProperty` on an already-split path,
returning the updated target (the source mutates it in place).  The guards
mirror `getNestedSegs`; an intermediate segment that does not resolve to an
object-typed value raises. -/
def setNestedSegs : Option JVal → List String → JVal → Except String JVal
  | none, _, _ => .error "targetObj is not an object"
  | some x, [], _ =>
    if isObjectTypeof (some x) then .ok x
    else .error "targetObj is not an object"
  | some x, [head], w =>
    if isObjectTypeof (some x) then jsSetKey x head w
    else .error "targetObj is not an object"
  | some x, head :: rest, w =>
    if isObjectTypeof (some x) then
      jsDot (some x) head >>= fun child =>
        setNestedSegs child rest w >>= fun child' => jsSetKey x head child'
    else .error "targetObj is not an object"

/-- Embedding of `Applicator.setNestedProperty`. -/
def setNestedProperty (targetObj : Option JVal) (propertyPath : JVal) (w : JVal) :
    Except String JVal :=
  match propertyPath with
  | .str s => setNestedSegs targetObj (jsSplitDot s) w
  | _ => .error "propertyPath is not a string"

/-- The keys a `for (const parameter in sourceObj)` loop visits: field names
of an object, decimal index strings of an array, nothing otherwise. -/
def jsForInKeys : Option JVal → List String
  | some (.obj fs) => fs.map (fun kv => kv.1)
  | some (.arr xs) => (List.range xs.length).map toString
  | _ => []

/-- Embedding of `Applicator.canApplyValue`: the nested read is inside a
`try` whose `catch` answers `false`; a defined old value must share the new
value's `typeof`. -/
def canApplyValue (targetObj sourceObj : Option JVal) (parameter : String) : Bool :=
  match getNestedProperty targetObj (.str parameter) with
  | .error _ => false
  | .ok oldValue =>
    let newValue := dotSafe sourceObj parameter
    if oldValue ≠ none then jsTypeof oldValue == jsTypeof newValue
    else false

/-- Embedding of `Applicator.canApplyMultiplier`: the multiplier must be a
number and the defined old value must be a number (`NaN` has no image in the
exact-rational number model). -/
def canApplyMultiplier (targetObj sourceObj : Option JVal) (parameter : String) : Bool :=
  match getNestedProperty targetObj (.str parameter) with
  | .error _ => false
  | .ok oldValue =>
    let multiplier := dotSafe sourceObj parameter
    if jsTypeof multiplier != "number" then false
    else if oldValue ≠ none then jsTypeof oldValue == "number"
    else false

/-- Embedding of the `ApplicatorChangeType` enum. -/
inductive ApplicatorChangeType : Type where
  | MULTIPLY : ApplicatorChangeType
  | SET_VALUE : ApplicatorChangeType
deriving DecidableEq

/-- Embedding of `Applicator.canApplyAnyChanges`: true when some entry of the
source mapping passes the per-property dry-run check. -/
def canApplyAnyChanges (targetObj sourceObj : Option JVal)
    (changeType : ApplicatorChangeType) : Bool :=
  match changeType with
  | .MULTIPLY => (jsForInKeys sourceObj).any fun p => canApplyMultiplier targetObj sourceObj p
  | .SET_VALUE => (jsForInKeys sourceObj).any fun p => canApplyValue targetObj sourceObj p

/-- Embedding of `Applicator.tryToApplyValue`, returning the change count
together with the updated target (the source mutates the target in place).
The read/write after the guard cannot fail; the fallback arms keep the
function total over the unreachable cases.  The `oldValue !== newValue` test
is rendered as structural inequality, which agrees with the reference
comparison of the source when at least one side is primitive or when the old
value is the read-back of a write of the new value, but not on a composite
value re-applied over the alias its first write created; `hTryToApplyValue`
below embeds the same function over an explicit store for that case. -/
def tryToApplyValue (targetObj sourceObj : Option JVal) (parameter : String) :
    Except String (Nat × Option JVal) :=
  if canApplyValue targetObj sourceObj parameter then do
    let newValue := dotSafe sourceObj parameter
    let oldValue ← getNestedProperty targetObj (.str parameter)
    if oldValue ≠ newValue then
      match newValue with
      | some w => do
        let t' ← setNestedProperty targetObj (.str parameter) w
        pure (1, some t')
      | none => pure (0, targetObj)
    else pure (0, targetObj)
  else pure (0, targetObj)

/-- Embedding of `Applicator.tryToApplyMultiplier`.  Note the source writes
the product back unconditionally and only then compares it with the old
value to decide the count, so the returned target is the written one even
when the count is `0`. -/
def tryToApplyMultiplier (targetObj sourceObj : Option JVal) (parameter : String) :
    Except String (Nat × Option JVal) :=
  if canApplyMultiplier targetObj sourceObj parameter then do
    let multiplier := dotSafe sourceObj parameter
    let oldValue ← getNestedProperty targetObj (.str parameter)
    match multiplier, oldValue with
    | some (.num m), some (.num q) => do
      let t' ← setNestedProperty targetObj (.str parameter) (.num (q * m))
      let readBack ← getNestedProperty (some t') (.str parameter)
      if (some (JVal.num q) : Option JVal) ≠ readBack then pure (1, some t')
      else pure (0, some t')
    | _, _ => pure (0, targetObj)
  else pure (0, targetObj)

/-- One step of `tryToApplyAllChanges`, dispatching on the change type. -/
def tryToApplyStep (changeType : ApplicatorChangeType)
    (targetObj sourceObj : Option JVal) (parameter : String) :
    Except String (Nat × Option JVal) :=
  match changeType with
  | .MULTIPLY => tryToApplyMultiplier targetObj sourceObj parameter
  | .SET_VALUE => tryToApplyValue targetObj sourceObj parameter

/-- The `for (const parameter in sourceObj)` accumulation inside
`tryToApplyAllChanges`. -/
def tryToApplyAllGo (changeType : ApplicatorChangeType) (sourceObj : Option JVal) :
    List String → Option JVal → Nat → Except String (Nat × Option JVal)
  | [], t, acc => .ok (acc, t)
  | p :: ps, t, acc => do
    let (c, t') ← tryToApplyStep changeType t sourceObj p
    tryToApplyAllGo changeType sourceObj ps t' (acc + c)

/-- Embedding of `Applicator.tryToApplyAllChanges`: every entry of the source
mapping is attempted independently and the change counts are summed. -/
def tryToApplyAllChanges (targetObj sourceObj : Option JVal)
    (changeType : ApplicatorChangeType) : Except String (Nat × Option JVal) :=
  tryToApplyAllGo changeType sourceObj (jsForInKeys sourceObj) targetObj 0

/-- Modelled from the spec: `Applicator.filterObjectProperties` is called by
the orchestrator (`applySelector`) but its definition is not among the
provided sources.  Per the override-precedence contract of the spec
(sections 4.6 and 7, overrides always win on the properties they touch), it
returns the given mapping restricted to the keys satisfying the predicate;
a non-object value is returned unchanged. -/
def filterObjectProperties (v : JVal) (pred : String → Bool) : JVal :=
  match v with
  | .obj fs => .obj (fs.filter fun kv => pred kv.1)
  | x => x

/-- Coercion `value + ""` as the query evaluator performs it.  Only the
string case is reachable in the string-operation branch (the type-mismatch
guard has already ruled everything else out); the remaining cases are
placeholders in the JS spirit. -/
def jsToString : JVal → String
  | .str s => s
  | .bool b => if b then "true" else "false"
  | .null => "null"
  | .num q => toString q
  | .arr _ => ""
  | .obj _ => "[object Object]"

/-- Wildcard match of a pattern body against a prefix of the text: each atom
is a literal character except `.`, which matches any character. -/
def reMatchHere : List Char → List Char → Bool
  | [], _ => true
  | _ :: _, [] => false
  | a :: as, c :: cs => (a == '.' || a == c) && reMatchHere as cs

/-- Wildcard match of a pattern body against the whole text. -/
def reMatchExact (body s : List Char) : Bool :=
  reMatchHere body s && body.length == s.length

/-- Unanchored search: the body matches at some position of the text. -/
def reSearch : List Char → List Char → Bool
  | body, [] => reMatchHere body []
  | body, c :: cs => reMatchHere body (c :: cs) || reSearch body cs

/-- End-anchored search: the body matches some suffix of the text exactly. -/
def reSearchEnd : List Char → List Char → Bool
  | body, [] => reMatchExact body []
  | body, c :: cs => reMatchExact body (c :: cs) || reSearchEnd body cs

/-- Model of `new RegExp(pattern).test(s)` restricted to the pattern
fragment the query evaluator builds: an optional leading `^` anchor, an
optional trailing `$` anchor, and a body of single-character atoms in which
`.` matches any character.  Other regex metacharacters are treated as
literal characters; every theorem below stays inside the modelled
fragment. -/
def jsRegexTest (pattern s : String) : Bool :=
  let pd := pattern.data
  let anchorStart : Bool := decide (pd.head? = some '^')
  let body0 := if anchorStart then pd.tail else pd
  let anchorEnd : Bool := decide (body0.getLast? = some '$')
  let body := if anchorEnd then body0.dropLast else body0
  if anchorStart && anchorEnd then reMatchExact body s.data
  else if anchorStart then reMatchHere body s.data
  else if anchorEnd then reSearchEnd body s.data
  else reSearch body s.data

/-- Negation step `negation ? !result : result`. -/
def applyNeg (negationB r : Bool) : Bool := if negationB then !r else r

/-- The `some`/`every` dispatch over the `values` list
(`strict ? values.every : values.some`). -/
def evalOpTest (strictB : Bool) (vals : List JVal) (pred : JVal → Bool) : Bool :=
  if strictB then vals.all pred else vals.any pred

/-- Relational comparison `propValue > value` in the number branch (all
compared values are numbers there, the mismatch guard having thrown
otherwise). -/
def jsNumGt (q : Rat) : JVal → Bool
  | .num m => q > m
  | _ => false

/-- Relational comparison `propValue < value` in the number branch. -/
def jsNumLt (q : Rat) : JVal → Bool
  | .num m => q < m
  | _ => false

/-- The first character of a string as `charAt(0)` returns it: a
one-character string, or the empty string. -/
def jsCharAt0 (s : String) : String :=
  match s.data with
  | [] => ""
  | c :: _ => String.mk [c]

/-- Embedding of `Query.isPrivateProperty` at its dynamic call sites: the
argument is whatever `query.key` held; `charAt` on a non-string raises. -/
def isPrivateProperty (propertyName : Option JVal) : Except String Bool :=
  match propertyName with
  | some (.str s) => .ok (decide (jsCharAt0 s = "_"))
  | _ => .error "TypeError: charAt is not a function"

/-- `getNestedProperty` with the property path as the possibly-`undefined`
value the caller read out of the expression. -/
def getNestedPropertyOpt (targetObj pathV : Option JVal) : Except String (Option JVal) :=
  match pathV with
  | some pv => getNestedProperty targetObj pv
  | none => .error "propertyPath is not a string"

/-- Embedding of `Query.isBasicExpression` (both query variants are
identical here).  The source mixes `&&` and `||` without parentheses, so it
is the disjunction of four groups, and only the first group is guarded by
the `obj != null` test: on a `null`/`undefined` argument the second group's
property access raises a `TypeError`.  Note that the `values` array is
checked by the fourth group alone. -/
def isBasicExpression (q : Option JVal) : Except String Bool :=
  if jsNonNull q && jsTypeof (dotSafe q "key") == "string"
      && jsTypeof (dotSafe q "operation") == "string" then
    .ok true
  else do
    let op ← jsDot q "operation"
    let neg := dotSafe q "negation"
    let strictV := dotSafe q "strict"
    let vals := dotSafe q "values"
    .ok ((jsTypeof op == "undefined" && jsTypeof neg == "boolean")
      || (jsTypeof neg == "undefined" && jsTypeof strictV == "boolean")
      || (jsTypeof strictV == "undefined" && jsIsArray vals))

/-- Embedding of `Query.isLogicalExpression`, with the same unparenthesised
`&&`/`||` grouping: two groups, the second unguarded against `null`. -/
def isLogicalExpression (q : Option JVal) : Except String Bool :=
  if jsNonNull q
      && (dotSafe q "condition" == some (JVal.str "and")
        || dotSafe q "condition" == some (JVal.str "or"))
      && jsTypeof (dotSafe q "negation") == "boolean" then
    .ok true
  else do
    let neg ← jsDot q "negation"
    let exprs := dotSafe q "expressions"
    .ok (jsTypeof neg == "undefined" && jsIsArray exprs)

theorem sizeOf_list_pos (l : List JVal) : 0 < sizeOf l := by
  cases l <;> simp

theorem sizeOf_lookupField {fs : List (String × JVal)} {k : String} {v : JVal}
    (h : lookupField fs k = some v) : sizeOf v < sizeOf fs := by
  induction fs with
  | nil => simp [lookupField] at h
  | cons kv fs ih =>
    obtain ⟨k', v'⟩ := kv
    by_cases hk : k' = k
    · simp [lookupField, hk] at h
      subst h
      simp
      omega
    · simp [lookupField, hk] at h
      have := ih h
      simp
      omega

theorem sizeOf_mem_list {xs : List JVal} {x : JVal} (h : x ∈ xs) : sizeOf x < sizeOf xs := by
  induction xs with
  | nil => simp at h
  | cons y ys ih =>
    simp at h
    rcases h with h | h
    · subst h; simp; omega
    · have := ih h; simp; omega

theorem sizeOf_dotSafe_arr {e : JVal} {k : String} {xs : List JVal}
    (h : dotSafe (some e) k = some (.arr xs)) : sizeOf xs < sizeOf e := by
  cases e with
  | obj fs =>
    simp [dotSafe] at h
    have := sizeOf_lookupField h
    simp at *
    omega
  | arr ys =>
    simp only [dotSafe] at h
    rw [arrIndex, Option.bind_eq_some] at h
    obtain ⟨i, _, hget⟩ := h
    have hmem : JVal.arr xs ∈ ys := List.get?_mem hget
    have := sizeOf_mem_list hmem
    simp at *
    omega
  | str s =>
    simp only [dotSafe] at h
    split at h
    · simp at h
    · rw [Option.bind_eq_some] at h
      obtain ⟨i, _, hmap⟩ := h
      rw [Option.map_eq_some'] at hmap
      obtain ⟨c, _, hc⟩ := hmap
      simp at hc
  | null => simp [dotSafe] at h
  | bool b => simp [dotSafe] at h
  | num q => simp [dotSafe] at h

mutual

/-- Embedding of `Query.isQuery`: a value is never both variants at once; a
basic expression stands alone; a logical expression requires every child to
be a query in turn.  The child iteration `expressions.every(...)` raises a
`TypeError` when the `expressions` field is not an array, which the
unparenthesised first group of `isLogicalExpression` does not rule out. -/
def isQuery (q : Option JVal) : Except String Bool := do
  let isBasicExpr ← isBasicExpression q
  let isLogicExpr ← isLogicalExpression q
  if isBasicExpr && isLogicExpr then pure false
  else if isBasicExpr then pure true
  else if isLogicExpr then
    match q with
    | some (JVal.obj fs) =>
      match hf : lookupField fs "expressions" with
      | some (JVal.arr xs) => isQueryList xs
      | _ => .error "TypeError: expressions.every is not a function"
    | _ => .error "TypeError: expressions.every is not a function"
  else pure false
termination_by sizeOf q
decreasing_by
  have h1 := sizeOf_lookupField hf
  simp at *
  omega

/-- The `expressions.every(expression => this.isQuery(expression))` fold,
short-circuiting on the first failing child as `every` does. -/
def isQueryList : List JVal → Except String Bool
  | [] => pure true
  | e :: es => do
    let b ← isQuery (some e)
    if b then isQueryList es else pure false
termination_by xs => sizeOf xs
decreasing_by
  all_goals have hp := sizeOf_list_pos es
  all_goals simp
  all_goals omega

end

/-- The body of the `try` block of `Query.evaluateBasicExpression` (the
query variant that resolves the key through `Applicator.getNestedProperty`).
A `null`/`undefined` resolved value returns `false` directly, before any
type check and without the negation being applied; a type mismatch against
any compared value of a non-array resolved value throws, as does an
operation unsupported for the resolved type. -/
def evaluateBasicTry (keyV valuesV : Option JVal) (operation : JVal)
    (strictB negationB : Bool) (targetObj : Option JVal) : Except String Bool := do
  let propValue ← getNestedPropertyOpt targetObj keyV
  match propValue with
  | none => pure false
  | some .null => pure false
  | some pv => do
    let propType := jsTypeof (some pv)
    let vlist ← match valuesV with
      | some (.arr xs) => pure xs
      | _ => Except.error "TypeError: values.some is not a function"
    if vlist.any (fun w => propType ≠ jsTypeof (some w)) && !(jsIsArray (some pv)) then
      Except.error "values do not match target property type"
    else if operation = JVal.str "equals" then
      pure (applyNeg negationB (evalOpTest strictB vlist fun w => JVal.beq pv w))
    else
      match pv with
      | .str s =>
        if operation = JVal.str "contains" then
          pure (applyNeg negationB
            (evalOpTest strictB vlist fun w => jsRegexTest (jsToString w) s))
        else if operation = JVal.str "starts_with" then
          pure (applyNeg negationB
            (evalOpTest strictB vlist fun w => jsRegexTest ("^" ++ jsToString w) s))
        else if operation = JVal.str "ends_with" then
          pure (applyNeg negationB
            (evalOpTest strictB vlist fun w => jsRegexTest (jsToString w ++ "$") s))
        else Except.error "cannot apply this operation to type string"
      | .num q =>
        if operation = JVal.str "greater_than" then
          pure (applyNeg negationB (evalOpTest strictB vlist fun w => jsNumGt q w))
        else if operation = JVal.str "less_than" then
          pure (applyNeg negationB (evalOpTest strictB vlist fun w => jsNumLt q w))
        else Except.error "cannot apply this operation to type number"
      | .arr _ => Except.error "cannot apply this operation to type object"
      | .obj _ => Except.error "cannot apply this operation to type object"
      | .null => Except.error "cannot apply this operation to type object"
      | .bool _ => Except.error "what kind of type is this"

/-- Embedding of `Query.evaluateBasicExpression` (newer variant): the field
reads happen before the `try`, so destructuring a `null`/`undefined`
expression raises to the caller, while everything inside the `try` fails
closed to the negated default `negation ? true : false`. -/
def evaluateBasicExpression (expression targetObj : Option JVal) : Except String Bool :=
  match expression with
  | none => .error "TypeError: cannot destructure a nullish expression"
  | some .null => .error "TypeError: cannot destructure a nullish expression"
  | some e =>
    let keyV := dotSafe (some e) "key"
    let valuesV := dotSafe (some e) "values"
    let operation := match dotSafe (some e) "operation" with
      | none => JVal.str "equals"
      | some .null => JVal.str "equals"
      | some x => x
    let negationB := jsTruthy (dotSafe (some e) "negation")
    let strictB := jsTruthy (dotSafe (some e) "strict")
    match evaluateBasicTry keyV valuesV operation strictB negationB targetObj with
    | .ok b => .ok b
    | .error _ => .ok (if negationB then true else false)

mutual

/-- Embedding of `Query.evaluateQuery`: validate the shape, dispatch logical
expressions, and evaluate basic expressions against the record root when the
key starts with an underscore and against its `_props` subtree otherwise.
A value failing `isQuery` raises the structure error. -/
def evaluateQuery (query targetObj : Option JVal) : Except String Bool := do
  let isQ ← isQuery query
  if isQ then do
    let isLogicExpr ← isLogicalExpression query
    if isLogicExpr then evaluateLogicalExpression query targetObj
    else do
      let isBasicExpr ← isBasicExpression query
      if isBasicExpr then do
        let keyV ← jsDot query "key"
        let priv ← isPrivateProperty keyV
        if priv then evaluateBasicExpression query targetObj
        else do
          let props ← jsDot targetObj "_props"
          evaluateBasicExpression query props
      else Except.error "Wrong expression object structure."
  else Except.error "Wrong expression object structure."
termination_by (sizeOf query, 1)

/-- Embedding of `Query.evaluateLogicalExpression`: read `negation`, pick
`every` or `some` by the loose test `condition == "and"`, fold the children
through `evaluateQuery`, and negate.  Calling the fold on a non-array
`expressions` raises a `TypeError`. -/
def evaluateLogicalExpression (expression targetObj : Option JVal) :
    Except String Bool := do
  match expression with
  | none => Except.error "TypeError: cannot destructure a nullish expression"
  | some .null => Except.error "TypeError: cannot destructure a nullish expression"
  | some e =>
    let negationB := jsTruthy (dotSafe (some e) "negation")
    let isAnd := dotSafe (some e) "condition" == some (JVal.str "and")
    match hx : dotSafe (some e) "expressions" with
    | some (JVal.arr xs) => do
      let r ← if isAnd then evalQueryAll xs targetObj else evalQueryAny xs targetObj
      pure (applyNeg negationB r)
    | _ => Except.error "TypeError: expressions its every and some are unavailable"
termination_by (sizeOf expression, 0)
decreasing_by
  all_goals have h1 := sizeOf_dotSafe_arr hx
  all_goals apply Prod.Lex.left
  all_goals simp
  all_goals omega

/-- The `expressions.every(...)` fold over the children. -/
def evalQueryAll : List JVal → Option JVal → Except String Bool
  | [], _ => pure true
  | e :: es, t => do
    let b ← evaluateQuery (some e) t
    if b then evalQueryAll es t else pure false
termination_by xs _ => (sizeOf xs, 0)
decreasing_by
  all_goals have hp := sizeOf_list_pos es
  all_goals apply Prod.Lex.left
  all_goals simp
  all_goals omega

/-- The `expressions.some(...)` fold over the children. -/
def evalQueryAny : List JVal → Option JVal → Except String Bool
  | [], _ => pure false
  | e :: es, t => do
    let b ← evaluateQuery (some e) t
    if b then pure true else evalQueryAny es t
termination_by xs _ => (sizeOf xs, 0)
decreasing_by
  all_goals have hp := sizeOf_list_pos es
  all_goals apply Prod.Lex.left
  all_goals simp
  all_goals omega

end

/-- The item database: record identifier to record, in insertion order. -/
abbrev DbItems := List (String × JVal)

/-- Generic first-binding lookup for the orchestrator's `Map`s. -/
def lookupAssoc {α : Type} : List (String × α) → String → Option α
  | [], _ => none
  | (k, v) :: rest, key => if k = key then some v else lookupAssoc rest key

/-- `Map.set` semantics: replace the first binding in place, else append. -/
def setAssoc {α : Type} : List (String × α) → String → α → List (String × α)
  | [], k, v => [(k, v)]
  | (k', v') :: rest, k, v =>
    if k' = k then (k', v) :: rest else (k', v') :: setAssoc rest k v

/-- Embedding of `isValidItem` (the default validator): non-null, `_type`
strictly `"Item"`, non-null `_props` and `_name`. -/
def isValidItem (item : Option JVal) : Bool :=
  jsNonNull item && dotSafe item "_type" == some (JVal.str "Item")
    && jsNonNull (dotSafe item "_props") && jsNonNull (dotSafe item "_name")

/-- Monadic filter over the database entries, keeping the identifiers whose
predicate answers true (the `Object.keys(dbItems).filter(...)` pattern). -/
def filterIdsM (f : String → JVal → Except String Bool) : DbItems → Except String (List String)
  | [] => pure []
  | (id, item) :: rest => do
    let b ← f id item
    let tail ← filterIdsM f rest
    pure (if b then id :: tail else tail)

/-- Embedding of `ItemTweaker.getMatchingItemIds`: the identifiers of valid
items whose record satisfies the selector query. -/
def getMatchingItemIds (dbItems : DbItems) (selector : Option JVal) :
    Except String (List String) :=
  filterIdsM (fun _ item => do
    if isValidItem (some item) then do
      let q ← jsDot selector "query"
      evaluateQuery q (some item)
    else pure false) dbItems

/-- Embedding of `ItemTweaker.getAffectedItemIds` (newer variant): matching
items for which at least one multiply or set entry is type-applicable.  The
`_props` dereference happens before the validator runs, as in the source. -/
def getAffectedItemIds (dbItems : DbItems) (selector : Option JVal) :
    Except String (List String) :=
  filterIdsM (fun _ item => do
    let props ← jsDot (some item) "_props"
    if isValidItem (some item) then do
      let q ← jsDot selector "query"
      let m ← evaluateQuery q (some item)
      if m then do
        let mult ← jsDot selector "multiply"
        let setv ← jsDot selector "set"
        pure (canApplyAnyChanges props mult .MULTIPLY
          || canApplyAnyChanges props setv .SET_VALUE)
      else pure false
    else pure false) dbItems

/-- Derived per-selector metadata, as in the `SelectorMetaData` type. -/
structure SelectorMetaData : Type where
  matchingIds : List String
  affectedIds : List String
  changedProperties : List String
  isValid : Bool
deriving DecidableEq

/-- Derived per-override metadata, as in the `OverwriteMetaData` type. -/
structure OverwriteMetaData : Type where
  name : String
  changedProperties : List String
deriving DecidableEq

/-- The `x.constructor.name` read on a non-null value. -/
def jsCtorName : JVal → String
  | .obj _ => "Object"
  | .arr _ => "Array"
  | .bool _ => "Boolean"
  | .num _ => "Number"
  | .str _ => "String"
  | .null => "Null"

/-- The rejection test `m === null || (m != null && m.constructor.name !==
"Object")` applied to the `multiply`/`set` properties of a selector. -/
def badMapping : Option JVal → Bool
  | none => false
  | some .null => true
  | some x => jsCtorName x != "Object"

/-- First-occurrence deduplication, the image of `[...new Set(xs)]`. -/
def jsSetDedupGo (seen : List String) : List String → List String
  | [] => []
  | x :: xs => if x ∈ seen then jsSetDedupGo seen xs else x :: jsSetDedupGo (x :: seen) xs

/-- The `[...new Set(xs)]` spread. -/
def jsSetDedup (xs : List String) : List String := jsSetDedupGo [] xs

/-- The nullish coalescing `m ?? {}` before `Object.keys`/filtering. -/
def nullishOrEmptyObj : Option JVal → JVal
  | none => .obj []
  | some .null => .obj []
  | some x => x

/-- Embedding of `ItemTweaker.getSelectorMetaData` (newer variant): a
selector is valid when its query passes `isQuery` and its `multiply`/`set`
are absent or plain objects; only then are matching and affected identifiers
computed.  The union of touched property names is deduplicated. -/
def getSelectorMetaData (dbItems : DbItems) (selector : Option JVal) :
    Except String SelectorMetaData := do
  let multiply ← jsDot selector "multiply"
  let setv ← jsDot selector "set"
  let q ← jsDot selector "query"
  let isQ ← isQuery q
  if isQ then
    if badMapping multiply || badMapping setv then
      pure ⟨[], [], [], false⟩
    else do
      let matching ← getMatchingItemIds dbItems selector
      let affected ← getAffectedItemIds dbItems selector
      pure ⟨matching, affected,
        jsSetDedup (jsForInKeys multiply ++ jsForInKeys setv), true⟩
  else
    pure ⟨[], [], [], false⟩

/-- The overwrite-metadata collection loop of `postDBLoad`: resolve each
display name to the first database identifier carrying it as `_name`, and
record the concatenated (not deduplicated) touched property names; an
unresolved name is skipped. -/
def computeOverwritesMetaGo (dbItems : DbItems)
    (acc : List (String × OverwriteMetaData)) :
    List (String × JVal) → Except String (List (String × OverwriteMetaData))
  | [] => pure acc
  | (itemName, ow) :: rest =>
    match dbItems.find? (fun kv => dotSafe (some kv.2) "_name" == some (JVal.str itemName)) with
    | some kv => do
      let mult ← jsDot (some ow) "multiply"
      let setv ← jsDot (some ow) "set"
      computeOverwritesMetaGo dbItems
        (setAssoc acc kv.1 ⟨itemName, jsForInKeys mult ++ jsForInKeys setv⟩) rest
    | none => computeOverwritesMetaGo dbItems acc rest

/-- The overwrite metadata of a pass. -/
def computeOverwritesMeta (dbItems : DbItems) (overrides : List (String × JVal)) :
    Except String (List (String × OverwriteMetaData)) :=
  computeOverwritesMetaGo dbItems [] overrides

/-- Replace the first binding of an identifier in the database. -/
def updateAssoc : DbItems → String → JVal → DbItems
  | [], _, _ => []
  | (k, v) :: rest, id, nv =>
    if k = id then (k, nv) :: rest else (k, v) :: updateAssoc rest id nv

/-- Store the mutated `_props` back into the item record; in the source the
applicator wrote through the `properties` alias, which this models. -/
def writeProps (db : DbItems) (id : String) (newProps : Option JVal) : DbItems :=
  match lookupField db id with
  | some (JVal.obj fs) =>
    match newProps with
    | some p => updateAssoc db id (JVal.obj (jsSetKey.setField fs "_props" p))
    | none => db
  | _ => db

/-- Per-identifier loop of `ItemTweaker.applySelector` (newest variant):
validate, evaluate the query on the record, and, when the item appears in
the overwrite metadata, filter the selector's `multiply`/`set` down to keys
the override does not touch before applying both batches. -/
def applySelectorGo (selector : Option JVal) (om : List (String × OverwriteMetaData)) :
    List String → DbItems → Nat → Nat → List String →
    Except String (Nat × Nat × List String × DbItems)
  | [], db, cc, cic, cids => pure (cc, cic, cids, db)
  | id :: ids, db, cc, cic, cids => do
    let item := lookupField db id
    let props ← jsDot item "_props"
    if isValidItem item then do
      let q ← jsDot selector "query"
      let m ← evaluateQuery q item
      if m then do
        let multiplyRaw ← jsDot selector "multiply"
        let setRaw ← jsDot selector "set"
        if jsNonNull multiplyRaw || jsNonNull setRaw then do
          let multiply := match lookupAssoc om id with
            | some meta => some (filterObjectProperties (nullishOrEmptyObj multiplyRaw)
                (fun k => !(meta.changedProperties.contains k)))
            | none => multiplyRaw
          let setv := match lookupAssoc om id with
            | some meta => some (filterObjectProperties (nullishOrEmptyObj setRaw)
                (fun k => !(meta.changedProperties.contains k)))
            | none => setRaw
          let r1 ← tryToApplyAllChanges props multiply .MULTIPLY
          let r2 ← tryToApplyAllChanges r1.2 setv .SET_VALUE
          let total := r1.1 + r2.1
          let db' := writeProps db id r2.2
          if total > 0 then
            applySelectorGo selector om ids db' (cc + total) (cic + 1) (cids ++ [id])
          else
            applySelectorGo selector om ids db' cc cic cids
        else applySelectorGo selector om ids db cc cic cids
      else applySelectorGo selector om ids db cc cic cids
    else applySelectorGo selector om ids db cc cic cids

/-- Embedding of `ItemTweaker.applySelector` (newest variant), returning the
change count, changed item count, changed identifiers and the database. -/
def applySelector (dbItems : DbItems) (selector : Option JVal) (itemIds : List String)
    (overwriteMetaMap : List (String × OverwriteMetaData)) :
    Except String (Nat × Nat × List String × DbItems) :=
  applySelectorGo selector overwriteMetaMap itemIds dbItems 0 0 []

/-- The selector-metadata collection loop of `postDBLoad`. -/
def computeSelectorsMetaGo (dbItems : DbItems)
    (acc : List (String × SelectorMetaData)) :
    List (String × JVal) → Except String (List (String × SelectorMetaData))
  | [] => pure acc
  | (key, sel) :: rest => do
    let md ← getSelectorMetaData dbItems (some sel)
    computeSelectorsMetaGo dbItems (setAssoc acc key md) rest

/-- The selector metadata of a pass. -/
def computeSelectorsMeta (dbItems : DbItems) (selectors : List (String × JVal)) :
    Except String (List (String × SelectorMetaData)) :=
  computeSelectorsMetaGo dbItems [] selectors

/-- The selector-application phase of `postDBLoad`: each valid selector is
applied, over its affected identifiers when any exist and its matching
identifiers otherwise, with the overwrite metadata supplied for property
filtering. -/
def runSelectorsPhase (selectors : List (String × JVal))
    (om : List (String × OverwriteMetaData)) :
    List (String × SelectorMetaData) → DbItems → Except String DbItems
  | [], db => pure db
  | (key, meta) :: rest, db =>
    if meta.isValid then do
      let selector := lookupField selectors key
      let itemIds := if meta.affectedIds.length < 1 then meta.matchingIds else meta.affectedIds
      let r ← applySelector db selector itemIds om
      runSelectorsPhase selectors om rest r.2.2.2
    else runSelectorsPhase selectors om rest db

/-- The one-record query object the overwrite phase synthesizes for an
override: match `_id` strictly against the single identifier. -/
def overrideQueryObj (id : String) : JVal :=
  JVal.obj [("key", JVal.str "_id"), ("operation", JVal.str "equals"),
    ("values", JVal.arr [JVal.str id])]

/-- The one-record selector the overwrite phase synthesizes for an override:
the `_id` query plus the override's own `multiply`/`set` mappings when
present. -/
def overrideOneSel (id : String) (mult setv : Option JVal) : JVal :=
  JVal.obj
    ([("query", overrideQueryObj id)]
      ++ (match mult with | some mv => [("multiply", mv)] | none => [])
      ++ (match setv with | some sv => [("set", sv)] | none => []))

/-- The manual-overwrite phase of `postDBLoad`: each resolved override is
turned into a one-record selector on `_id` and applied without any
overwrite filtering. -/
def runOverridesPhase (overrides : List (String × JVal)) :
    List (String × OverwriteMetaData) → DbItems → Except String DbItems
  | [], db => pure db
  | (id, meta) :: rest, db => do
    let ow := lookupField overrides meta.name
    let mult ← jsDot ow "multiply"
    let setv ← jsDot ow "set"
    let r ← applySelector db (some (overrideOneSel id mult setv)) [id] []
    runOverridesPhase overrides rest r.2.2.2

/-- A full pass of `ItemTweaker.postDBLoad` over one record collection, one
selector set and one override set: collect both metadata tables, apply the
valid selectors in configuration order, then apply the overrides.  The
conflict check between the two stages only logs and never mutates, so it
does not appear in the state. -/
def runPass (db0 : DbItems) (selectors overrides : List (String × JVal)) :
    Except String DbItems := do
  let metas ← computeSelectorsMeta db0 selectors
  let om ← computeOverwritesMeta db0 overrides
  let db1 ← runSelectorsPhase selectors om metas db0
  runOverridesPhase overrides om db1

/-- The value a dotted path reads off a record's `_props` subtree, the
observation the override-precedence contract is about. -/
def readItemPath (db : DbItems) (id p : String) : Except String (Option JVal) :=
  getNestedProperty
    (match lookupField db id with
      | some it => dotSafe (some it) "_props"
      | none => none)
    (.str p)

/-- The property keys a selector still applies to an item after the
overwrite filtering of `applySelector`: its `multiply` and `set` keys not
covered by the item's override (non-object mappings pass the filter
unchanged). -/
def filteredMappingKeys (sel : Option JVal) (covered : List String) : List String :=
  jsForInKeys (some (filterObjectProperties (nullishOrEmptyObj (dotSafe sel "multiply"))
      (fun k => !(covered.contains k))))
    ++ jsForInKeys (some (filterObjectProperties (nullishOrEmptyObj (dotSafe sel "set"))
      (fun k => !(covered.contains k))))

/-- One reported conflict: the two selector keys, the conflicting item
identifiers as reported after the overwrite removal loop, and the
conflicting property names. -/
structure ConflictEntry : Type where
  firstKey : String
  secondKey : String
  items : List String
  props : List String
deriving DecidableEq

/-- The overwrite removal loop inside the conflict check: for each overwrite
identifier present in the current intersection, splice out its first
occurrence. -/
def removeOverridden : List String → List String → List String
  | [], cur => cur
  | k :: ks, cur => removeOverridden ks (if k ∈ cur then cur.erase k else cur)

/-- The inner loop of the conflict check of `postDBLoad`: compare one
selector against every other not yet checked, and report a conflict when
both the matched-identifier intersection and the touched-property
intersection are non-empty, with overridden identifiers removed from the
reported items. -/
def conflictInner (omKeys : List String) (selectorKey : String)
    (sc : SelectorMetaData) (checked : List String) :
    List (String × SelectorMetaData) → List ConflictEntry
  | [] => []
  | (key, other) :: rest =>
    if selectorKey ≠ key ∧ key ∉ checked then
      let idI := sc.matchingIds.filter fun e => other.matchingIds.contains e
      let propsI := sc.changedProperties.filter fun e => other.changedProperties.contains e
      if idI ≠ [] ∧ propsI ≠ [] then
        ⟨selectorKey, key, removeOverridden omKeys idI, propsI⟩
          :: conflictInner omKeys selectorKey sc checked rest
      else conflictInner omKeys selectorKey sc checked rest
    else conflictInner omKeys selectorKey sc checked rest

/-- The outer loop of the conflict check, pushing each selector key onto
`checkedSelectors` after its inner pass. -/
def conflictOuterGo (metas : List (String × SelectorMetaData)) (omKeys : List String) :
    List String → List (String × SelectorMetaData) → List ConflictEntry
  | _, [] => []
  | checked, (k, sc) :: rest =>
    conflictInner omKeys k sc checked metas
      ++ conflictOuterGo metas omKeys (checked ++ [k]) rest

/-- Embedding of the conflict check of `postDBLoad` as the list of conflict
reports it logs, in order. -/
def conflictEntries (metas : List (String × SelectorMetaData))
    (om : List (String × OverwriteMetaData)) : List ConflictEntry :=
  conflictOuterGo metas (om.map fun kv => kv.1) [] metas

/-- The report one ordered pair of distinct selectors produces, if any: both
intersections must be non-empty, and every identifier having an override is
dropped from the reported items (whether or not the override covers the
conflicting properties). -/
def conflictPair (omKeys : List String) (k k' : String) (sc other : SelectorMetaData) :
    Option ConflictEntry :=
  let idI := sc.matchingIds.filter fun e => other.matchingIds.contains e
  let propsI := sc.changedProperties.filter fun e => other.changedProperties.contains e
  if idI ≠ [] ∧ propsI ≠ [] then
    some ⟨k, k', idI.filter (fun i => !omKeys.contains i), propsI⟩
  else none

/-- The conflict reports in canonical form: one per unordered pair of
distinct selectors, the earlier key first, in configuration order. -/
def canonicalConflicts (omKeys : List String) :
    List (String × SelectorMetaData) → List ConflictEntry
  | [] => []
  | (k, sc) :: rest =>
    rest.filterMap (fun kv => conflictPair omKeys k kv.1 sc kv.2)
      ++ canonicalConflicts omKeys rest

theorem exceptBind_ok {ε α β : Type} (a : α) (f : α → Except ε β) :
    (Except.ok a >>= f) = f a := rfl

theorem exceptBind_error {ε α β : Type} (e : ε) (f : α → Except ε β) :
    ((Except.error e : Except ε α) >>= f) = Except.error e := rfl

/-- A canonical basic-expression object with the given fields, optional ones
present exactly when supplied. -/
def mkBasicExpr (key : String) (operation : Option String) (values : List JVal)
    (negation strict : Option Bool) : JVal :=
  .obj ([("key", .str key)]
    ++ (match operation with | some o => [("operation", JVal.str o)] | none => [])
    ++ [("values", .arr values)]
    ++ (match negation with | some b => [("negation", JVal.bool b)] | none => [])
    ++ (match strict with | some b => [("strict", JVal.bool b)] | none => []))

theorem mkBasicExpr_key (key : String) (operation : Option String) (values : List JVal)
    (negation strict : Option Bool) :
    dotSafe (some (mkBasicExpr key operation values negation strict)) "key"
      = some (.str key) := by
  cases operation <;> cases negation <;> cases strict <;>
    simp [mkBasicExpr, dotSafe, lookupField]

theorem mkBasicExpr_operation (key : String) (operation : Option String) (values : List JVal)
    (negation strict : Option Bool) :
    dotSafe (some (mkBasicExpr key operation values negation strict)) "operation"
      = operation.map JVal.str := by
  cases operation <;> cases negation <;> cases strict <;>
    simp [mkBasicExpr, dotSafe, lookupField]

theorem mkBasicExpr_values (key : String) (operation : Option String) (values : List JVal)
    (negation strict : Option Bool) :
    dotSafe (some (mkBasicExpr key operation values negation strict)) "values"
      = some (.arr values) := by
  cases operation <;> cases negation <;> cases strict <;>
    simp [mkBasicExpr, dotSafe, lookupField]

theorem mkBasicExpr_negation (key : String) (operation : Option String) (values : List JVal)
    (negation strict : Option Bool) :
    dotSafe (some (mkBasicExpr key operation values negation strict)) "negation"
      = negation.map JVal.bool := by
  cases operation <;> cases negation <;> cases strict <;>
    simp [mkBasicExpr, dotSafe, lookupField]

theorem mkBasicExpr_strict (key : String) (operation : Option String) (values : List JVal)
    (negation strict : Option Bool) :
    dotSafe (some (mkBasicExpr key operation values negation strict)) "strict"
      = strict.map JVal.bool := by
  cases operation <;> cases negation <;> cases strict <;>
    simp [mkBasicExpr, dotSafe, lookupField]

theorem mkBasicExpr_ne_null (key : String) (operation : Option String) (values : List JVal)
    (negation strict : Option Bool) :
    mkBasicExpr key operation values negation strict ≠ JVal.null := by
  cases operation <;> cases negation <;> cases strict <;> simp [mkBasicExpr]

theorem evaluateBasicExpression_mk (key : String) (operation : Option String)
    (values : List JVal) (negation strict : Option Bool) (target : Option JVal) :
    evaluateBasicExpression (some (mkBasicExpr key operation values negation strict)) target
      = match evaluateBasicTry (some (.str key)) (some (.arr values))
          (JVal.str (operation.getD "equals")) (strict.getD false) (negation.getD false)
          target with
        | .ok b => .ok b
        | .error _ => .ok (if negation.getD false then true else false) := by
  cases operation <;> cases negation <;> cases strict <;>
    simp [evaluateBasicExpression, mkBasicExpr, dotSafe, lookupField, jsTruthy]

/-- C3 (amended): when the key of a basic expression resolves on the record
to `undefined` or `null`, evaluation answers `.ok false` whatever the
`negation` flag is — the absent case returns `false` directly, before
negation would be applied. -/
theorem evaluateBasic_absent_false (key : String) (operation : Option String)
    (values : List JVal) (negation strict : Option Bool) (target : Option JVal)
    (h : getNestedProperty target (.str key) = .ok none
      ∨ getNestedProperty target (.str key) = .ok (some .null)) :
    evaluateBasicExpression (some (mkBasicExpr key operation values negation strict)) target
      = .ok false := by
  rw [evaluateBasicExpression_mk]
  rcases h with h | h <;>
    simp [evaluateBasicTry, getNestedPropertyOpt, h, exceptBind_ok, pure, Except.pure]

theorem evaluateBasic_absent_false_witness :
    evaluateBasicExpression (some (mkBasicExpr "k" none [.str "rifle"] (some true) none))
      (some (.obj [("other", .num 1)])) = .ok false :=
  evaluateBasic_absent_false "k" none [.str "rifle"] (some true) none
    (some (.obj [("other", .num 1)])) (Or.inl (by decide))

/-- C3 counterexample: on a record without the key and with `negation:true`,
the claim expects `true`, but evaluation answers `false` — the source
returns `false` for an absent value without applying the negation. -/
theorem evaluateBasic_absent_negation_cex :
    getNestedProperty (some (JVal.obj [("other", JVal.num 1)])) (.str "k") = .ok none
    ∧ evaluateBasicExpression
        (some (mkBasicExpr "k" none [.str "rifle"] (some true) none))
        (some (.obj [("other", .num 1)])) = .ok false
    ∧ ¬ (evaluateBasicExpression
        (some (mkBasicExpr "k" none [.str "rifle"] (some true) none))
        (some (.obj [("other", .num 1)])) = .ok true) := by
  refine ⟨by decide, by decide, by decide⟩

/-- C2: when the resolved value exists, is not `null` and not an array, and
its runtime type differs from that of at least one compared value,
evaluation of the basic expression never raises to the caller: the
type-mismatch throw is caught and the negated default is returned (`false`,
or `true` under `negation`). -/
theorem evaluateBasic_type_mismatch_fails_closed (key : String) (operation : Option String)
    (values : List JVal) (negation strict : Option Bool) (target : Option JVal)
    (pv : JVal)
    (hres : getNestedProperty target (.str key) = .ok (some pv))
    (hnn : pv ≠ JVal.null)
    (harr : jsIsArray (some pv) = false)
    (hmis : values.any (fun w => jsTypeof (some pv) ≠ jsTypeof (some w)) = true) :
    evaluateBasicExpression (some (mkBasicExpr key operation values negation strict)) target
      = .ok (negation.getD false) := by
  rw [evaluateBasicExpression_mk]
  cases pv with
  | null => exact absurd rfl hnn
  | bool b =>
    simp only [evaluateBasicTry, getNestedPropertyOpt, hres, exceptBind_ok, pure, Except.pure]
    rw [hmis, harr]
    cases hneg : negation.getD false <;> simp [hneg]
  | num q =>
    simp only [evaluateBasicTry, getNestedPropertyOpt, hres, exceptBind_ok, pure, Except.pure]
    rw [hmis, harr]
    cases hneg : negation.getD false <;> simp [hneg]
  | str s =>
    simp only [evaluateBasicTry, getNestedPropertyOpt, hres, exceptBind_ok, pure, Except.pure]
    rw [hmis, harr]
    cases hneg : negation.getD false <;> simp [hneg]
  | arr xs => simp [jsIsArray] at harr
  | obj fs =>
    simp only [evaluateBasicTry, getNestedPropertyOpt, hres, exceptBind_ok, pure, Except.pure]
    rw [hmis, harr]
    cases hneg : negation.getD false <;> simp [hneg]

theorem evaluateBasic_type_mismatch_witness :
    evaluateBasicExpression (some (mkBasicExpr "k" none [.num 5] (some true) none))
      (some (.obj [("k", .str "x")])) = .ok true :=
  evaluateBasic_type_mismatch_fails_closed "k" none [.num 5] (some true) none
    (some (.obj [("k", .str "x")])) (.str "x") (by decide) (by decide) (by decide) (by decide)

/-- C5: `isBasicExpression` accepts a basic-variant object whose `values`
field is missing, and one whose `values` is the empty array — the
unparenthesised `&&`/`||` chain lets the `key`/`operation` group alone
answer `true`, and the `values` conjunct sits in a group that is skipped;
non-emptiness is never checked anywhere. -/
theorem isBasicExpression_accepts_missing_values :
    isBasicExpression (some (JVal.obj [("key", .str "k"), ("operation", .str "equals")]))
      = .ok true
    ∧ isBasicExpression (some (JVal.obj [("key", .str "k"), ("values", .arr [])]))
      = .ok true := by
  decide

/-- C10: a logical expression with the empty `expressions` array is accepted
by `isQuery` (through the negation-undefined group of
`isLogicalExpression`), and for every record it evaluates to `true` under
`and` (an `every` over nothing) and to `false` under `or` (a `some` over
nothing), which is the pre-negation value since no negation is set. -/
theorem emptyLogical_wellFormed_and_eval (obj : Option JVal) :
    isQuery (some (JVal.obj [("condition", .str "and"), ("expressions", .arr [])])) = .ok true
    ∧ isQuery (some (JVal.obj [("condition", .str "or"), ("expressions", .arr [])])) = .ok true
    ∧ evaluateQuery (some (JVal.obj [("condition", .str "and"), ("expressions", .arr [])])) obj
        = .ok true
    ∧ evaluateQuery (some (JVal.obj [("condition", .str "or"), ("expressions", .arr [])])) obj
        = .ok false := by
  refine ⟨?_, ?_, ?_, ?_⟩ <;>
    simp [isQuery, evaluateQuery, evaluateLogicalExpression, isQueryList, evalQueryAll,
      evalQueryAny, isBasicExpression, isLogicalExpression, dotSafe, lookupField, jsDot,
      jsNonNull, jsTypeof, jsIsArray, jsTruthy, applyNeg, exceptBind_ok, pure, Except.pure]

theorem exceptBind_assoc {ε α β γ : Type} (m : Except ε α) (f : α → Except ε β)
    (g : β → Except ε γ) : (m >>= f) >>= g = m >>= fun a => f a >>= g := by
  cases m <;> rfl

theorem getNestedSegs_none (segs : List String) :
    getNestedSegs none segs = .error "targetObj is not an object" := by
  cases segs with
  | nil => rfl
  | cons h r => cases r <;> rfl

theorem getNestedSegs_not_object {x : JVal} (hg : ¬ isObjectTypeof (some x) = true)
    (segs : List String) :
    getNestedSegs (some x) segs = .error "targetObj is not an object" := by
  cases segs with
  | nil => simp [getNestedSegs, hg]
  | cons h r => cases r <;> simp [getNestedSegs, hg]

theorem getNestedSegs_nil {x : JVal} (hg : isObjectTypeof (some x) = true) :
    getNestedSegs (some x) [] = .ok (some x) := by
  simp [getNestedSegs, hg]

theorem getNestedSegs_one {x : JVal} (hg : isObjectTypeof (some x) = true) (h : String) :
    getNestedSegs (some x) [h] = jsDot (some x) h := by
  simp [getNestedSegs, hg]

theorem getNestedSegs_cons {x : JVal} (hg : isObjectTypeof (some x) = true)
    (h : String) (r : List String) (hr : r ≠ []) :
    getNestedSegs (some x) (h :: r) = jsDot (some x) h >>= fun c => getNestedSegs c r := by
  cases r with
  | nil => exact absurd rfl hr
  | cons h2 t => simp [getNestedSegs, hg]

theorem getNestedSegs_append (a : List String) (v : Option JVal) (b : List String)
    (hb : b ≠ []) :
    getNestedSegs v (a ++ b) = getNestedSegs v a >>= fun x => getNestedSegs x b := by
  induction a generalizing v with
  | nil =>
    cases v with
    | none => simp [getNestedSegs_none, exceptBind_error]
    | some x =>
      by_cases hg : isObjectTypeof (some x) = true
      · simp [getNestedSegs_nil hg, exceptBind_ok]
      · rw [List.nil_append, getNestedSegs_not_object hg b,
          getNestedSegs_not_object hg []]
        rfl
  | cons h a' ih =>
    have hab : a' ++ b ≠ [] := by
      cases a' <;> simp [hb]
    cases v with
    | none => simp [getNestedSegs_none, exceptBind_error]
    | some x =>
      by_cases hg : isObjectTypeof (some x) = true
      · rw [List.cons_append, getNestedSegs_cons hg h (a' ++ b) hab]
        cases a' with
        | nil =>
          rw [getNestedSegs_one hg h]
          simp
        | cons h2 t =>
          rw [getNestedSegs_cons hg h (h2 :: t) (by simp), exceptBind_assoc]
          congr 1
          funext c
          exact ih c
      · rw [List.cons_append, getNestedSegs_not_object hg (h :: (a' ++ b)),
          getNestedSegs_not_object hg (h :: a'), exceptBind_error]

/-- C4 (amended): reading a nested path returns the absent marker
(`undefined`) without raising exactly in the missing-final-segment case:
when every segment but the last resolves through object-typed non-null
values and the last lookup is absent, the read is `.ok none`; but when an
intermediate segment is missing the same way, the traversal recurses into
`undefined` and raises the hard error, just as it does for a non-tree
value. -/
theorem getNested_absent_leaf_ok_but_intermediate_raises :
    (∀ (t x : JVal) (pre : List String) (h : String),
      getNestedSegs (some t) pre = .ok (some x) →
      isObjectTypeof (some x) = true → x ≠ JVal.null →
      dotSafe (some x) h = none →
      getNestedSegs (some t) (pre ++ [h]) = .ok none)
    ∧ (∀ (t x : JVal) (pre suf : List String) (h : String), suf ≠ [] →
      getNestedSegs (some t) pre = .ok (some x) →
      isObjectTypeof (some x) = true → x ≠ JVal.null →
      dotSafe (some x) h = none →
      getNestedSegs (some t) (pre ++ h :: suf) = .error "targetObj is not an object") := by
  constructor
  · intro t x pre h hpre hg hnn hdot
    rw [getNestedSegs_append pre (some t) [h] (by simp), hpre, exceptBind_ok,
      getNestedSegs_one hg h]
    cases x with
    | null => exact absurd rfl hnn
    | _ => simp [jsDot, hdot]
  · intro t x pre suf h hsuf hpre hg hnn hdot
    rw [getNestedSegs_append pre (some t) (h :: suf) (by simp), hpre, exceptBind_ok,
      getNestedSegs_cons hg h suf hsuf]
    cases x with
    | null => exact absurd rfl hnn
    | _ =>
      simp only [jsDot, hdot, exceptBind_ok]
      exact getNestedSegs_none suf

theorem getNested_absent_leaf_witness :
    getNestedSegs (some (JVal.obj [("a", JVal.obj [("c", JVal.num 1)])])) ["a", "b"]
      = .ok none
    ∧ getNestedSegs (some (JVal.obj [("x", JVal.num 1)])) ["q", "z"]
      = .error "targetObj is not an object" := by
  constructor
  · exact getNested_absent_leaf_ok_but_intermediate_raises.1
      (JVal.obj [("a", JVal.obj [("c", JVal.num 1)])]) (JVal.obj [("c", JVal.num 1)])
      ["a"] "b" (by decide) (by decide) (by decide) (by decide)
  · exact getNested_absent_leaf_ok_but_intermediate_raises.2
      (JVal.obj [("x", JVal.num 1)]) (JVal.obj [("x", JVal.num 1)])
      [] ["z"] "q" (by decide) (by decide) (by decide) (by decide) (by decide)

/-- C4 counterexample: on the record with only the key `x`, reading the
dotted path `a.b` — whose intermediate segment `a` is missing — raises
rather than returning the absent marker, against the claim. -/
theorem getNested_missing_intermediate_cex :
    getNestedProperty (some (JVal.obj [("x", JVal.num 1)])) (.str "a.b")
      = .error "targetObj is not an object"
    ∧ ¬ (getNestedProperty (some (JVal.obj [("x", JVal.num 1)])) (.str "a.b")
      = .ok none) := by
  decide

/-- The regex metacharacters; a compared value avoiding all of them is a
plain literal pattern. -/
def regexMetaChars : List Char :=
  ['.', '^', '$', '*', '+', '?', '(', ')', '[', ']', '\x7b', '\x7d', '|', '\\', '/']

/-- A pattern body of literal characters only. -/
def plainChars (l : List Char) : Bool := l.all fun c => !(regexMetaChars.contains c)

/-- Literal prefix test on character lists (the claim's literal prefix). -/
def isPrefixChars : List Char → List Char → Bool
  | [], _ => true
  | _ :: _, [] => false
  | a :: as, b :: bs => a == b && isPrefixChars as bs

/-- Literal substring test (the claim's literal substring): the needle is a
prefix of some suffix of the haystack. -/
def containsChars (n : List Char) : List Char → Bool
  | [] => isPrefixChars n []
  | c :: cs => isPrefixChars n (c :: cs) || containsChars n cs

/-- Literal suffix test (the claim's literal suffix): the needle equals some
suffix of the haystack. -/
def isSuffixChars (n : List Char) : List Char → Bool
  | [] => n == []
  | c :: cs => n == c :: cs || isSuffixChars n cs

/-- The claim's literal-substring predicate on strings. -/
def specContains (needle hay : String) : Bool := containsChars needle.data hay.data

/-- The claim's literal-prefix predicate on strings. -/
def specStartsWith (needle hay : String) : Bool := isPrefixChars needle.data hay.data

/-- The claim's literal-suffix predicate on strings. -/
def specEndsWith (needle hay : String) : Bool := isSuffixChars needle.data hay.data

theorem reMatchHere_plain {body : List Char} (hb : plainChars body = true) :
    ∀ s : List Char, reMatchHere body s = isPrefixChars body s := by
  induction body with
  | nil => intro s; cases s <;> rfl
  | cons a as ih =>
    intro s
    simp only [plainChars, List.all_cons, Bool.and_eq_true] at hb
    cases s with
    | nil => rfl
    | cons c cs =>
      have hdot : (a == '.') = false := by
        rcases hb with ⟨ha, _⟩
        simp only [Bool.not_eq_true'] at ha
        cases hq : a == '.' with
        | false => rfl
        | true =>
          exfalso
          rw [beq_iff_eq] at hq
          subst hq
          simp [regexMetaChars] at ha
      have ih' := ih hb.2
      simp [reMatchHere, isPrefixChars, hdot, ih']

theorem plain_not_mem {l : List Char} (hp : plainChars l = true) (c : Char)
    (hc : regexMetaChars.contains c = true) : c ∉ l := by
  intro hmem
  simp only [plainChars, List.all_eq_true] at hp
  have := hp c hmem
  rw [hc] at this
  simp at this

theorem prefixAndLen_eq : ∀ a b : List Char,
    (isPrefixChars a b && a.length == b.length) = (a == b)
  | [], [] => rfl
  | [], _ :: _ => by simp [isPrefixChars]
  | _ :: _, [] => by simp [isPrefixChars]
  | x :: xs, y :: ys => by
    have ih := prefixAndLen_eq xs ys
    simp only [isPrefixChars, List.length_cons, List.cons_beq_cons]
    cases hxy : x == y <;> simp_all

theorem reMatchExact_plain {body : List Char} (hb : plainChars body = true)
    (t : List Char) : reMatchExact body t = (body == t) := by
  rw [reMatchExact, reMatchHere_plain hb, prefixAndLen_eq]

theorem reSearch_plain {body : List Char} (hb : plainChars body = true) :
    ∀ s : List Char, reSearch body s = containsChars body s := by
  intro s
  induction s with
  | nil => simp [reSearch, containsChars, reMatchHere_plain hb]
  | cons c cs ih => simp [reSearch, containsChars, reMatchHere_plain hb, ih]

theorem reSearchEnd_plain {body : List Char} (hb : plainChars body = true) :
    ∀ s : List Char, reSearchEnd body s = isSuffixChars body s := by
  intro s
  induction s with
  | nil => simp [reSearchEnd, isSuffixChars, reMatchExact_plain hb]
  | cons c cs ih => simp [reSearchEnd, isSuffixChars, reMatchExact_plain hb, ih]

theorem plain_head_ne_caret {v : String} (hp : plainChars v.data = true) :
    ¬ v.data.head? = some '^' := by
  intro h
  refine plain_not_mem hp '^' (by decide) ?_
  cases hd : v.data with
  | nil => rw [hd] at h; simp at h
  | cons c cs =>
    rw [hd] at h
    simp only [List.head?_cons, Option.some.injEq] at h
    rw [← h]
    exact List.mem_cons_self c cs

theorem plain_getLast_ne_dollar {v : String} (hp : plainChars v.data = true) :
    ¬ v.data.getLast? = some '$' := by
  intro h
  exact plain_not_mem hp '$' (by decide) (List.mem_of_getLast?_eq_some h)

/-- With a metacharacter-free pattern, the unanchored regex test is the
literal substring test. -/
theorem jsRegexTest_plain {v : String} (hp : plainChars v.data = true) (s : String) :
    jsRegexTest v s = containsChars v.data s.data := by
  have h1 := plain_head_ne_caret hp
  have h2 := plain_getLast_ne_dollar hp
  unfold jsRegexTest
  simp [h1, h2, reSearch_plain hp]

/-- With a metacharacter-free value, the `"^" + value` pattern tests the
literal prefix. -/
theorem jsRegexTest_caret_plain {v : String} (hp : plainChars v.data = true) (s : String) :
    jsRegexTest ("^" ++ v) s = isPrefixChars v.data s.data := by
  have h2 := plain_getLast_ne_dollar hp
  have hd : ("^" ++ v).data = '^' :: v.data := by
    rw [String.data_append]
    rfl
  unfold jsRegexTest
  simp [hd, h2, reMatchHere_plain hp]

/-- With a metacharacter-free value, the `value + "$"` pattern tests the
literal suffix. -/
theorem jsRegexTest_dollar_plain {v : String} (hp : plainChars v.data = true) (s : String) :
    jsRegexTest (v ++ "$") s = isSuffixChars v.data s.data := by
  have hd : (v ++ "$").data = v.data ++ ['$'] := String.data_append v "$"
  have h1 := plain_head_ne_caret hp
  unfold jsRegexTest
  simp [hd, h1, List.getLast?_concat, reSearchEnd_plain hp]

/-- C6 (amended): the string operations interpret the compared value as a
regular-expression pattern (`contains` unanchored, `starts_with` anchored at
the start, `ends_with` at the end); for compared values free of regex
metacharacters this coincides with the literal substring, prefix and suffix
tests, as proved here for a resolved string value. -/
theorem stringOps_regex_literal_when_plain (key v s : String) (target : Option JVal)
    (strict : Option Bool)
    (hres : getNestedProperty target (.str key) = .ok (some (.str s)))
    (hplain : plainChars v.data = true) :
    evaluateBasicExpression
        (some (mkBasicExpr key (some "contains") [.str v] none strict)) target
      = .ok (specContains v s)
    ∧ evaluateBasicExpression
        (some (mkBasicExpr key (some "starts_with") [.str v] none strict)) target
      = .ok (specStartsWith v s)
    ∧ evaluateBasicExpression
        (some (mkBasicExpr key (some "ends_with") [.str v] none strict)) target
      = .ok (specEndsWith v s) := by
  refine ⟨?_, ?_, ?_⟩ <;>
  · rw [evaluateBasicExpression_mk]
    simp [evaluateBasicTry, getNestedPropertyOpt, hres, exceptBind_ok, pure, Except.pure,
      jsTypeof, jsIsArray, jsToString, applyNeg, evalOpTest, jsRegexTest_plain hplain,
      jsRegexTest_caret_plain hplain, jsRegexTest_dollar_plain hplain,
      specContains, specStartsWith, specEndsWith]

/-- C6 counterexample: with the compared value `"."`, `contains` matches the
resolved string `"x"` — the value is used as a regex pattern and `.` matches
any character — although `"."` is not a literal substring of `"x"`. -/
theorem stringOps_regex_not_literal_cex :
    evaluateBasicExpression
        (some (mkBasicExpr "k" (some "contains") [.str "."] none none))
        (some (.obj [("k", .str "x")])) = .ok true
    ∧ specContains "." "x" = false := by
  decide

theorem stringOps_literal_witness :
    evaluateBasicExpression
        (some (mkBasicExpr "k" (some "contains") [.str "bc"] none none))
        (some (.obj [("k", .str "abcd")])) = .ok true
    ∧ evaluateBasicExpression
        (some (mkBasicExpr "k" (some "starts_with") [.str "bc"] none none))
        (some (.obj [("k", .str "abcd")])) = .ok false
    ∧ evaluateBasicExpression
        (some (mkBasicExpr "k" (some "ends_with") [.str "cd"] none none))
        (some (.obj [("k", .str "abcd")])) = .ok true := by
  have h1 := stringOps_regex_literal_when_plain "k" "bc" "abcd"
    (some (.obj [("k", .str "abcd")])) none (by decide) (by decide)
  have h2 := stringOps_regex_literal_when_plain "k" "cd" "abcd"
    (some (.obj [("k", .str "abcd")])) none (by decide) (by decide)
  exact ⟨by rw [h1.1]; decide, by rw [h1.2.1]; decide, by rw [h2.2.2]; decide⟩

/-- Prefix order on segment lists. -/
def segsLe : List String → List String → Bool
  | [], _ => true
  | _ :: _, [] => false
  | a :: as, b :: bs => a == b && segsLe as bs

/-- Two segment paths are comparable when one is a prefix of the other
(equality included); only comparable paths can interfere through the nested
write primitives. -/
def segsComparable (q p : List String) : Bool := segsLe q p || segsLe p q

theorem stringDataInj {a b : String} (h : a.data = b.data) : a = b :=
  String.ext h

theorem jsArrayIndexInj {a b : String} {i : Nat} (ha : jsArrayIndex? a = some i)
    (hb : jsArrayIndex? b = some i) : a = b := by
  simp only [jsArrayIndex?] at ha hb
  split at ha
  · split at hb
    · rename_i h1 h2
      rw [Option.some.injEq] at ha hb
      refine stringDataInj ?_
      rw [← h1, ← h2, ha, hb]
    · exact absurd hb (by simp)
  · exact absurd ha (by simp)

theorem setField_lookup_self (fs : List (String × JVal)) (k : String) (v : JVal) :
    lookupField (jsSetKey.setField fs k v) k = some v := by
  induction fs with
  | nil => simp [jsSetKey.setField, lookupField]
  | cons kv rest ih =>
    obtain ⟨k', w⟩ := kv
    by_cases hk : k' = k <;> simp [jsSetKey.setField, lookupField, hk, ih]

theorem setField_lookup_ne (fs : List (String × JVal)) (k b : String) (v : JVal)
    (hb : b ≠ k) : lookupField (jsSetKey.setField fs k v) b = lookupField fs b := by
  induction fs with
  | nil => simp [jsSetKey.setField, lookupField, Ne.symm hb]
  | cons kv rest ih =>
    obtain ⟨k', w⟩ := kv
    by_cases hk : k' = k
    · subst hk
      simp [jsSetKey.setField, lookupField, Ne.symm hb]
    · by_cases hkb : k' = b
      · subst hkb
        simp [jsSetKey.setField, lookupField, hb, hk]
      · simp [jsSetKey.setField, lookupField, hk, hkb, ih]

theorem arrWrite_length (xs : List JVal) (i : Nat) (v : JVal) :
    (jsSetKey.arrWrite xs i v).length = xs.length := by
  induction xs generalizing i with
  | nil => rfl
  | cons x rest ih =>
    cases i <;> simp [jsSetKey.arrWrite, ih]

theorem arrWrite_get_self (xs : List JVal) (i : Nat) (v : JVal) (h : i < xs.length) :
    (jsSetKey.arrWrite xs i v).get? i = some v := by
  induction xs generalizing i with
  | nil => simp at h
  | cons x rest ih =>
    cases i with
    | zero => rfl
    | succ n =>
      simp only [List.length_cons, Nat.succ_lt_succ_iff] at h
      simpa [jsSetKey.arrWrite] using ih n h

theorem arrWrite_get_ne (xs : List JVal) (i j : Nat) (v : JVal) (h : i ≠ j) :
    (jsSetKey.arrWrite xs i v).get? j = xs.get? j := by
  induction xs generalizing i j with
  | nil => rfl
  | cons x rest ih =>
    cases i with
    | zero =>
      cases j with
      | zero => exact absurd rfl h
      | succ m => rfl
    | succ n =>
      cases j with
      | zero => rfl
      | succ m => simpa [jsSetKey.arrWrite] using ih n m (by omega)

theorem list_get?_lt {xs : List JVal} {i : Nat} {w : JVal} (h : xs.get? i = some w) :
    i < xs.length := by
  by_contra hge
  rw [List.get?_eq_none.2 (by omega)] at h
  cases h

theorem jsSetKey_spec {t : JVal} {k : String} {w : JVal}
    (ht : isObjectTypeof (some t) = true)
    (hget : dotSafe (some t) k = some w) (v : JVal) :
    ∃ t', jsSetKey t k v = .ok t'
      ∧ isObjectTypeof (some t') = true
      ∧ dotSafe (some t') k = some v
      ∧ ∀ b, b ≠ k → dotSafe (some t') b = dotSafe (some t) b := by
  cases t with
  | null => simp [dotSafe] at hget
  | bool b => simp [isObjectTypeof, jsTypeof] at ht
  | num q => simp [isObjectTypeof, jsTypeof] at ht
  | str s => simp [isObjectTypeof, jsTypeof] at ht
  | obj fs =>
    refine ⟨.obj (jsSetKey.setField fs k v), rfl, rfl, ?_, ?_⟩
    · simpa [dotSafe] using setField_lookup_self fs k v
    · intro b hb
      simpa [dotSafe] using setField_lookup_ne fs k b v hb
  | arr xs =>
    simp only [dotSafe, arrIndex, Option.bind_eq_some] at hget
    obtain ⟨i, hpi, hgi⟩ := hget
    have hlt : i < xs.length := list_get?_lt hgi
    refine ⟨.arr (jsSetKey.arrWrite xs i v), ?_, rfl, ?_, ?_⟩
    · simp [jsSetKey, hpi]
    · simp only [dotSafe, arrIndex, hpi, Option.some_bind]
      exact arrWrite_get_self xs i v hlt
    · intro b hb
      simp only [dotSafe, arrIndex]
      cases hpb : jsArrayIndex? b with
      | none => rfl
      | some j =>
        have hij : i ≠ j := by
          intro he
          subst he
          exact hb (jsArrayIndexInj hpb hpi)
        simp only [Option.some_bind]
        exact arrWrite_get_ne xs i j v hij

theorem jsSetKey_preserve {t t₁ : JVal} {k : String} {v : JVal}
    (hset : jsSetKey t k v = .ok t₁) :
    jsTypeof (some t₁) = jsTypeof (some t)
      ∧ ∀ b, b ≠ k → dotSafe (some t₁) b = dotSafe (some t) b := by
  cases t with
  | null => simp [jsSetKey] at hset
  | bool b => cases hset; exact ⟨rfl, fun _ _ => rfl⟩
  | num q => cases hset; exact ⟨rfl, fun _ _ => rfl⟩
  | str s => cases hset; exact ⟨rfl, fun _ _ => rfl⟩
  | obj fs =>
    cases hset
    exact ⟨rfl, fun b hb => by simpa [dotSafe] using setField_lookup_ne fs k b v hb⟩
  | arr xs =>
    simp only [jsSetKey] at hset
    cases hpi : jsArrayIndex? k with
    | none =>
      rw [hpi] at hset
      cases hset
      exact ⟨rfl, fun _ _ => rfl⟩
    | some i =>
      rw [hpi] at hset
      cases hset
      refine ⟨rfl, fun b hb => ?_⟩
      simp only [dotSafe, arrIndex]
      cases hpb : jsArrayIndex? b with
      | none => rfl
      | some j =>
        have hij : i ≠ j := by
          intro he
          subst he
          exact hb (jsArrayIndexInj hpb hpi)
        simp only [Option.some_bind]
        exact arrWrite_get_ne xs i j v hij

theorem exceptBind_ok_iff {ε α β : Type} {m : Except ε α} {f : α → Except ε β} {y : β} :
    (m >>= f) = .ok y ↔ ∃ x, m = .ok x ∧ f x = .ok y := by
  cases m with
  | ok x => simp [exceptBind_ok]
  | error e => simp [exceptBind_error]

theorem jsSetKey_ne_null {t t₁ : JVal} {k : String} {v : JVal}
    (hset : jsSetKey t k v = .ok t₁) : t₁ ≠ JVal.null := by
  cases t with
  | null => simp [jsSetKey] at hset
  | obj fs => cases hset; simp
  | arr xs =>
    simp only [jsSetKey] at hset
    cases hpi : jsArrayIndex? k <;> rw [hpi] at hset <;> cases hset <;> simp
  | bool b => cases hset; simp
  | num q => cases hset; simp
  | str s => cases hset; simp

theorem jsDot_of_ne_null {t : JVal} (h : t ≠ JVal.null) (k : String) :
    jsDot (some t) k = .ok (dotSafe (some t) k) := by
  cases t <;> first | rfl | exact absurd rfl h

theorem dotSafe_ne_null {t : JVal} {k : String} {v : JVal}
    (h : dotSafe (some t) k = some v) : t ≠ JVal.null := by
  cases t <;> simp [dotSafe] at h ⊢

theorem setNestedSegs_none (segs : List String) (v : JVal) :
    setNestedSegs none segs v = .error "targetObj is not an object" := by
  cases segs with
  | nil => rfl
  | cons h r => cases r <;> rfl

theorem setNestedSegs_one_inv {t t₁ : JVal} {a : String} {v : JVal}
    (h : setNestedSegs (some t) [a] v = .ok t₁) :
    isObjectTypeof (some t) = true ∧ jsSetKey t a v = .ok t₁ := by
  by_cases hg : isObjectTypeof (some t) = true
  · simp only [setNestedSegs, hg, if_true] at h
    exact ⟨hg, h⟩
  · simp [setNestedSegs, hg] at h

theorem setNestedSegs_cons_inv {t t₁ : JVal} {a : String} {r : List String} {v : JVal}
    (hr : r ≠ []) (h : setNestedSegs (some t) (a :: r) v = .ok t₁) :
    isObjectTypeof (some t) = true
      ∧ ∃ c c₁, jsDot (some t) a = .ok (some c)
        ∧ setNestedSegs (some c) r v = .ok c₁
        ∧ jsSetKey t a c₁ = .ok t₁ := by
  cases r with
  | nil => exact absurd rfl hr
  | cons r0 rs =>
    by_cases hg : isObjectTypeof (some t) = true
    · simp only [setNestedSegs, hg, if_true] at h
      rw [exceptBind_ok_iff] at h
      obtain ⟨ch, hdot, h2⟩ := h
      rw [exceptBind_ok_iff] at h2
      obtain ⟨c₁, hsetc, hkey⟩ := h2
      cases ch with
      | none => rw [setNestedSegs_none] at hsetc; cases hsetc
      | some c => exact ⟨hg, c, c₁, hdot, hsetc, hkey⟩
    · simp [setNestedSegs, hg] at h

theorem jsDot_ok_some {t : JVal} {k : String} {c : JVal}
    (h : jsDot (some t) k = .ok (some c)) : dotSafe (some t) k = some c ∧ t ≠ JVal.null := by
  cases t with
  | null => simp [jsDot] at h
  | _ => exact ⟨by simpa [jsDot] using h, by simp⟩

theorem getNestedSegs_one_inv {t : JVal} {a : String} {r : Option JVal}
    (h : getNestedSegs (some t) [a] = .ok r) :
    isObjectTypeof (some t) = true ∧ dotSafe (some t) a = r ∧ t ≠ JVal.null := by
  by_cases hg : isObjectTypeof (some t) = true
  · rw [getNestedSegs_one hg] at h
    cases t with
    | null => simp [jsDot] at h
    | _ =>
      refine ⟨hg, ?_, by simp⟩
      simpa [jsDot] using h
  · rw [getNestedSegs_not_object hg] at h
    cases h

theorem getNestedSegs_cons_inv {t : JVal} {a : String} {rest : List String}
    {r : Option JVal} (hr : rest ≠ []) (h : getNestedSegs (some t) (a :: rest) = .ok r) :
    isObjectTypeof (some t) = true
      ∧ ∃ c, dotSafe (some t) a = some c ∧ t ≠ JVal.null
        ∧ getNestedSegs (some c) rest = .ok r := by
  by_cases hg : isObjectTypeof (some t) = true
  · rw [getNestedSegs_cons hg a rest hr] at h
    rw [exceptBind_ok_iff] at h
    obtain ⟨ch, hdot, hrest⟩ := h
    cases ch with
    | none => rw [getNestedSegs_none] at hrest; cases hrest
    | some c =>
      have hd := jsDot_ok_some hdot
      exact ⟨hg, c, hd.1, hd.2, hrest⟩
  · rw [getNestedSegs_not_object hg] at h
    cases h

/-- A successful nested read makes the corresponding nested write succeed,
and the written value is what the same path then reads back. -/
theorem setNestedSegs_of_get : ∀ (segs : List String), segs ≠ [] →
    ∀ (t w : JVal), getNestedSegs (some t) segs = .ok (some w) → ∀ v : JVal,
    ∃ t', setNestedSegs (some t) segs v = .ok t'
      ∧ getNestedSegs (some t') segs = .ok (some v)
  | [], hne => absurd rfl hne
  | [a], _ => by
    intro t w hget v
    obtain ⟨hg, hdot, hnn⟩ := getNestedSegs_one_inv hget
    obtain ⟨t', hset, hg', hdot', _⟩ := jsSetKey_spec hg hdot v
    refine ⟨t', ?_, ?_⟩
    · simp only [setNestedSegs, hg, if_true]
      exact hset
    · rw [getNestedSegs_one hg', jsDot_of_ne_null (dotSafe_ne_null hdot') a, hdot']
  | a :: r0 :: rs, _ => by
    intro t w hget v
    have hr : r0 :: rs ≠ [] := by simp
    obtain ⟨hg, c, hdot, hnn, hrest⟩ := getNestedSegs_cons_inv hr hget
    obtain ⟨c', hsetc, hgetc⟩ := setNestedSegs_of_get (r0 :: rs) hr c w hrest v
    obtain ⟨t', hkey, hg', hdot', _⟩ := jsSetKey_spec hg hdot c'
    refine ⟨t', ?_, ?_⟩
    · simp only [setNestedSegs, hg, if_true]
      rw [jsDot_of_ne_null hnn a, hdot, exceptBind_ok, hsetc, exceptBind_ok]
      exact hkey
    · rw [getNestedSegs_cons hg' a (r0 :: rs) hr,
        jsDot_of_ne_null (dotSafe_ne_null hdot') a, hdot', exceptBind_ok]
      exact hgetc

/-- A nested write along a path not prefix-comparable with `p` leaves every
read along `p` unchanged, errors included. -/
theorem getNestedSegs_set_diverge : ∀ (q p : List String) (t t₁ v : JVal),
    setNestedSegs (some t) q v = .ok t₁ → segsComparable q p = false →
    getNestedSegs (some t₁) p = getNestedSegs (some t) p
  | [], p, t, t₁, v => by
    intro _ hcmp
    simp [segsComparable, segsLe] at hcmp
  | a :: q', p, t, t₁, v => by
    intro hset hcmp
    cases p with
    | nil => simp [segsComparable, segsLe] at hcmp
    | cons b p' =>
      simp only [segsComparable, segsLe, Bool.or_eq_false_iff, Bool.and_eq_false_iff] at hcmp
      by_cases hab : a = b
      · subst hab
        simp only [beq_self_eq_true, Bool.true_and] at hcmp
        rcases hcmp with ⟨h1, h2⟩
        have h1' : segsLe q' p' = false := by
          rcases h1 with h | h
          · simp at h
          · exact h
        have h2' : segsLe p' q' = false := by
          rcases h2 with h | h
          · simp at h
          · exact h
        have hq' : q' ≠ [] := by
          intro he
          subst he
          simp [segsLe] at h1'
        cases hq0 : q' with
        | nil => exact absurd hq0 hq'
        | cons q0 qs =>
          rw [hq0] at hset
          obtain ⟨hg, c, c₁, hdotc, hsetc, hkey⟩ :=
            setNestedSegs_cons_inv (by simp) hset
          have hdc := jsDot_ok_some hdotc
          obtain ⟨t'', hkey', hg', hdot', hpres⟩ := jsSetKey_spec hg hdc.1 c₁
          have ht'' : t'' = t₁ := by
            rw [hkey] at hkey'
            cases hkey'
            rfl
          subst ht''
          have hp' : p' ≠ [] := by
            intro he
            subst he
            simp [segsLe] at h2'
          rw [getNestedSegs_cons hg' a p' hp',
            getNestedSegs_cons hg a p' hp',
            jsDot_of_ne_null (dotSafe_ne_null hdot') a, hdot', exceptBind_ok,
            jsDot_of_ne_null hdc.2 a, hdc.1, exceptBind_ok]
          exact getNestedSegs_set_diverge (q0 :: qs) p' c c₁ v hsetc
            (by simp [segsComparable, hq0 ▸ h1', hq0 ▸ h2'])
      · -- heads differ: the write at a cannot affect reading b
        have hnn : t₁ ≠ JVal.null ∧ jsTypeof (some t₁) = jsTypeof (some t)
            ∧ dotSafe (some t₁) b = dotSafe (some t) b := by
          cases hq0 : q' with
          | nil =>
            rw [hq0] at hset
            obtain ⟨hg, hkey⟩ := setNestedSegs_one_inv hset
            have hpres := jsSetKey_preserve hkey
            exact ⟨jsSetKey_ne_null hkey, hpres.1, hpres.2 b (Ne.symm hab)⟩
          | cons q0 qs =>
            rw [hq0] at hset
            obtain ⟨hg, c, c₁, hdotc, hsetc, hkey⟩ :=
              setNestedSegs_cons_inv (by simp) hset
            have hpres := jsSetKey_preserve hkey
            exact ⟨jsSetKey_ne_null hkey, hpres.1, hpres.2 b (Ne.symm hab)⟩
        obtain ⟨hn1, htyp, hdotb⟩ := hnn
        have htne : t ≠ JVal.null := by
          cases hq0 : q' with
          | nil =>
            rw [hq0] at hset
            obtain ⟨hg, hkey⟩ := setNestedSegs_one_inv hset
            intro he
            subst he
            simp [jsSetKey] at hkey
          | cons q0 qs =>
            rw [hq0] at hset
            obtain ⟨hg, c, c₁, hdotc, hsetc, hkey⟩ :=
              setNestedSegs_cons_inv (by simp) hset
            intro he
            subst he
            simp [jsSetKey] at hkey
        by_cases hg : isObjectTypeof (some t) = true
        · have hg1 : isObjectTypeof (some t₁) = true := by
            simpa [isObjectTypeof, htyp] using hg
          cases p' with
          | nil =>
            rw [getNestedSegs_one hg1, getNestedSegs_one hg,
              jsDot_of_ne_null hn1 b, jsDot_of_ne_null htne b, hdotb]
          | cons p0 ps =>
            rw [getNestedSegs_cons hg1 b (p0 :: ps) (by simp),
              getNestedSegs_cons hg b (p0 :: ps) (by simp),
              jsDot_of_ne_null hn1 b, jsDot_of_ne_null htne b, hdotb]
        · have hg1 : ¬ isObjectTypeof (some t₁) = true := by
            simpa [isObjectTypeof, htyp] using hg
          rw [getNestedSegs_not_object hg1, getNestedSegs_not_object hg]

theorem splitDotGo_ne_nil : ∀ (acc : List Char) (l : List Char), splitDotGo acc l ≠ []
  | _, [] => by simp [splitDotGo]
  | acc, c :: cs => by
    by_cases hc : c = '.' <;> simp [splitDotGo, hc, splitDotGo_ne_nil]

theorem jsSplitDot_ne_nil (s : String) : jsSplitDot s ≠ [] :=
  splitDotGo_ne_nil [] s.data

/-- Applying a single multiplier entry to a numeric property: the write
always happens, and the change counts as one exactly when the product
differs from the original value. -/
theorem tryToApplyMultiplier_num (a : String) (t : JVal) (v m : Rat)
    (hres : getNestedProperty (some t) (JVal.str a) = .ok (some (.num v))) :
    ∃ t1, tryToApplyMultiplier (some t) (some (.obj [(a, .num m)])) a
        = .ok ((if v * m = v then 0 else 1), some t1)
      ∧ getNestedProperty (some t1) (JVal.str a) = .ok (some (.num (v * m))) := by
  have hsegs := jsSplitDot_ne_nil a
  rw [getNestedProperty] at hres
  obtain ⟨t1, hset, hread⟩ := setNestedSegs_of_get (jsSplitDot a) hsegs t (.num v) hres
    (.num (v * m))
  have hdot : dotSafe (some (JVal.obj [(a, JVal.num m)])) a = some (.num m) := by
    simp [dotSafe, lookupField]
  have hcan : canApplyMultiplier (some t) (some (JVal.obj [(a, JVal.num m)])) a = true := by
    simp [canApplyMultiplier, getNestedProperty, hres, hdot, jsTypeof]
  refine ⟨t1, ?_, hread⟩
  rw [tryToApplyMultiplier, if_pos hcan, hdot]
  simp only [getNestedProperty, hres, exceptBind_ok, setNestedProperty, hset, hread]
  by_cases he : v * m = v
  · have hcond : ¬ ((some (JVal.num v) : Option JVal) ≠ some (.num (v * m))) := by
      simp [he]
    rw [if_neg hcond, if_pos he]
    rfl
  · have hcond : (some (JVal.num v) : Option JVal) ≠ some (.num (v * m)) := by
      simp
      intro hc
      exact he hc.symm
    rw [if_pos hcond, if_neg he]
    rfl

/-- C8 (amended): multiplying a numeric property by 2 and then by 3 leaves
it at six times its original value; each application reports one change
exactly when the original value is non-zero (for `v = 0` the product equals
the old value and the applicator counts nothing). -/
theorem multiply_compose_counts (a : String) (t : JVal) (v : Rat)
    (hres : getNestedProperty (some t) (JVal.str a) = .ok (some (.num v))) :
    ∃ t1 t2,
      tryToApplyAllChanges (some t) (some (.obj [(a, .num 2)])) .MULTIPLY
        = .ok ((if v = 0 then 0 else 1), some t1)
      ∧ tryToApplyAllChanges (some t1) (some (.obj [(a, .num 3)])) .MULTIPLY
        = .ok ((if v = 0 then 0 else 1), some t2)
      ∧ getNestedProperty (some t2) (JVal.str a) = .ok (some (.num (v * 6))) := by
  obtain ⟨t1, hstep1, hread1⟩ := tryToApplyMultiplier_num a t v 2 hres
  obtain ⟨t2, hstep2, hread2⟩ := tryToApplyMultiplier_num a t1 (v * 2) 3 hread1
  have h2 : (if v * 2 = v then (0 : Nat) else 1) = (if v = 0 then 0 else 1) := by
    by_cases hv : v = 0
    · simp [hv]
    · rw [if_neg (by intro hc; exact hv (by linarith)), if_neg hv]
  have h3 : (if v * 2 * 3 = v * 2 then (0 : Nat) else 1) = (if v = 0 then 0 else 1) := by
    by_cases hv : v = 0
    · simp [hv]
    · rw [if_neg (by intro hc; exact hv (by linarith)), if_neg hv]
  refine ⟨t1, t2, ?_, ?_, ?_⟩
  · rw [tryToApplyAllChanges]
    simp only [jsForInKeys, List.map_cons, List.map_nil, tryToApplyAllGo, tryToApplyStep,
      hstep1, exceptBind_ok, Nat.zero_add]
    rw [h2]
  · rw [tryToApplyAllChanges]
    simp only [jsForInKeys, List.map_cons, List.map_nil, tryToApplyAllGo, tryToApplyStep,
      hstep2, exceptBind_ok, Nat.zero_add]
    rw [h3]
  · have hv6 : v * 2 * 3 = v * 6 := by ring
    rw [← hv6]
    exact hread2

/-- C8 counterexample: on a record whose numeric property has value 0,
applying `multiply {a: 2}` writes the (unchanged) product back and reports
a change count of 0, not the non-zero (= 1) count the claim requires for
every original value. -/
theorem multiply_zero_count_cex :
    (∃ t1, tryToApplyAllChanges (some (JVal.obj [("a", JVal.num 0)]))
        (some (JVal.obj [("a", JVal.num 2)])) .MULTIPLY = .ok (0, some t1))
    ∧ (0 : Nat) ≠ 1 := by
  obtain ⟨t1, hstep, hrd⟩ :=
    tryToApplyMultiplier_num "a" (JVal.obj [("a", JVal.num 0)]) 0 2 (by decide)
  refine ⟨⟨t1, ?_⟩, by decide⟩
  rw [tryToApplyAllChanges]
  simp only [jsForInKeys, List.map_cons, List.map_nil, tryToApplyAllGo, tryToApplyStep,
    hstep, exceptBind_ok, Nat.zero_add]
  norm_num

/-- Witness for `multiply_compose_counts` at the concrete record `{a: 5}`. -/
theorem multiply_compose_counts_witness :
    ∃ t1 t2,
      tryToApplyAllChanges (some (JVal.obj [("a", JVal.num 5)]))
          (some (JVal.obj [("a", JVal.num 2)])) .MULTIPLY
        = .ok ((if (5 : Rat) = 0 then 0 else 1), some t1)
      ∧ tryToApplyAllChanges (some t1) (some (JVal.obj [("a", JVal.num 3)])) .MULTIPLY
        = .ok ((if (5 : Rat) = 0 then 0 else 1), some t2)
      ∧ getNestedProperty (some t2) (JVal.str "a") = .ok (some (.num (5 * 6))) :=
  multiply_compose_counts "a" (JVal.obj [("a", JVal.num 5)]) 5 (by decide)

theorem segsComparable_symm (q p : List String) :
    segsComparable q p = segsComparable p q := by
  rw [segsComparable, segsComparable, Bool.or_comm]

theorem canApplyValue_congr {t t' : Option JVal} (src : Option JVal) (p : String)
    (h : getNestedProperty t (.str p) = getNestedProperty t' (.str p)) :
    canApplyValue t src p = canApplyValue t' src p := by
  rw [canApplyValue, canApplyValue, h]

theorem canApplyValue_true_inv {t src : Option JVal} {p : String}
    (h : canApplyValue t src p = true) :
    ∃ ov, getNestedProperty t (.str p) = .ok (some ov)
      ∧ jsTypeof (some ov) = jsTypeof (dotSafe src p) := by
  rw [canApplyValue] at h
  cases hg : getNestedProperty t (.str p) with
  | error e => rw [hg] at h; cases h
  | ok old =>
    rw [hg] at h
    cases old with
    | none => simp at h
    | some ov =>
      refine ⟨ov, rfl, ?_⟩
      simpa using h

theorem jsTypeof_some_ne_undefined (v : JVal) : jsTypeof (some v) ≠ "undefined" := by
  cases v <;> simp [jsTypeof]

/-- When the value read at the path already agrees with the mapping whenever
the dry-run check passes, a set step is a no-op: zero count, unchanged
target. -/
theorem tryToApplyValue_noop (t src : Option JVal) (p : String)
    (h : canApplyValue t src p = true → getNestedProperty t (.str p) = .ok (dotSafe src p)) :
    tryToApplyValue t src p = .ok (0, t) := by
  by_cases hc : canApplyValue t src p = true
  · rw [tryToApplyValue, if_pos hc, h hc, exceptBind_ok]
    simp [pure, Except.pure]
  · rw [tryToApplyValue, if_neg hc]
    rfl

/-- A set step at `q` leaves the read at any path not prefix-comparable with
`q` unchanged. -/
theorem tryToApplyValue_read_pres {t t' src : Option JVal} {q : String} {c : Nat}
    (hstep : tryToApplyValue t src q = .ok (c, t')) (p : String)
    (hcmp : segsComparable (jsSplitDot q) (jsSplitDot p) = false) :
    getNestedProperty t' (.str p) = getNestedProperty t (.str p) := by
  by_cases hc : canApplyValue t src q = true
  · rw [tryToApplyValue, if_pos hc] at hstep
    obtain ⟨ov, hg, hty⟩ := canApplyValue_true_inv hc
    rw [hg, exceptBind_ok] at hstep
    by_cases hne : (some ov : Option JVal) ≠ dotSafe src q
    · rw [if_pos hne] at hstep
      cases hw : dotSafe src q with
      | none =>
        rw [hw] at hstep
        simp only [pure, Except.pure, Except.ok.injEq, Prod.mk.injEq] at hstep
        rw [← hstep.2]
      | some w =>
        rw [hw] at hstep
        obtain ⟨t2, hset, hpure⟩ := exceptBind_ok_iff.mp hstep
        simp only [pure, Except.pure, Except.ok.injEq, Prod.mk.injEq] at hpure
        rw [← hpure.2]
        cases t with
        | none => rw [getNestedProperty] at hg; simp [getNestedSegs] at hg
        | some t0 =>
          rw [setNestedProperty] at hset
          rw [getNestedProperty, getNestedProperty]
          exact getNestedSegs_set_diverge _ _ t0 t2 w hset hcmp
    · rw [if_neg hne] at hstep
      simp only [pure, Except.pure, Except.ok.injEq, Prod.mk.injEq] at hstep
      rw [← hstep.2]
  · rw [tryToApplyValue, if_neg hc] at hstep
    simp only [pure, Except.pure, Except.ok.injEq, Prod.mk.injEq] at hstep
    rw [← hstep.2]

/-- After a set step at `p`, the value read at `p` agrees with the mapping
whenever the dry-run check passes on the resulting target. -/
theorem tryToApplyValue_establishes {t t' src : Option JVal} {p : String} {c : Nat}
    (hstep : tryToApplyValue t src p = .ok (c, t')) :
    canApplyValue t' src p = true → getNestedProperty t' (.str p) = .ok (dotSafe src p) := by
  by_cases hc : canApplyValue t src p = true
  · rw [tryToApplyValue, if_pos hc] at hstep
    obtain ⟨ov, hg, hty⟩ := canApplyValue_true_inv hc
    rw [hg, exceptBind_ok] at hstep
    by_cases hne : (some ov : Option JVal) ≠ dotSafe src p
    · cases hw : dotSafe src p with
      | none =>
        intro _
        exfalso
        rw [hw] at hty
        exact jsTypeof_some_ne_undefined ov (by simpa [jsTypeof] using hty)
      | some w =>
        rw [if_pos hne, hw] at hstep
        obtain ⟨t2, hset, hpure⟩ := exceptBind_ok_iff.mp hstep
        simp only [pure, Except.pure, Except.ok.injEq, Prod.mk.injEq] at hpure
        intro _
        cases t with
        | none => rw [getNestedProperty] at hg; simp [getNestedSegs] at hg
        | some t0 =>
          rw [getNestedProperty] at hg
          obtain ⟨t1x, hset', hread'⟩ :=
            setNestedSegs_of_get (jsSplitDot p) (jsSplitDot_ne_nil p) t0 ov hg w
          rw [setNestedProperty, hset'] at hset
          have ht2 : t1x = t2 := Except.ok.inj hset
          rw [← hpure.2, ← ht2, getNestedProperty]
          exact hread'
    · rw [if_neg hne] at hstep
      simp only [pure, Except.pure, Except.ok.injEq, Prod.mk.injEq] at hstep
      intro _
      rw [← hstep.2, hg, not_ne_iff.mp hne]
  · rw [tryToApplyValue, if_neg hc] at hstep
    simp only [pure, Except.pure, Except.ok.injEq, Prod.mk.injEq] at hstep
    intro hc'
    rw [← hstep.2] at hc'
    exact absurd hc' hc

/-- A set pass over keys all non-comparable with `p` preserves the read at
`p`. -/
theorem setAllGo_read_pres (src : Option JVal) (p : String) :
    ∀ (ps : List String) (t t1 : Option JVal) (acc n : Nat),
    tryToApplyAllGo .SET_VALUE src ps t acc = .ok (n, t1) →
    (∀ q ∈ ps, segsComparable (jsSplitDot q) (jsSplitDot p) = false) →
    getNestedProperty t1 (.str p) = getNestedProperty t (.str p)
  | [], t, t1, acc, n => by
    intro h _
    rw [tryToApplyAllGo] at h
    have := Except.ok.inj h
    injection this with h1 h2
    rw [← h2]
  | q :: ps, t, t1, acc, n => by
    intro h hq
    rw [tryToApplyAllGo] at h
    obtain ⟨⟨c, t₂⟩, hstep, hrest⟩ := exceptBind_ok_iff.mp h
    have hstepv : tryToApplyValue t src q = .ok (c, t₂) := hstep
    have h1 := setAllGo_read_pres src p ps t₂ t1 (acc + c) n hrest
      (fun r hr => hq r (List.mem_cons_of_mem q hr))
    rw [h1]
    exact tryToApplyValue_read_pres hstepv p (hq q (List.mem_cons_self q ps))

/-- After a full set pass over pairwise non-comparable keys, a repeat of any
single step is a no-op on the final target. -/
theorem setAllGo_stable (src : Option JVal) :
    ∀ (ps : List String) (t t1 : Option JVal) (acc n : Nat),
    List.Pairwise (fun a b => segsComparable (jsSplitDot a) (jsSplitDot b) = false) ps →
    tryToApplyAllGo .SET_VALUE src ps t acc = .ok (n, t1) →
    ∀ p ∈ ps, tryToApplyValue t1 src p = .ok (0, t1)
  | [], t, t1, acc, n => by
    intro _ _ p hp
    cases hp
  | q :: ps, t, t1, acc, n => by
    intro hpw h p hp
    rw [tryToApplyAllGo] at h
    obtain ⟨⟨c, t₂⟩, hstep, hrest⟩ := exceptBind_ok_iff.mp h
    have hstepv : tryToApplyValue t src q = .ok (c, t₂) := hstep
    rcases List.mem_cons.mp hp with rfl | hp'
    · have hpres : getNestedProperty t1 (.str p) = getNestedProperty t₂ (.str p) :=
        setAllGo_read_pres src p ps t₂ t1 (acc + c) n hrest
          (fun r hr => by
            rw [segsComparable_symm]
            exact List.rel_of_pairwise_cons hpw hr)
      have hest := tryToApplyValue_establishes hstepv
      refine tryToApplyValue_noop t1 src p (fun hc => ?_)
      rw [hpres]
      exact hest (by rw [← canApplyValue_congr src p hpres]; exact hc)
    · exact setAllGo_stable src ps t₂ t1 (acc + c) n (List.pairwise_cons.mp hpw).2 hrest p hp'

/-- A set pass whose every step is a no-op returns the accumulator and the
unchanged target. -/
theorem setAllGo_noop (src : Option JVal) :
    ∀ (ps : List String) (t1 : Option JVal) (acc : Nat),
    (∀ p ∈ ps, tryToApplyValue t1 src p = .ok (0, t1)) →
    tryToApplyAllGo .SET_VALUE src ps t1 acc = .ok (acc, t1)
  | [], t1, acc => by
    intro _
    rw [tryToApplyAllGo]
  | p :: ps, t1, acc => by
    intro h
    rw [tryToApplyAllGo]
    have hstep : tryToApplyStep .SET_VALUE t1 src p = .ok (0, t1) :=
      h p (List.mem_cons_self p ps)
    rw [hstep, exceptBind_ok]
    show tryToApplyAllGo .SET_VALUE src ps t1 (acc + 0) = .ok (acc, t1)
    rw [Nat.add_zero]
    exact setAllGo_noop src ps t1 acc (fun r hr => h r (List.mem_cons_of_mem p hr))

/-- A primitive value: `===`/`!==` compares these by value, so the
structural model is exact on them. -/
def jsIsPrimitive : JVal → Bool
  | .obj _ => false
  | .arr _ => false
  | _ => true

/-- C7 (amended): when the mapping's dotted paths are pairwise not
prefix-comparable and its values are primitive — the fragment on which the
source's `!==` coincides with the structural inequality of the model —
applying the same set mapping a second time returns a change count of zero
and leaves the record exactly as the first application left it.  With
prefix-overlapping paths and a composite value the applicator is not
idempotent: the first application stores the source object's reference, and
the overlapping entry then mutates the shared object on the second pass and
is counted again (`set_twice_not_idempotent_cex` below, over the store
model). -/
theorem set_apply_idempotent (t t1 src : Option JVal) (n : Nat)
    (hpw : List.Pairwise (fun a b => segsComparable (jsSplitDot a) (jsSplitDot b) = false)
      (jsForInKeys src))
    (hprim : (jsForInKeys src).all
      (fun k => Option.all jsIsPrimitive (dotSafe src k)) = true)
    (h1 : tryToApplyAllChanges t src .SET_VALUE = .ok (n, t1)) :
    tryToApplyAllChanges t1 src .SET_VALUE = .ok (0, t1) := by
  rw [tryToApplyAllChanges] at h1 ⊢
  exact setAllGo_noop src (jsForInKeys src) t1 0
    (setAllGo_stable src (jsForInKeys src) t t1 0 n hpw h1)

/-- Witness for `set_apply_idempotent` on the record with `a = 1` and the
singleton set mapping sending `a` to the primitive `2`. -/
theorem set_apply_idempotent_witness :
    List.Pairwise (fun a b => segsComparable (jsSplitDot a) (jsSplitDot b) = false)
      (jsForInKeys (some (JVal.obj [("a", JVal.num 2)])))
    ∧ (jsForInKeys (some (JVal.obj [("a", JVal.num 2)]))).all
        (fun k => Option.all jsIsPrimitive
          (dotSafe (some (JVal.obj [("a", JVal.num 2)])) k)) = true
    ∧ tryToApplyAllChanges (some (JVal.obj [("a", JVal.num 1)]))
        (some (JVal.obj [("a", JVal.num 2)])) .SET_VALUE
        = .ok (1, some (JVal.obj [("a", JVal.num 2)]))
    ∧ tryToApplyAllChanges (some (JVal.obj [("a", JVal.num 2)]))
        (some (JVal.obj [("a", JVal.num 2)])) .SET_VALUE
        = .ok (0, some (JVal.obj [("a", JVal.num 2)])) :=
  ⟨by decide, by decide, by decide,
    set_apply_idempotent (some (JVal.obj [("a", JVal.num 1)]))
      (some (JVal.obj [("a", JVal.num 2)]))
      (some (JVal.obj [("a", JVal.num 2)])) 1 (by decide) (by decide) (by decide)⟩

/-!
Store-based embedding of the set applicator.  The value model above cannot
express the aliasing the source creates when it stores a composite mapping
value into the target and compares it again on a later pass, so the
`SET_VALUE` path of `Applicator` is re-embedded here with an explicit store
carrying object identity: a JS object is an address, `v[k] = w` mutates the
addressed field list in place, and `===`/`!==` compares references by
address.  The fragment covers objects and primitives (arrays and string
indexing are never reached by the theorems below).
-/

/-- Primitive JS values of the store model. -/
inductive HPrim : Type where
  | null : HPrim
  | bool : Bool → HPrim
  | num : Rat → HPrim
  | str : String → HPrim
deriving DecidableEq

/-- A JS value with object identity: a primitive, or a reference to an
object living in the store. -/
inductive HVal : Type where
  | prim : HPrim → HVal
  | ref : Nat → HVal
deriving DecidableEq

/-- The store: object identity to field list, insertion order kept. -/
abbrev Store := List (Nat × List (String × HVal))

/-- The field list bound to an address. -/
def hLookup : Store → Nat → Option (List (String × HVal))
  | [], _ => none
  | (a, fs) :: rest, b => if a = b then some fs else hLookup rest b

/-- Mutation of the object at an address: its field list is replaced, every
reference to the address sees the change. -/
def hUpdate : Store → Nat → List (String × HVal) → Store
  | [], _, _ => []
  | (a, fs) :: rest, b, gs => if a = b then (a, gs) :: rest else (a, fs) :: hUpdate rest b gs

/-- Replace the first binding of `k`, or append one. -/
def hSetField : List (String × HVal) → String → HVal → List (String × HVal)
  | [], k, w => [(k, w)]
  | (k', v) :: fs, k, w =>
    if k' = k then (k', w) :: fs else (k', v) :: hSetField fs k w

/-- `typeof` in the store model: references and `null` are `"object"`. -/
def hTypeof : Option HVal → String
  | none => "undefined"
  | some (.prim .null) => "object"
  | some (.prim (.bool _)) => "boolean"
  | some (.prim (.num _)) => "number"
  | some (.prim (.str _)) => "string"
  | some (.ref _) => "object"

/-- Strict equality `===`: value comparison on primitives, identity of
addresses on references. -/
def hStrictEq : HVal → HVal → Bool
  | .prim p, .prim q => p == q
  | .ref a, .ref b => a == b
  | _, _ => false

/-- Strict equality lifted to possibly-`undefined` operands. -/
def hStrictEqOpt : Option HVal → Option HVal → Bool
  | some a, some b => hStrictEq a b
  | none, none => true
  | _, _ => false

/-- Throw-free property access `v[k]`: dereference and look the field up. -/
def hDotSafe (st : Store) : Option HVal → String → Option HVal
  | some (.ref a), k => (hLookup st a).bind fun fs => lookupAssoc fs k
  | _, _ => none

/-- Property access `v[k]`: a `TypeError` on `null`/`undefined`. -/
def hDot (st : Store) (v : Option HVal) (k : String) : Except String (Option HVal) :=
  match v with
  | none => .error "TypeError: cannot read properties of undefined"
  | some (.prim .null) => .error "TypeError: cannot read properties of null"
  | some x => .ok (hDotSafe st (some x) k)

/-- `Applicator.getNestedProperty` over the store, on an already-split path;
the guards mirror `getNestedSegs`. -/
def hGetSegs (st : Store) : Option HVal → List String → Except String (Option HVal)
  | none, _ => .error "targetObj is not an object"
  | some x, [] =>
    if hTypeof (some x) == "object" then .ok (some x)
    else .error "targetObj is not an object"
  | some x, [head] =>
    if hTypeof (some x) == "object" then hDot st (some x) head
    else .error "targetObj is not an object"
  | some x, head :: rest =>
    if hTypeof (some x) == "object" then
      hDot st (some x) head >>= fun child => hGetSegs st child rest
    else .error "targetObj is not an object"

/-- `Applicator.getNestedProperty` over the store (the paths reaching it
below are the source mapping's keys, always strings). -/
def hGetNestedProperty (st : Store) (v : Option HVal) (path : String) :
    Except String (Option HVal) :=
  hGetSegs st v (jsSplitDot path)

/-- The assignment `v[k] = w` over the store: mutate the referenced object
in place; assignment to `null` throws, assignment to another primitive is
silently ignored. -/
def hSetKey (st : Store) (v : HVal) (k : String) (w : HVal) : Except String Store :=
  match v with
  | .ref a =>
    match hLookup st a with
    | some fs => .ok (hUpdate st a (hSetField fs k w))
    | none => .ok st
  | .prim .null => .error "TypeError: cannot set properties of null"
  | _ => .ok st

/-- `Applicator.setNestedProperty` over the store: traverse by reference and
mutate at the final segment, as the source's in-place recursion does; the
guards mirror `hGetSegs`. -/
def hSetSegs (st : Store) : Option HVal → List String → HVal → Except String Store
  | none, _, _ => .error "targetObj is not an object"
  | some _, [], _ => .ok st
  | some x, [head], w =>
    if hTypeof (some x) == "object" then hSetKey st x head w
    else .error "targetObj is not an object"
  | some x, head :: rest, w =>
    if hTypeof (some x) == "object" then
      hDot st (some x) head >>= fun child => hSetSegs st child rest w
    else .error "targetObj is not an object"

/-- `Applicator.canApplyValue` over the store. -/
def hCanApplyValue (st : Store) (targetObj sourceObj : Option HVal)
    (parameter : String) : Bool :=
  match hGetNestedProperty st targetObj parameter with
  | .error _ => false
  | .ok oldValue =>
    let newValue := hDotSafe st sourceObj parameter
    if oldValue ≠ none then hTypeof oldValue == hTypeof newValue
    else false

/-- `Applicator.tryToApplyValue` over the store: the `oldValue !== newValue`
test is the strict comparison, so a composite read back as the reference
stored by an earlier write compares equal even when the shared object has
been mutated in between. -/
def hTryToApplyValue (st : Store) (targetObj sourceObj : Option HVal)
    (parameter : String) : Except String (Nat × Store) :=
  if hCanApplyValue st targetObj sourceObj parameter then do
    let newValue := hDotSafe st sourceObj parameter
    let oldValue ← hGetNestedProperty st targetObj parameter
    if !(hStrictEqOpt oldValue newValue) then
      match newValue with
      | some w => do
        let st' ← hSetSegs st targetObj (jsSplitDot parameter) w
        pure (1, st')
      | none => pure (0, st)
    else pure (0, st)
  else pure (0, st)

/-- The keys a `for (const parameter in sourceObj)` loop visits. -/
def hForInKeys (st : Store) : Option HVal → List String
  | some (.ref a) =>
    match hLookup st a with
    | some fs => fs.map fun kv => kv.1
    | none => []
  | _ => []

/-- The `for` accumulation inside `tryToApplyAllChanges`, `SET_VALUE`
branch, over the store. -/
def hTryToApplyAllGo (sourceObj : Option HVal) :
    List String → Store → Option HVal → Nat → Except String (Nat × Store)
  | [], st, _, acc => .ok (acc, st)
  | p :: ps, st, targetObj, acc => do
    let (c, st') ← hTryToApplyValue st targetObj sourceObj p
    hTryToApplyAllGo sourceObj ps st' targetObj (acc + c)

/-- The `SET_VALUE` branch of `Applicator.tryToApplyAllChanges` over the
store. -/
def hTryToApplyAllSet (st : Store) (targetObj sourceObj : Option HVal) :
    Except String (Nat × Store) :=
  hTryToApplyAllGo sourceObj (hForInKeys st sourceObj) st targetObj 0

/-- Counterexample stores: target object `0` holds `a ↦` object `1` with
`b = 1`; the source mapping is object `2` with keys `a.b ↦ 2` and `a ↦`
object `3` with `b = 3`. -/
def hcxSt0 : Store :=
  [(0, [("a", .ref 1)]), (1, [("b", .prim (.num 1))]),
    (2, [("a.b", .prim (.num 2)), ("a", .ref 3)]), (3, [("b", .prim (.num 3))])]

/-- After the first application: `a.b` wrote `2` into object `1`, then the
`a` entry stored the source object `3` at `a` by reference. -/
def hcxSt1 : Store :=
  [(0, [("a", .ref 3)]), (1, [("b", .prim (.num 2))]),
    (2, [("a.b", .prim (.num 2)), ("a", .ref 3)]), (3, [("b", .prim (.num 3))])]

/-- After the second application: the `a.b` entry mutated the shared object
`3`, while the `a` entry compared the identical reference and did
nothing. -/
def hcxSt2 : Store :=
  [(0, [("a", .ref 3)]), (1, [("b", .prim (.num 2))]),
    (2, [("a.b", .prim (.num 2)), ("a", .ref 3)]), (3, [("b", .prim (.num 2))])]

/-- C7 counterexample (store model): for the overlapping set mapping with
keys `a.b` (to `2`) and `a` (to the source's object with `b = 3`), the
first application reports two changes and stores the source object's
reference at `a`.  The second application then reads `a.b = 3` through that
shared object, writes `2` into it (one change, a different store), and the
`a` entry compares the identical reference and no-ops: the second
application yields neither a zero count nor the state the first one left. -/
theorem set_twice_not_idempotent_cex :
    hTryToApplyAllSet hcxSt0 (some (.ref 0)) (some (.ref 2)) = .ok (2, hcxSt1)
    ∧ hTryToApplyAllSet hcxSt1 (some (.ref 0)) (some (.ref 2)) = .ok (1, hcxSt2)
    ∧ (1 : Nat) ≠ 0
    ∧ hcxSt2 ≠ hcxSt1
    ∧ hGetNestedProperty hcxSt1 (some (.ref 0)) "a.b" = .ok (some (.prim (.num 3)))
    ∧ hGetNestedProperty hcxSt2 (some (.ref 0)) "a.b" = .ok (some (.prim (.num 2))) :=
  ⟨by decide, by decide, by decide, by decide, by decide, by decide⟩

/-- On a duplicate-free list the overwrite removal loop is a filter: exactly
the identifiers having an override entry are dropped, coverage unexamined. -/
theorem removeOverridden_eq_filter : ∀ (ks cur : List String), cur.Nodup →
    removeOverridden ks cur = cur.filter (fun i => !ks.contains i)
  | [], cur => by
    intro _
    rw [removeOverridden]
    symm
    apply List.filter_eq_self.mpr
    intro a _
    simp
  | k :: ks, cur => by
    intro hnd
    rw [removeOverridden]
    have hre : (if k ∈ cur then cur.erase k else cur) = cur.erase k := by
      split
      · rfl
      · rw [List.erase_of_not_mem]
        assumption
    rw [hre, removeOverridden_eq_filter ks (cur.erase k) (hnd.erase k),
      List.Nodup.erase_eq_filter hnd k, List.filter_filter]
    apply List.filter_congr
    intro a _
    by_cases hak : a = k <;> simp [hak, bne, Bool.and_comm]

/-- The inner conflict loop as a filter-map over the candidate list. -/
theorem conflictInner_eq (omKeys : List String) (k : String) (sc : SelectorMetaData)
    (checked : List String) (hnd : sc.matchingIds.Nodup) :
    ∀ ms : List (String × SelectorMetaData),
    conflictInner omKeys k sc checked ms
      = ms.filterMap (fun kv =>
          if k ≠ kv.1 ∧ kv.1 ∉ checked then conflictPair omKeys k kv.1 sc kv.2 else none)
  | [] => by rw [conflictInner]; rfl
  | (key, other) :: rest => by
    rw [conflictInner, List.filterMap_cons]
    by_cases hg : k ≠ key ∧ key ∉ checked
    · simp only [if_pos hg, conflictPair]
      by_cases hI : sc.matchingIds.filter (fun e => other.matchingIds.contains e) ≠ []
          ∧ sc.changedProperties.filter (fun e => other.changedProperties.contains e) ≠ []
      · simp only [if_pos hI]
        rw [conflictInner_eq omKeys k sc checked hnd rest,
          removeOverridden_eq_filter omKeys _ (hnd.filter _)]
        rfl
      · simp only [if_neg hI]
        exact conflictInner_eq omKeys k sc checked hnd rest
    · simp only [if_neg hg]
      exact conflictInner_eq omKeys k sc checked hnd rest

/-- The outer conflict loop with a checked-prefix invariant: against a
duplicate-free key list it reports exactly the canonical pair entries of
the unprocessed suffix. -/
theorem conflictOuterGo_eq (omKeys : List String) :
    ∀ (rest pre : List (String × SelectorMetaData)),
    ((pre ++ rest).map Prod.fst).Nodup →
    (∀ kv ∈ rest, kv.2.matchingIds.Nodup) →
    conflictOuterGo (pre ++ rest) omKeys (pre.map Prod.fst) rest
      = canonicalConflicts omKeys rest
  | [], pre => by
    intro _ _
    rw [conflictOuterGo, canonicalConflicts]
  | (k, sc) :: rest, pre => by
    intro hnd hids
    rw [conflictOuterGo, canonicalConflicts]
    rw [List.map_append, List.map_cons] at hnd
    have hnd' := hnd
    rw [List.nodup_append] at hnd'
    obtain ⟨hpre, hcons, hdisj⟩ := hnd'
    rw [List.nodup_cons] at hcons
    congr 1
    · rw [conflictInner_eq omKeys k sc (pre.map Prod.fst)
        (hids (k, sc) (List.mem_cons_self _ _)) (pre ++ (k, sc) :: rest),
        List.filterMap_append, List.filterMap_cons]
      have hpreNone : pre.filterMap (fun kv =>
          if k ≠ kv.1 ∧ kv.1 ∉ pre.map Prod.fst then conflictPair omKeys k kv.1 sc kv.2
          else none) = [] := by
        rw [List.filterMap_eq_nil_iff]
        intro kv hkv
        rw [if_neg]
        intro hcontra
        exact hcontra.2 (List.mem_map_of_mem Prod.fst hkv)
      have hself : (if k ≠ (k, sc).1 ∧ (k, sc).1 ∉ pre.map Prod.fst
          then conflictPair omKeys k (k, sc).1 sc (k, sc).2 else none) = none := by
        rw [if_neg]
        intro hcontra
        exact hcontra.1 rfl
      rw [hpreNone, hself, List.nil_append]
      apply List.filterMap_congr
      intro kv hkv
      rw [if_pos]
      constructor
      · intro hk
        apply hcons.1
        rw [hk]
        exact List.mem_map.mpr ⟨kv, hkv, rfl⟩
      · intro hmem
        exact hdisj hmem (List.mem_cons_of_mem k (List.mem_map_of_mem Prod.fst hkv))
    · have hrw : pre ++ (k, sc) :: rest = (pre ++ [(k, sc)]) ++ rest := by
        rw [List.append_assoc]
        rfl
      have hmap : pre.map Prod.fst ++ [k] = (pre ++ [(k, sc)]).map Prod.fst := by
        rw [List.map_append]
        rfl
      rw [hrw, hmap]
      apply conflictOuterGo_eq omKeys rest (pre ++ [(k, sc)])
      · rw [← hrw, List.map_append, List.map_cons]
        exact hnd
      · intro kv hkv
        exact hids kv (List.mem_cons_of_mem _ hkv)

/-- C9 (amended): over duplicate-free selector keys and matched-identifier
lists, the conflict check reports exactly one entry per unordered pair of
distinct selectors whose matched-identifier sets and touched-property sets
both intersect (none when either intersection is empty), the earlier
selector named first, and with every record possessing any override entry
removed from the reported items — whether or not that override covers the
conflicting properties. -/
theorem conflict_detection_pairing (metas : List (String × SelectorMetaData))
    (om : List (String × OverwriteMetaData))
    (hkeys : (metas.map Prod.fst).Nodup)
    (hids : ∀ kv ∈ metas, kv.2.matchingIds.Nodup) :
    conflictEntries metas om = canonicalConflicts (om.map fun kv => kv.1) metas := by
  rw [conflictEntries]
  have h := conflictOuterGo_eq (om.map fun kv => kv.1) metas [] (by simpa using hkeys) hids
  simpa using h

/-- Witness for `conflict_detection_pairing` on two overlapping selectors
and one override. -/
theorem conflict_detection_pairing_witness :
    conflictEntries
        [("s1", ⟨["i", "j"], [], ["p"], true⟩), ("s2", ⟨["j"], [], ["p", "q"], true⟩)]
        [("j", ⟨"ItemJ", ["r"]⟩)]
      = canonicalConflicts ["j"]
        [("s1", ⟨["i", "j"], [], ["p"], true⟩), ("s2", ⟨["j"], [], ["p", "q"], true⟩)] :=
  conflict_detection_pairing
    [("s1", ⟨["i", "j"], [], ["p"], true⟩), ("s2", ⟨["j"], [], ["p", "q"], true⟩)]
    [("j", ⟨"ItemJ", ["r"]⟩)] (by decide) (by decide)

/-- C9 counterexample: a record with an override entry is removed from the
reported conflict items even though the override covers none of the
conflicting properties — the removal is keyed on identifiers alone, not on
being fully covered.  Here the pair conflicts on property p, the only
override on the shared record touches only q, and the reported items are
nonetheless empty. -/
theorem conflict_override_removal_cex :
    conflictEntries
        [("s1", ⟨["i"], [], ["p"], true⟩), ("s2", ⟨["i"], [], ["p"], true⟩)]
        [("i", ⟨"ItemI", ["q"]⟩)]
      = [⟨"s1", "s2", [], ["p"]⟩]
    ∧ "p" ∉ (⟨"ItemI", ["q"]⟩ : OverwriteMetaData).changedProperties :=
  ⟨by decide, by decide⟩

theorem lookupAssoc_of_mem_nodup {α : Type} {l : List (String × α)} {k : String} {v : α}
    (hnd : (l.map Prod.fst).Nodup) (hmem : (k, v) ∈ l) : lookupAssoc l k = some v := by
  induction l with
  | nil => cases hmem
  | cons kv rest ih =>
    rw [List.map_cons, List.nodup_cons] at hnd
    rcases List.mem_cons.mp hmem with heq | hmem'
    · rw [← heq, lookupAssoc, if_pos rfl]
    · rw [lookupAssoc]
      split
      · exfalso
        apply hnd.1
        have hk : kv.1 = k := by assumption
        rw [hk]
        exact List.mem_map.mpr ⟨(k, v), hmem', rfl⟩
      · exact ih hnd.2 hmem'

theorem lookupAssoc_eq_lookupField :
    ∀ (l : List (String × JVal)) (k : String), lookupAssoc l k = lookupField l k
  | [], _ => rfl
  | (k', v) :: rest, k => by
    rw [lookupAssoc, lookupField]
    split
    · rfl
    · exact lookupAssoc_eq_lookupField rest k

theorem lookupField_of_mem_nodup {l : List (String × JVal)} {k : String} {v : JVal}
    (hnd : (l.map Prod.fst).Nodup) (hmem : (k, v) ∈ l) : lookupField l k = some v := by
  rw [← lookupAssoc_eq_lookupField]
  exact lookupAssoc_of_mem_nodup hnd hmem

theorem lookupAssoc_split {α : Type} : ∀ {l : List (String × α)} {k : String} {v : α},
    lookupAssoc l k = some v →
    ∃ pre post, l = pre ++ (k, v) :: post ∧ k ∉ pre.map Prod.fst
  | [], k, v => by intro h; rw [lookupAssoc] at h; cases h
  | (k', v') :: rest, k, v => by
    intro h
    rw [lookupAssoc] at h
    by_cases hk : k' = k
    · rw [if_pos hk] at h
      cases h
      exact ⟨[], rest, by simp [hk], by simp⟩
    · rw [if_neg hk] at h
      obtain ⟨pre, post, hsplit, hpre⟩ := lookupAssoc_split h
      refine ⟨(k', v') :: pre, post, by rw [hsplit, List.cons_append], ?_⟩
      simp only [List.map_cons, List.mem_cons]
      rintro (h1 | h2)
      · exact hk h1.symm
      · exact hpre h2

theorem mem_setAssoc {α : Type} : ∀ {l : List (String × α)} {k : String} {v : α} {kv},
    kv ∈ setAssoc l k v → kv ∈ l ∨ kv = (k, v)
  | [], k, v, kv => by
    intro h
    rw [setAssoc] at h
    right
    simpa using h
  | (k', v') :: rest, k, v, kv => by
    intro h
    rw [setAssoc] at h
    split at h
    · rcases List.mem_cons.mp h with heq | hm
      · right
        have hk : k' = k := by assumption
        rw [heq, hk]
      · exact Or.inl (List.mem_cons_of_mem _ hm)
    · rcases List.mem_cons.mp h with heq | hm
      · rw [heq]
        exact Or.inl (List.mem_cons_self _ _)
      · rcases mem_setAssoc hm with h1 | h2
        · exact Or.inl (List.mem_cons_of_mem _ h1)
        · exact Or.inr h2

theorem setAssoc_map_fst_nodup {α : Type} : ∀ {l : List (String × α)} (k : String) (v : α),
    (l.map Prod.fst).Nodup → ((setAssoc l k v).map Prod.fst).Nodup
  | [], k, v => by
    intro _
    rw [setAssoc]
    simp
  | (k', v') :: rest, k, v => by
    intro hnd
    simp only [List.map_cons, List.nodup_cons] at hnd
    rw [setAssoc]
    split
    · simp only [List.map_cons, List.nodup_cons]
      exact hnd
    · simp only [List.map_cons, List.nodup_cons]
      constructor
      · intro hmem
        obtain ⟨kv, hkv, hfst⟩ := List.mem_map.mp hmem
        rcases mem_setAssoc hkv with h1 | h2
        · exact hnd.1 (List.mem_map.mpr ⟨kv, h1, hfst⟩)
        · have hk : k' = k := by rw [← hfst, h2]
          exact absurd hk (by assumption)
      · exact setAssoc_map_fst_nodup k v hnd.2

theorem updateAssoc_lookup_ne : ∀ (db : DbItems) (id b : String) (nv : JVal), b ≠ id →
    lookupField (updateAssoc db id nv) b = lookupField db b
  | [], _, _, _ => by intro _; rfl
  | (k, v) :: rest, id, b, nv => by
    intro hb
    rw [updateAssoc]
    split
    · have hk : k = id := by assumption
      rw [lookupField, lookupField, hk, if_neg (Ne.symm hb), if_neg (Ne.symm hb)]
    · rw [lookupField, lookupField]
      split
      · rfl
      · exact updateAssoc_lookup_ne rest id b nv hb

theorem updateAssoc_lookup_self : ∀ (db : DbItems) (id : String) (nv : JVal) {v : JVal},
    lookupField db id = some v → lookupField (updateAssoc db id nv) id = some nv
  | [], id, nv, v => by intro h; rw [lookupField] at h; cases h
  | (k, w) :: rest, id, nv, v => by
    intro h
    rw [updateAssoc]
    rw [lookupField] at h
    split
    · have hk : k = id := by assumption
      rw [lookupField, if_pos hk]
    · rw [lookupField]
      split
      · exfalso
        have hk : k = id := by assumption
        exact absurd hk (by assumption)
      · rw [if_neg (by assumption)] at h
        exact updateAssoc_lookup_self rest id nv h

theorem writeProps_lookup_ne (db : DbItems) (id b : String) (np : Option JVal) (hb : b ≠ id) :
    lookupField (writeProps db id np) b = lookupField db b := by
  rw [writeProps]
  cases hdb : lookupField db id with
  | none => rfl
  | some it =>
    cases it <;> cases np <;>
      first
        | rfl
        | exact updateAssoc_lookup_ne db id b _ hb

theorem writeProps_lookup_self (db : DbItems) (id : String) (fs : List (String × JVal))
    (q : JVal) (h : lookupField db id = some (JVal.obj fs)) :
    lookupField (writeProps db id (some q)) id
      = some (JVal.obj (jsSetKey.setField fs "_props" q)) := by
  rw [writeProps, h]
  exact updateAssoc_lookup_self db id _ h

theorem canApplyMultiplier_congr {t t' : Option JVal} (src : Option JVal) (q : String)
    (h : getNestedProperty t (.str q) = getNestedProperty t' (.str q)) :
    canApplyMultiplier t src q = canApplyMultiplier t' src q := by
  rw [canApplyMultiplier, canApplyMultiplier, h]

theorem jsTypeof_num_inv {v : JVal} (h : jsTypeof (some v) = "number") : ∃ x, v = .num x := by
  cases v <;> simp [jsTypeof] at h ⊢

theorem canApplyMultiplier_true_inv {t src : Option JVal} {q : String}
    (h : canApplyMultiplier t src q = true) :
    ∃ v m, getNestedProperty t (.str q) = .ok (some (.num v))
      ∧ dotSafe src q = some (.num m) := by
  rw [canApplyMultiplier] at h
  cases hg : getNestedProperty t (.str q) with
  | error e => rw [hg] at h; cases h
  | ok old =>
    rw [hg] at h
    cases hms : dotSafe src q with
    | none => rw [hms] at h; simp [jsTypeof] at h
    | some mv =>
      rw [hms] at h
      cases old with
      | none => simp at h
      | some ov =>
        cases mv <;> simp [jsTypeof] at h
        obtain ⟨v, rfl⟩ := jsTypeof_num_inv h
        exact ⟨v, _, rfl, rfl⟩

theorem setNestedSegs_ok_ne_null : ∀ (segs : List String), segs ≠ [] →
    ∀ (t t₁ w : JVal), setNestedSegs (some t) segs w = .ok t₁ → t₁ ≠ JVal.null
  | [], hne => absurd rfl hne
  | [a], _ => by
    intro t t₁ w h
    rw [setNestedSegs] at h
    split at h
    · exact jsSetKey_ne_null h
    · cases h
  | a :: r0 :: rs, _ => by
    intro t t₁ w h
    rw [setNestedSegs] at h
    split at h
    · obtain ⟨c, hdot, hrest⟩ := exceptBind_ok_iff.mp h
      obtain ⟨c', hset, hkey⟩ := exceptBind_ok_iff.mp hrest
      exact jsSetKey_ne_null hkey
    · cases h
    · simp

/-- Shape of a successful applicator step: the target is unchanged, or a
single nested write along the parameter's path happened to it. -/
theorem tryToApplyStep_shape {ct : ApplicatorChangeType} {t t' src : Option JVal}
    {q : String} {c : Nat}
    (h : tryToApplyStep ct t src q = .ok (c, t')) :
    t' = t ∨ ∃ t0 w t₁, t = some t0 ∧ setNestedSegs (some t0) (jsSplitDot q) w = .ok t₁
      ∧ t' = some t₁ := by
  cases ct with
  | SET_VALUE =>
    have hv : tryToApplyValue t src q = .ok (c, t') := h
    by_cases hc : canApplyValue t src q = true
    · rw [tryToApplyValue, if_pos hc] at hv
      obtain ⟨ov, hg, _⟩ := canApplyValue_true_inv hc
      rw [hg, exceptBind_ok] at hv
      by_cases hne : (some ov : Option JVal) ≠ dotSafe src q
      · rw [if_pos hne] at hv
        cases hw : dotSafe src q with
        | none =>
          rw [hw] at hv
          simp only [pure, Except.pure, Except.ok.injEq, Prod.mk.injEq] at hv
          exact Or.inl hv.2.symm
        | some w =>
          rw [hw] at hv
          obtain ⟨t2, hset, hpure⟩ := exceptBind_ok_iff.mp hv
          simp only [pure, Except.pure, Except.ok.injEq, Prod.mk.injEq] at hpure
          cases t with
          | none => rw [getNestedProperty] at hg; simp [getNestedSegs] at hg
          | some t0 =>
            rw [setNestedProperty] at hset
            exact Or.inr ⟨t0, w, t2, rfl, hset, hpure.2.symm⟩
      · rw [if_neg hne] at hv
        simp only [pure, Except.pure, Except.ok.injEq, Prod.mk.injEq] at hv
        exact Or.inl hv.2.symm
    · rw [tryToApplyValue, if_neg hc] at hv
      simp only [pure, Except.pure, Except.ok.injEq, Prod.mk.injEq] at hv
      exact Or.inl hv.2.symm
  | MULTIPLY =>
    have hv : tryToApplyMultiplier t src q = .ok (c, t') := h
    by_cases hc : canApplyMultiplier t src q = true
    · rw [tryToApplyMultiplier, if_pos hc] at hv
      obtain ⟨v, m, hg, hm⟩ := canApplyMultiplier_true_inv hc
      rw [hg, exceptBind_ok, hm] at hv
      obtain ⟨t2, hset, hrest⟩ := exceptBind_ok_iff.mp hv
      obtain ⟨rb, hrb, hfin⟩ := exceptBind_ok_iff.mp hrest
      have ht' : t' = some t2 := by
        by_cases hneq : (some (JVal.num v) : Option JVal) ≠ rb
        · rw [if_pos hneq] at hfin
          simp only [pure, Except.pure, Except.ok.injEq, Prod.mk.injEq] at hfin
          exact hfin.2.symm
        · rw [if_neg hneq] at hfin
          simp only [pure, Except.pure, Except.ok.injEq, Prod.mk.injEq] at hfin
          exact hfin.2.symm
      cases t with
      | none => rw [getNestedProperty] at hg; simp [getNestedSegs] at hg
      | some t0 =>
        rw [setNestedProperty] at hset
        exact Or.inr ⟨t0, .num (v * m), t2, rfl, hset, ht'⟩
    · rw [tryToApplyMultiplier, if_neg hc] at hv
      simp only [pure, Except.pure, Except.ok.injEq, Prod.mk.injEq] at hv
      exact Or.inl hv.2.symm

/-- A multiplier step with a numeric old value and numeric multiplier: the
general form of the write-and-count behaviour. -/
theorem tryToApplyMultiplier_ok {t src : Option JVal} {q : String} {v m : Rat}
    (hres : getNestedProperty t (.str q) = .ok (some (.num v)))
    (hdot : dotSafe src q = some (.num m)) :
    ∃ t1, tryToApplyMultiplier t src q = .ok ((if v * m = v then 0 else 1), some t1)
      ∧ getNestedProperty (some t1) (.str q) = .ok (some (.num (v * m))) := by
  cases t with
  | none => rw [getNestedProperty] at hres; simp [getNestedSegs] at hres
  | some t0 =>
    have hres' : getNestedSegs (some t0) (jsSplitDot q) = .ok (some (.num v)) := hres
    obtain ⟨t1, hset, hread⟩ :=
      setNestedSegs_of_get (jsSplitDot q) (jsSplitDot_ne_nil q) t0 (.num v) hres' (.num (v * m))
    have hcan : canApplyMultiplier (some t0) src q = true := by
      simp [canApplyMultiplier, hres, hdot, jsTypeof]
    refine ⟨t1, ?_, hread⟩
    rw [tryToApplyMultiplier, if_pos hcan, hdot]
    simp only [getNestedProperty, hres', exceptBind_ok, setNestedProperty, hset, hread]
    by_cases he : v * m = v
    · have hcond : ¬ ((some (JVal.num v) : Option JVal) ≠ some (.num (v * m))) := by
        simp [he]
      rw [if_neg hcond, if_pos he]
      rfl
    · have hcond : (some (JVal.num v) : Option JVal) ≠ some (.num (v * m)) := by
        simp
        intro hc
        exact he hc.symm
      rw [if_pos hcond, if_neg he]
      rfl

/-- Every applicator step succeeds: the dry-run guards rule every failing
read or write out before it is attempted. -/
theorem tryToApplyStep_total (ct : ApplicatorChangeType) (t src : Option JVal) (q : String) :
    ∃ c t', tryToApplyStep ct t src q = .ok (c, t') := by
  cases ct with
  | SET_VALUE =>
    show ∃ c t', tryToApplyValue t src q = .ok (c, t')
    by_cases hc : canApplyValue t src q = true
    · obtain ⟨ov, hg, hty⟩ := canApplyValue_true_inv hc
      rw [tryToApplyValue, if_pos hc, hg, exceptBind_ok]
      by_cases hne : (some ov : Option JVal) ≠ dotSafe src q
      · rw [if_pos hne]
        cases hw : dotSafe src q with
        | none => exact ⟨0, t, rfl⟩
        | some w =>
          cases t with
          | none => rw [getNestedProperty] at hg; simp [getNestedSegs] at hg
          | some t0 =>
            have hg' : getNestedSegs (some t0) (jsSplitDot q) = .ok (some ov) := hg
            obtain ⟨t1, hset, hread⟩ :=
              setNestedSegs_of_get _ (jsSplitDot_ne_nil q) t0 ov hg' w
            refine ⟨1, some t1, ?_⟩
            have hsetP : setNestedProperty (some t0) (JVal.str q) w = .ok t1 := hset
            simp only [hsetP, exceptBind_ok]
            rfl
      · rw [if_neg hne]
        exact ⟨0, t, rfl⟩
    · rw [tryToApplyValue, if_neg hc]
      exact ⟨0, t, rfl⟩
  | MULTIPLY =>
    show ∃ c t', tryToApplyMultiplier t src q = .ok (c, t')
    by_cases hc : canApplyMultiplier t src q = true
    · obtain ⟨v, m, hg, hm⟩ := canApplyMultiplier_true_inv hc
      obtain ⟨t1, hstep, _⟩ := tryToApplyMultiplier_ok hg hm
      exact ⟨_, some t1, hstep⟩
    · rw [tryToApplyMultiplier, if_neg hc]
      exact ⟨0, t, rfl⟩

/-- An applicator step at a parameter not prefix-comparable with `p` keeps
the read at `p` and the non-null shape of the target. -/
theorem tryToApplyStep_pres {ct : ApplicatorChangeType} {src : Option JVal}
    {q : String} {c : Nat} {pr : JVal} {t' : Option JVal} (p : String)
    (h : tryToApplyStep ct (some pr) src q = .ok (c, t'))
    (hcmp : segsComparable (jsSplitDot q) (jsSplitDot p) = false) (hnn : pr ≠ .null) :
    ∃ pr', t' = some pr' ∧ pr' ≠ .null
      ∧ getNestedProperty (some pr') (.str p) = getNestedProperty (some pr) (.str p) := by
  rcases tryToApplyStep_shape h with heq | ⟨t0, w, t₁, ht, hset, ht'⟩
  · exact ⟨pr, heq, hnn, rfl⟩
  · cases ht
    refine ⟨t₁, ht', setNestedSegs_ok_ne_null _ (jsSplitDot_ne_nil q) _ _ _ hset, ?_⟩
    rw [getNestedProperty, getNestedProperty]
    exact getNestedSegs_set_diverge _ _ _ _ _ hset hcmp

/-- A whole applicator batch over parameters all non-comparable with `p`
keeps the read at `p` and the non-null shape. -/
theorem applyAllGo_pres (ct : ApplicatorChangeType) (src : Option JVal) (p : String) :
    ∀ (ks : List String), (∀ q ∈ ks, segsComparable (jsSplitDot q) (jsSplitDot p) = false) →
    ∀ (pr : JVal), pr ≠ .null → ∀ (acc n : Nat) (t' : Option JVal),
    tryToApplyAllGo ct src ks (some pr) acc = .ok (n, t') →
    ∃ pr', t' = some pr' ∧ pr' ≠ .null
      ∧ getNestedProperty (some pr') (.str p) = getNestedProperty (some pr) (.str p)
  | [], _, pr, hnn, acc, n, t' => by
    intro h
    rw [tryToApplyAllGo] at h
    have := Except.ok.inj h
    injection this with h1 h2
    exact ⟨pr, h2.symm, hnn, rfl⟩
  | q :: ks, hks, pr, hnn, acc, n, t' => by
    intro h
    rw [tryToApplyAllGo] at h
    obtain ⟨⟨c, t₂⟩, hstep, hrest⟩ := exceptBind_ok_iff.mp h
    obtain ⟨pr₂, ht₂, hnn₂, hpres₂⟩ :=
      tryToApplyStep_pres p hstep (hks q (List.mem_cons_self q ks)) hnn
    subst ht₂
    obtain ⟨pr', ht', hnn', hpres'⟩ := applyAllGo_pres ct src p ks
      (fun r hr => hks r (List.mem_cons_of_mem q hr)) pr₂ hnn₂ (acc + c) n t' hrest
    exact ⟨pr', ht', hnn', by rw [hpres', hpres₂]⟩

/-- Lockstep behaviour of a single applicator step on two targets that agree
on the read at `p`, for a parameter that is `p` itself or non-comparable
with it. -/
theorem step_parallel (ct : ApplicatorChangeType) (src : Option JVal) (q p : String)
    (hq : q = p ∨ segsComparable (jsSplitDot q) (jsSplitDot p) = false)
    (prL prR : JVal) (hL : prL ≠ .null) (hR : prR ≠ .null)
    (hread : getNestedProperty (some prL) (.str p) = getNestedProperty (some prR) (.str p)) :
    ∃ cL tL cR tR, tryToApplyStep ct (some prL) src q = .ok (cL, some tL)
      ∧ tryToApplyStep ct (some prR) src q = .ok (cR, some tR)
      ∧ tL ≠ .null ∧ tR ≠ .null
      ∧ getNestedProperty (some tL) (.str p) = getNestedProperty (some tR) (.str p) := by
  rcases hq with rfl | hcmp
  · cases ct with
    | SET_VALUE =>
      have hcc : canApplyValue (some prL) src q = canApplyValue (some prR) src q :=
        canApplyValue_congr src q hread
      by_cases hc : canApplyValue (some prL) src q = true
      · obtain ⟨ov, hgL, hty⟩ := canApplyValue_true_inv hc
        have hgR : getNestedProperty (some prR) (.str q) = .ok (some ov) := by
          rw [← hread]; exact hgL
        have hcR : canApplyValue (some prR) src q = true := by rw [← hcc]; exact hc
        by_cases hne : (some ov : Option JVal) ≠ dotSafe src q
        · cases hw : dotSafe src q with
          | none =>
            refine ⟨0, prL, 0, prR, ?_, ?_, hL, hR, hread⟩
            · show tryToApplyValue (some prL) src q = .ok (0, some prL)
              rw [tryToApplyValue, if_pos hc, hgL, exceptBind_ok, if_pos hne, hw]
              rfl
            · show tryToApplyValue (some prR) src q = .ok (0, some prR)
              rw [tryToApplyValue, if_pos hcR, hgR, exceptBind_ok, if_pos hne, hw]
              rfl
          | some w =>
            obtain ⟨tL, hsetL, hreadL⟩ :=
              setNestedSegs_of_get _ (jsSplitDot_ne_nil q) prL ov hgL w
            obtain ⟨tR, hsetR, hreadR⟩ :=
              setNestedSegs_of_get _ (jsSplitDot_ne_nil q) prR ov hgR w
            refine ⟨1, tL, 1, tR,
              ?_, ?_,
              setNestedSegs_ok_ne_null _ (jsSplitDot_ne_nil q) _ _ _ hsetL,
              setNestedSegs_ok_ne_null _ (jsSplitDot_ne_nil q) _ _ _ hsetR, ?_⟩
            · show tryToApplyValue (some prL) src q = .ok (1, some tL)
              rw [tryToApplyValue, if_pos hc, hgL, exceptBind_ok, if_pos hne, hw]
              have hsetP : setNestedProperty (some prL) (JVal.str q) w = .ok tL := hsetL
              simp only [hsetP, exceptBind_ok]
              rfl
            · show tryToApplyValue (some prR) src q = .ok (1, some tR)
              rw [tryToApplyValue, if_pos hcR, hgR, exceptBind_ok, if_pos hne, hw]
              have hsetP : setNestedProperty (some prR) (JVal.str q) w = .ok tR := hsetR
              simp only [hsetP, exceptBind_ok]
              rfl
            · show getNestedProperty (some tL) (JVal.str q)
                = getNestedProperty (some tR) (JVal.str q)
              have hrL : getNestedProperty (some tL) (JVal.str q) = .ok (some w) := hreadL
              have hrR : getNestedProperty (some tR) (JVal.str q) = .ok (some w) := hreadR
              rw [hrL, hrR]
        · refine ⟨0, prL, 0, prR, ?_, ?_, hL, hR, hread⟩
          · show tryToApplyValue (some prL) src q = .ok (0, some prL)
            rw [tryToApplyValue, if_pos hc, hgL, exceptBind_ok, if_neg hne]
            rfl
          · show tryToApplyValue (some prR) src q = .ok (0, some prR)
            rw [tryToApplyValue, if_pos hcR, hgR, exceptBind_ok, if_neg hne]
            rfl
      · have hcR : ¬ canApplyValue (some prR) src q = true := by rw [← hcc]; exact hc
        refine ⟨0, prL, 0, prR, ?_, ?_, hL, hR, hread⟩
        · show tryToApplyValue (some prL) src q = .ok (0, some prL)
          rw [tryToApplyValue, if_neg hc]
          rfl
        · show tryToApplyValue (some prR) src q = .ok (0, some prR)
          rw [tryToApplyValue, if_neg hcR]
          rfl
    | MULTIPLY =>
      have hcc : canApplyMultiplier (some prL) src q = canApplyMultiplier (some prR) src q :=
        canApplyMultiplier_congr src q hread
      by_cases hc : canApplyMultiplier (some prL) src q = true
      · obtain ⟨v, m, hgL, hm⟩ := canApplyMultiplier_true_inv hc
        have hgR : getNestedProperty (some prR) (.str q) = .ok (some (.num v)) := by
          rw [← hread]; exact hgL
        obtain ⟨tL, hstepL, hreadL⟩ := tryToApplyMultiplier_ok hgL hm
        obtain ⟨tR, hstepR, hreadR⟩ := tryToApplyMultiplier_ok hgR hm
        refine ⟨_, tL, _, tR, hstepL, hstepR, ?_, ?_, ?_⟩
        · have hstepL' : tryToApplyStep .MULTIPLY (some prL) src q
              = .ok ((if v * m = v then 0 else 1), some tL) := hstepL
          rcases tryToApplyStep_shape hstepL' with heq | ⟨t0, w, t₁, ht, hset, ht'⟩
          · cases heq; exact hL
          · cases ht; cases ht'
            exact setNestedSegs_ok_ne_null _ (jsSplitDot_ne_nil q) _ _ _ hset
        · have hstepR' : tryToApplyStep .MULTIPLY (some prR) src q
              = .ok ((if v * m = v then 0 else 1), some tR) := hstepR
          rcases tryToApplyStep_shape hstepR' with heq | ⟨t0, w, t₁, ht, hset, ht'⟩
          · cases heq; exact hR
          · cases ht; cases ht'
            exact setNestedSegs_ok_ne_null _ (jsSplitDot_ne_nil q) _ _ _ hset
        · rw [hreadL, hreadR]
      · have hcR : ¬ canApplyMultiplier (some prR) src q = true := by rw [← hcc]; exact hc
        refine ⟨0, prL, 0, prR, ?_, ?_, hL, hR, hread⟩
        · show tryToApplyMultiplier (some prL) src q = .ok (0, some prL)
          rw [tryToApplyMultiplier, if_neg hc]
          rfl
        · show tryToApplyMultiplier (some prR) src q = .ok (0, some prR)
          rw [tryToApplyMultiplier, if_neg hcR]
          rfl
  · obtain ⟨cL, tL', hstepL⟩ := tryToApplyStep_total ct (some prL) src q
    obtain ⟨cR, tR', hstepR⟩ := tryToApplyStep_total ct (some prR) src q
    obtain ⟨prL', htL, hnnL, hpresL⟩ := tryToApplyStep_pres p hstepL hcmp hL
    obtain ⟨prR', htR, hnnR, hpresR⟩ := tryToApplyStep_pres p hstepR hcmp hR
    subst htL
    subst htR
    exact ⟨cL, prL', cR, prR', hstepL, hstepR, hnnL, hnnR, by rw [hpresL, hpresR, hread]⟩

/-- Lockstep behaviour of a whole applicator batch on two targets agreeing
on the read at `p`, when every parameter is `p` or non-comparable with
it. -/
theorem applyAllGo_parallel (ct : ApplicatorChangeType) (src : Option JVal) (p : String) :
    ∀ (ks : List String),
    (∀ q ∈ ks, q = p ∨ segsComparable (jsSplitDot q) (jsSplitDot p) = false) →
    ∀ (prL prR : JVal), prL ≠ .null → prR ≠ .null →
    getNestedProperty (some prL) (.str p) = getNestedProperty (some prR) (.str p) →
    ∀ (accL accR : Nat), ∃ nL tL nR tR,
      tryToApplyAllGo ct src ks (some prL) accL = .ok (nL, some tL)
      ∧ tryToApplyAllGo ct src ks (some prR) accR = .ok (nR, some tR)
      ∧ tL ≠ .null ∧ tR ≠ .null
      ∧ getNestedProperty (some tL) (.str p) = getNestedProperty (some tR) (.str p)
  | [], _, prL, prR, hL, hR, hread, accL, accR =>
    ⟨accL, prL, accR, prR, by rw [tryToApplyAllGo], by rw [tryToApplyAllGo], hL, hR, hread⟩
  | q :: ks, hks, prL, prR, hL, hR, hread, accL, accR => by
    obtain ⟨cL, tL, cR, tR, hstepL, hstepR, hnnL, hnnR, hread'⟩ :=
      step_parallel ct src q p (hks q (List.mem_cons_self q ks)) prL prR hL hR hread
    obtain ⟨nL, uL, nR, uR, hgoL, hgoR, hnnL', hnnR', hread''⟩ :=
      applyAllGo_parallel ct src p ks (fun r hr => hks r (List.mem_cons_of_mem q hr))
        tL tR hnnL hnnR hread' (accL + cL) (accR + cR)
    refine ⟨nL, uL, nR, uR, ?_, ?_, hnnL', hnnR', hread''⟩
    · rw [tryToApplyAllGo, hstepL, exceptBind_ok]
      exact hgoL
    · rw [tryToApplyAllGo, hstepR, exceptBind_ok]
      exact hgoR

theorem overrideOneSel_query (id : String) (mult setv : Option JVal) :
    dotSafe (some (overrideOneSel id mult setv)) "query" = some (overrideQueryObj id) := by
  cases mult <;> cases setv <;> simp [overrideOneSel, dotSafe, lookupField]

theorem overrideOneSel_multiply (id : String) (mult setv : Option JVal) :
    dotSafe (some (overrideOneSel id mult setv)) "multiply" = mult := by
  cases mult <;> cases setv <;> simp [overrideOneSel, dotSafe, lookupField]

theorem overrideOneSel_set (id : String) (mult setv : Option JVal) :
    dotSafe (some (overrideOneSel id mult setv)) "set" = setv := by
  cases mult <;> cases setv <;> simp [overrideOneSel, dotSafe, lookupField]

theorem isQuery_overrideQueryObj (id : String) :
    isQuery (some (overrideQueryObj id)) = .ok true := by
  simp [isQuery, overrideQueryObj, isBasicExpression, isLogicalExpression, dotSafe,
    lookupField, jsDot, jsNonNull, jsTypeof, jsIsArray, exceptBind_ok, pure, Except.pure]

/-- The one-record `_id` query evaluates on an object record to the strict
comparison of the record's `_id` field with the identifier, with an absent
or non-string `_id` answering false. -/
theorem evaluateQuery_overrideQueryObj (id : String) (fs : List (String × JVal)) :
    evaluateQuery (some (overrideQueryObj id)) (some (.obj fs))
      = .ok (match lookupField fs "_id" with
          | some pv => JVal.beq pv (.str id)
          | none => false) := by
  have hbasic : isBasicExpression (some (overrideQueryObj id)) = .ok true := by
    simp [isBasicExpression, overrideQueryObj, dotSafe, lookupField, jsNonNull, jsTypeof]
  have hlogic : isLogicalExpression (some (overrideQueryObj id)) = .ok false := by
    simp [isLogicalExpression, overrideQueryObj, dotSafe, lookupField, jsTypeof, jsNonNull,
      jsDot, jsIsArray]
    rfl
  have hkey : jsDot (some (overrideQueryObj id)) "key" = .ok (some (JVal.str "_id")) := by
    simp [overrideQueryObj, jsDot, dotSafe, lookupField]
  have hpriv : isPrivateProperty (some (JVal.str "_id")) = .ok true := by decide
  rw [evaluateQuery, isQuery_overrideQueryObj, exceptBind_ok]
  rw [if_pos rfl, hlogic, exceptBind_ok, if_neg (by simp), hbasic, exceptBind_ok,
    if_pos rfl, hkey, exceptBind_ok, hpriv, exceptBind_ok, if_pos rfl]
  have hsplit : jsSplitDot "_id" = ["_id"] := by decide
  have hpropRead : getNestedPropertyOpt (some (JVal.obj fs)) (some (JVal.str "_id"))
      = .ok (lookupField fs "_id") := by
    rw [getNestedPropertyOpt, getNestedProperty, hsplit]
    simp [getNestedSegs, isObjectTypeof, jsTypeof, jsDot, dotSafe]
  have hshape : evaluateBasicExpression (some (overrideQueryObj id)) (some (.obj fs))
      = match evaluateBasicTry (some (JVal.str "_id")) (some (JVal.arr [JVal.str id]))
          (JVal.str "equals") false false (some (.obj fs)) with
        | .ok b => .ok b
        | .error _ => .ok false := rfl
  rw [hshape]
  cases hid : lookupField fs "_id" with
  | none =>
    have htry : evaluateBasicTry (some (JVal.str "_id")) (some (JVal.arr [JVal.str id]))
        (JVal.str "equals") false false (some (.obj fs)) = .ok false := by
      simp only [evaluateBasicTry, hpropRead, hid, exceptBind_ok]
      rfl
    rw [htry]
  | some pv =>
    cases pv <;>
      simp [evaluateBasicTry, hpropRead, hid, exceptBind_ok, jsTypeof, jsIsArray,
        applyNeg, evalOpTest, JVal.beq, pure, Except.pure]

/-- Relation between a record's current `_props` and its original `_props`:
either untouched, or both defined non-null values agreeing on the read at
`p`. -/
def propsRel (p : String) (a b : Option JVal) : Prop :=
  a = b ∨ ∃ pr pr0, a = some pr ∧ b = some pr0 ∧ pr ≠ .null ∧ pr0 ≠ .null
    ∧ getNestedProperty (some pr) (.str p) = getNestedProperty (some pr0) (.str p)

/-- The record `rid` in `db` is an object agreeing with its original field
list `fs0` on `_id`, `_type` and `_name` and related on `_props`: the
invariant the selector phase maintains under the override filtering. -/
def ItemAgree (p : String) (db : DbItems) (rid : String)
    (fs0 : List (String × JVal)) : Prop :=
  ∃ fs, lookupField db rid = some (JVal.obj fs)
    ∧ lookupField fs "_id" = lookupField fs0 "_id"
    ∧ lookupField fs "_type" = lookupField fs0 "_type"
    ∧ lookupField fs "_name" = lookupField fs0 "_name"
    ∧ propsRel p (lookupField fs "_props") (lookupField fs0 "_props")

theorem ItemAgree_refl (p : String) {db : DbItems} {rid : String}
    {fs0 : List (String × JVal)} (h : lookupField db rid = some (JVal.obj fs0)) :
    ItemAgree p db rid fs0 :=
  ⟨fs0, h, rfl, rfl, rfl, Or.inl rfl⟩

theorem ItemAgree_congr {p : String} {db db' : DbItems} {rid : String}
    {fs0 : List (String × JVal)} (hcong : lookupField db' rid = lookupField db rid)
    (h : ItemAgree p db rid fs0) : ItemAgree p db' rid fs0 := by
  obtain ⟨fs, hlk, h1, h2, h3, h4⟩ := h
  exact ⟨fs, by rw [hcong]; exact hlk, h1, h2, h3, h4⟩

theorem jsNonNull_true_inv {x : Option JVal} (h : jsNonNull x = true) :
    ∃ v, x = some v ∧ v ≠ .null := by
  cases x with
  | none => simp [jsNonNull] at h
  | some v =>
    cases v with
    | null => simp [jsNonNull] at h
    | _ => exact ⟨_, rfl, by simp⟩

theorem jsNonNull_some_of_ne_null {v : JVal} (h : v ≠ .null) :
    jsNonNull (some v) = true := by
  cases v <;> first | exact absurd rfl h | rfl

theorem jsDot_ok {v : Option JVal} {k : String} {r : Option JVal}
    (h : jsDot v k = .ok r) : r = dotSafe v k := by
  cases v with
  | none => cases h
  | some x =>
    cases x with
    | null => cases h
    | _ => exact (Except.ok.inj h).symm

/-- Validity of the record is determined by the fields the invariant
tracks. -/
theorem isValidItem_agree {p : String} {fs fs0 : List (String × JVal)}
    (h1 : lookupField fs "_type" = lookupField fs0 "_type")
    (h2 : lookupField fs "_name" = lookupField fs0 "_name")
    (h3 : propsRel p (lookupField fs "_props") (lookupField fs0 "_props")) :
    isValidItem (some (.obj fs)) = isValidItem (some (.obj fs0)) := by
  have hd : ∀ (gs : List (String × JVal)) (k : String),
      dotSafe (some (JVal.obj gs)) k = lookupField gs k := fun _ _ => rfl
  rw [isValidItem, isValidItem, hd, hd, hd, hd, hd, hd, h1, h2]
  rcases h3 with heq | ⟨pr, pr0, ha, hb, hnnA, hnnB, _⟩
  · rw [heq]
    rfl
  · rw [ha, hb, jsNonNull_some_of_ne_null hnnA, jsNonNull_some_of_ne_null hnnB]
    rfl

/-- The observed read is determined by the invariant. -/
theorem readItemPath_agree {p : String} {db db0 : DbItems} {rid : String}
    {fs0 : List (String × JVal)} (h : ItemAgree p db rid fs0)
    (hdb0 : lookupField db0 rid = some (JVal.obj fs0)) :
    readItemPath db rid p = readItemPath db0 rid p := by
  obtain ⟨fs, hlk, _, _, _, hrel⟩ := h
  rw [readItemPath, readItemPath, hlk, hdb0]
  rcases hrel with heq | ⟨pr, pr0, ha, hb, _, _, hread⟩
  · show getNestedProperty (lookupField fs "_props") (.str p)
      = getNestedProperty (lookupField fs0 "_props") (.str p)
    rw [heq]
  · show getNestedProperty (lookupField fs "_props") (.str p)
      = getNestedProperty (lookupField fs0 "_props") (.str p)
    rw [ha, hb]
    exact hread

theorem tryToApplyAll_pres (ct : ApplicatorChangeType) {src : Option JVal} (p : String)
    (hks : ∀ q ∈ jsForInKeys src, segsComparable (jsSplitDot q) (jsSplitDot p) = false)
    {pr : JVal} (hnn : pr ≠ .null) {n : Nat} {t' : Option JVal}
    (h : tryToApplyAllChanges (some pr) src ct = .ok (n, t')) :
    ∃ pr', t' = some pr' ∧ pr' ≠ .null
      ∧ getNestedProperty (some pr') (.str p) = getNestedProperty (some pr) (.str p) := by
  rw [tryToApplyAllChanges] at h
  exact applyAllGo_pres ct src p _ hks pr hnn 0 n t' h

/-- The per-identifier loop of `applySelector` keeps the invariant: writes
to other records leave `rid`'s binding alone, and writes to `rid` only
touch the filtered mapping keys, all non-comparable with `p`. -/
theorem applySelectorGo_pres (p rid : String) (fs0 : List (String × JVal))
    (selector : Option JVal) (om : List (String × OverwriteMetaData))
    (meta : OverwriteMetaData) (hmeta : lookupAssoc om rid = some meta)
    (hsafe : ∀ q ∈ filteredMappingKeys selector meta.changedProperties,
      segsComparable (jsSplitDot q) (jsSplitDot p) = false) :
    ∀ (ids : List String) (db : DbItems) (cc cic : Nat) (cids : List String)
      (r : Nat × Nat × List String × DbItems),
    applySelectorGo selector om ids db cc cic cids = .ok r →
    ItemAgree p db rid fs0 → ItemAgree p r.2.2.2 rid fs0
  | [], db, cc, cic, cids, r => by
    intro h hagree
    rw [applySelectorGo] at h
    have := Except.ok.inj h
    rw [← this]
    exact hagree
  | id :: ids, db, cc, cic, cids, r => by
    intro h hagree
    rw [applySelectorGo] at h
    obtain ⟨props, hprops, h1⟩ := exceptBind_ok_iff.mp h
    by_cases hvalid : isValidItem (lookupField db id) = true
    · rw [if_pos hvalid] at h1
      obtain ⟨qv, hq, h2⟩ := exceptBind_ok_iff.mp h1
      obtain ⟨m, hm, h3⟩ := exceptBind_ok_iff.mp h2
      by_cases hmatch : m = true
      · rw [if_pos hmatch] at h3
        obtain ⟨mr, hmr, h4⟩ := exceptBind_ok_iff.mp h3
        obtain ⟨sr, hsr, h5⟩ := exceptBind_ok_iff.mp h4
        by_cases hnn : (jsNonNull mr || jsNonNull sr) = true
        · rw [if_pos hnn] at h5
          obtain ⟨r1, hr1, h6⟩ := exceptBind_ok_iff.mp h5
          obtain ⟨r2, hr2, h7⟩ := exceptBind_ok_iff.mp h6
          by_cases hid : id = rid
          · subst hid
            obtain ⟨fs, hlk, ha1, ha2, ha3, ha4⟩ := hagree
            rw [hlk] at hprops
            have hpropsv : props = lookupField fs "_props" := jsDot_ok hprops
            rw [hlk] at hvalid
            have hpnn : jsNonNull (lookupField fs "_props") = true := by
              rw [isValidItem] at hvalid
              simp only [Bool.and_eq_true] at hvalid
              exact hvalid.1.2
            obtain ⟨pr, hpr, hprnn⟩ := jsNonNull_true_inv hpnn
            rw [hmeta] at hr1 hr2
            have hmrv : mr = dotSafe selector "multiply" := jsDot_ok hmr
            have hsrv : sr = dotSafe selector "set" := jsDot_ok hsr
            rw [hpropsv, hpr, hmrv] at hr1
            obtain ⟨pr1, hpr1, hpr1nn, hpres1⟩ := tryToApplyAll_pres .MULTIPLY p
              (fun q hq' => hsafe q (List.mem_append_left _ hq')) hprnn hr1
            rw [hpr1, hsrv] at hr2
            obtain ⟨pr2, hpr2, hpr2nn, hpres2⟩ := tryToApplyAll_pres .SET_VALUE p
              (fun q hq' => hsafe q (List.mem_append_right _ hq')) hpr1nn hr2
            have hagree' : ItemAgree p (writeProps db id r2.2) id fs0 := by
              rw [hpr2]
              refine ⟨jsSetKey.setField fs "_props" pr2,
                writeProps_lookup_self db id fs pr2 hlk, ?_, ?_, ?_, ?_⟩
              · rw [setField_lookup_ne fs _ _ _ (by decide)]
                exact ha1
              · rw [setField_lookup_ne fs _ _ _ (by decide)]
                exact ha2
              · rw [setField_lookup_ne fs _ _ _ (by decide)]
                exact ha3
              · rw [setField_lookup_self]
                rcases ha4 with heq | ⟨prA, pr0, haA, hbB, hnnA, hnnB, hreads⟩
                · refine Or.inr ⟨pr2, pr, rfl, ?_, hpr2nn, hprnn, by rw [hpres2, hpres1]⟩
                  rw [← heq, hpr]
                · rw [hpr] at haA
                  have hprA : prA = pr := by
                    have := Option.some.inj haA
                    exact this.symm
                  refine Or.inr ⟨pr2, pr0, rfl, hbB, hpr2nn, hnnB, ?_⟩
                  rw [hpres2, hpres1, ← hprA]
                  exact hreads
            by_cases htot : r1.1 + r2.1 > 0
            · rw [if_pos htot] at h7
              exact applySelectorGo_pres p id fs0 selector om meta hmeta hsafe
                ids _ _ _ _ r h7 hagree'
            · rw [if_neg htot] at h7
              exact applySelectorGo_pres p id fs0 selector om meta hmeta hsafe
                ids _ _ _ _ r h7 hagree'
          · have hagree' : ItemAgree p (writeProps db id r2.2) rid fs0 :=
              ItemAgree_congr (writeProps_lookup_ne db id rid r2.2 (Ne.symm hid)) hagree
            by_cases htot : r1.1 + r2.1 > 0
            · rw [if_pos htot] at h7
              exact applySelectorGo_pres p rid fs0 selector om meta hmeta hsafe
                ids _ _ _ _ r h7 hagree'
            · rw [if_neg htot] at h7
              exact applySelectorGo_pres p rid fs0 selector om meta hmeta hsafe
                ids _ _ _ _ r h7 hagree'
        · rw [if_neg hnn] at h5
          exact applySelectorGo_pres p rid fs0 selector om meta hmeta hsafe
            ids _ _ _ _ r h5 hagree
      · rw [if_neg hmatch] at h3
        exact applySelectorGo_pres p rid fs0 selector om meta hmeta hsafe
          ids _ _ _ _ r h3 hagree
    · rw [if_neg hvalid] at h1
      exact applySelectorGo_pres p rid fs0 selector om meta hmeta hsafe
        ids _ _ _ _ r h1 hagree

/-- Every entry of the computed selector-metadata table was produced by
`getSelectorMetaData` on a configured selector (or was already in the
accumulator). -/
theorem computeSelectorsMetaGo_char (db0 : DbItems) :
    ∀ (sels : List (String × JVal)) (acc out : List (String × SelectorMetaData)),
    computeSelectorsMetaGo db0 acc sels = .ok out →
    ∀ kv ∈ out, kv ∈ acc ∨ ∃ sel, (kv.1, sel) ∈ sels
      ∧ getSelectorMetaData db0 (some sel) = .ok kv.2
  | [], acc, out => by
    intro h kv hkv
    rw [computeSelectorsMetaGo] at h
    have hout := Except.ok.inj h
    rw [← hout] at hkv
    exact Or.inl hkv
  | (key, sel) :: rest, acc, out => by
    intro h kv hkv
    rw [computeSelectorsMetaGo] at h
    obtain ⟨md, hmd, hrest⟩ := exceptBind_ok_iff.mp h
    rcases computeSelectorsMetaGo_char db0 rest (setAssoc acc key md) out hrest kv hkv
      with hin | ⟨s, hs, hgs⟩
    · rcases mem_setAssoc hin with hacc | heq
      · exact Or.inl hacc
      · subst heq
        exact Or.inr ⟨sel, List.mem_cons_self _ _, hmd⟩
    · exact Or.inr ⟨s, List.mem_cons_of_mem _ hs, hgs⟩

/-- Every entry of the computed overwrite-metadata table resolves a
configured override by display name to a database entry with that `_name`,
and records the override's own mapping keys. -/
theorem computeOverwritesMetaGo_char (db0 : DbItems) :
    ∀ (ovs : List (String × JVal)) (acc out : List (String × OverwriteMetaData)),
    computeOverwritesMetaGo db0 acc ovs = .ok out →
    ∀ kv ∈ out, kv ∈ acc ∨ ∃ (itemName : String) (ow : JVal) (mult setv : Option JVal)
      (entry : String × JVal),
      (itemName, ow) ∈ ovs
      ∧ jsDot (some ow) "multiply" = .ok mult ∧ jsDot (some ow) "set" = .ok setv
      ∧ kv.2 = ⟨itemName, jsForInKeys mult ++ jsForInKeys setv⟩
      ∧ db0.find? (fun e => dotSafe (some e.2) "_name" == some (JVal.str itemName))
          = some entry
      ∧ entry.1 = kv.1
  | [], acc, out => by
    intro h kv hkv
    rw [computeOverwritesMetaGo] at h
    have hout := Except.ok.inj h
    rw [← hout] at hkv
    exact Or.inl hkv
  | (itemName, ow) :: rest, acc, out => by
    intro h kv hkv
    rw [computeOverwritesMetaGo] at h
    cases hfind : db0.find?
        (fun e => dotSafe (some e.2) "_name" == some (JVal.str itemName)) with
    | some entry =>
      rw [hfind] at h
      obtain ⟨mult, hmult, h2⟩ := exceptBind_ok_iff.mp h
      obtain ⟨setv, hsetv, h3⟩ := exceptBind_ok_iff.mp h2
      rcases computeOverwritesMetaGo_char db0 rest _ out h3 kv hkv
        with hin | ⟨n, o, mu, se, en, hm, a1, a2, a3, a4, a5⟩
      · rcases mem_setAssoc hin with hacc | heq
        · exact Or.inl hacc
        · refine Or.inr ⟨itemName, ow, mult, setv, entry,
            List.mem_cons_self _ _, hmult, hsetv, by rw [heq], hfind, by rw [heq]⟩
      · exact Or.inr ⟨n, o, mu, se, en, List.mem_cons_of_mem _ hm, a1, a2, a3, a4, a5⟩
    | none =>
      rw [hfind] at h
      rcases computeOverwritesMetaGo_char db0 rest acc out h kv hkv
        with hin | ⟨n, o, mu, se, en, hm, a1, a2, a3, a4, a5⟩
      · exact Or.inl hin
      · exact Or.inr ⟨n, o, mu, se, en, List.mem_cons_of_mem _ hm, a1, a2, a3, a4, a5⟩

/-- The overwrite-metadata table never duplicates a record identifier. -/
theorem computeOverwritesMetaGo_nodup (db0 : DbItems) :
    ∀ (ovs : List (String × JVal)) (acc out : List (String × OverwriteMetaData)),
    (acc.map Prod.fst).Nodup → computeOverwritesMetaGo db0 acc ovs = .ok out →
    (out.map Prod.fst).Nodup
  | [], acc, out => by
    intro hacc h
    rw [computeOverwritesMetaGo] at h
    have hout := Except.ok.inj h
    rw [← hout]
    exact hacc
  | (itemName, ow) :: rest, acc, out => by
    intro hacc h
    rw [computeOverwritesMetaGo] at h
    cases hfind : db0.find?
        (fun e => dotSafe (some e.2) "_name" == some (JVal.str itemName)) with
    | some entry =>
      rw [hfind] at h
      obtain ⟨mult, hmult, h2⟩ := exceptBind_ok_iff.mp h
      obtain ⟨setv, hsetv, h3⟩ := exceptBind_ok_iff.mp h2
      exact computeOverwritesMetaGo_nodup db0 rest _ out
        (setAssoc_map_fst_nodup _ _ hacc) h3
    | none =>
      rw [hfind] at h
      exact computeOverwritesMetaGo_nodup db0 rest acc out hacc h

/-- The whole selector phase keeps the invariant, given the amended
non-interference condition on every valid configured selector. -/
theorem runSelectorsPhase_pres (p rid : String) (fs0 : List (String × JVal))
    (selectors : List (String × JVal)) (om : List (String × OverwriteMetaData))
    (meta : OverwriteMetaData) (hmeta : lookupAssoc om rid = some meta)
    (hselN : (selectors.map Prod.fst).Nodup) (db0 : DbItems)
    (hsel : ∀ key sel ms, (key, sel) ∈ selectors →
      getSelectorMetaData db0 (some sel) = .ok ms → ms.isValid = true →
      ∀ q ∈ filteredMappingKeys (some sel) meta.changedProperties,
        segsComparable (jsSplitDot q) (jsSplitDot p) = false) :
    ∀ (metas : List (String × SelectorMetaData)),
    (∀ kv ∈ metas, ∃ sel, (kv.1, sel) ∈ selectors
      ∧ getSelectorMetaData db0 (some sel) = .ok kv.2) →
    ∀ (db db' : DbItems),
    runSelectorsPhase selectors om metas db = .ok db' →
    ItemAgree p db rid fs0 → ItemAgree p db' rid fs0
  | [] => by
    intro _ db db' h hagree
    rw [runSelectorsPhase] at h
    have hout := Except.ok.inj h
    rw [← hout]
    exact hagree
  | (key, ms) :: rest => by
    intro hchar db db' h hagree
    rw [runSelectorsPhase] at h
    by_cases hv : ms.isValid = true
    · rw [if_pos hv] at h
      obtain ⟨r, hr, hrest⟩ := exceptBind_ok_iff.mp h
      obtain ⟨sel, hmem, hgs⟩ := hchar (key, ms) (List.mem_cons_self _ _)
      have hlk : lookupField selectors key = some sel :=
        lookupField_of_mem_nodup hselN hmem
      rw [applySelector, hlk] at hr
      have hsafe := hsel key sel ms hmem hgs hv
      have hagree' := applySelectorGo_pres p rid fs0 (some sel) om meta hmeta hsafe
        _ db 0 0 [] r hr hagree
      exact runSelectorsPhase_pres p rid fs0 selectors om meta hmeta hselN db0 hsel rest
        (fun kv hkv => hchar kv (List.mem_cons_of_mem _ hkv)) r.2.2.2 db' hrest hagree'
    · rw [if_neg hv] at h
      exact runSelectorsPhase_pres p rid fs0 selectors om meta hmeta hselN db0 hsel rest
        (fun kv hkv => hchar kv (List.mem_cons_of_mem _ hkv)) db db' h hagree

theorem applySelectorGo_other (selector : Option JVal)
    (om : List (String × OverwriteMetaData)) (rid : String) :
    ∀ (ids : List String), rid ∉ ids →
    ∀ (db : DbItems) (cc cic : Nat) (cids : List String)
      (r : Nat × Nat × List String × DbItems),
    applySelectorGo selector om ids db cc cic cids = .ok r →
    lookupField r.2.2.2 rid = lookupField db rid
  | [], _, db, cc, cic, cids, r => by
    intro h
    rw [applySelectorGo] at h
    have := Except.ok.inj h
    rw [← this]
  | id :: ids, hni, db, cc, cic, cids, r => by
    intro h
    have hid : id ≠ rid := by
      intro hc
      exact hni (hc ▸ List.mem_cons_self _ _)
    have hni' : rid ∉ ids := fun hc => hni (List.mem_cons_of_mem _ hc)
    rw [applySelectorGo] at h
    obtain ⟨props, hprops, h1⟩ := exceptBind_ok_iff.mp h
    by_cases hvalid : isValidItem (lookupField db id) = true
    · rw [if_pos hvalid] at h1
      obtain ⟨qv, hq, h2⟩ := exceptBind_ok_iff.mp h1
      obtain ⟨m, hm, h3⟩ := exceptBind_ok_iff.mp h2
      by_cases hmatch : m = true
      · rw [if_pos hmatch] at h3
        obtain ⟨mr, hmr, h4⟩ := exceptBind_ok_iff.mp h3
        obtain ⟨sr, hsr, h5⟩ := exceptBind_ok_iff.mp h4
        by_cases hnn : (jsNonNull mr || jsNonNull sr) = true
        · rw [if_pos hnn] at h5
          obtain ⟨r1, hr1, h6⟩ := exceptBind_ok_iff.mp h5
          obtain ⟨r2, hr2, h7⟩ := exceptBind_ok_iff.mp h6
          have hw := writeProps_lookup_ne db id rid r2.2 (Ne.symm hid)
          by_cases htot : r1.1 + r2.1 > 0
          · rw [if_pos htot] at h7
            rw [applySelectorGo_other selector om rid ids hni' _ _ _ _ r h7, hw]
          · rw [if_neg htot] at h7
            rw [applySelectorGo_other selector om rid ids hni' _ _ _ _ r h7, hw]
        · rw [if_neg hnn] at h5
          exact applySelectorGo_other selector om rid ids hni' _ _ _ _ r h5
      · rw [if_neg hmatch] at h3
        exact applySelectorGo_other selector om rid ids hni' _ _ _ _ r h3
    · rw [if_neg hvalid] at h1
      exact applySelectorGo_other selector om rid ids hni' _ _ _ _ r h1

/-- Replay of one override application: on a database related to the
original by the invariant, applying the synthesized one-record override
selector observes the same value at `p` as applying it to the original
database, provided every override mapping key is `p` or non-comparable with
it. -/
theorem applySelector_override_replay (p rid : String) (fs0 : List (String × JVal))
    (mult setv : Option JVal)
    (hkeysO : ∀ q ∈ jsForInKeys mult ++ jsForInKeys setv,
      q = p ∨ segsComparable (jsSplitDot q) (jsSplitDot p) = false)
    {db db0 : DbItems} (hagree : ItemAgree p db rid fs0)
    (hdb0 : lookupField db0 rid = some (.obj fs0))
    {r : Nat × Nat × List String × DbItems}
    (hstep : applySelector db (some (overrideOneSel rid mult setv)) [rid] [] = .ok r) :
    ∃ r0, applySelector db0 (some (overrideOneSel rid mult setv)) [rid] [] = .ok r0
      ∧ readItemPath r.2.2.2 rid p = readItemPath r0.2.2.2 rid p := by
  obtain ⟨fs, hlk, ha1, ha2, ha3, ha4⟩ := hagree
  have hagree' : ItemAgree p db rid fs0 := ⟨fs, hlk, ha1, ha2, ha3, ha4⟩
  have hosel_nn : (overrideOneSel rid mult setv) ≠ JVal.null := by
    cases mult <;> cases setv <;> simp [overrideOneSel]
  have hqR : jsDot (some (overrideOneSel rid mult setv)) "query"
      = .ok (some (overrideQueryObj rid)) := by
    rw [jsDot_of_ne_null hosel_nn, overrideOneSel_query]
  have hmultR : jsDot (some (overrideOneSel rid mult setv)) "multiply" = .ok mult := by
    rw [jsDot_of_ne_null hosel_nn, overrideOneSel_multiply]
  have hsetR : jsDot (some (overrideOneSel rid mult setv)) "set" = .ok setv := by
    rw [jsDot_of_ne_null hosel_nn, overrideOneSel_set]
  have hvEq : isValidItem (some (JVal.obj fs)) = isValidItem (some (JVal.obj fs0)) :=
    isValidItem_agree ha2 ha3 ha4
  have hpropsL : jsDot (some (JVal.obj fs)) "_props" = .ok (lookupField fs "_props") :=
    jsDot_of_ne_null (by simp) "_props"
  have hpropsR : jsDot (some (JVal.obj fs0)) "_props" = .ok (lookupField fs0 "_props") :=
    jsDot_of_ne_null (by simp) "_props"
  have hevalL := evaluateQuery_overrideQueryObj rid fs
  have hevalR := evaluateQuery_overrideQueryObj rid fs0
  rw [ha1] at hevalL
  rw [applySelector] at hstep ⊢
  rw [applySelectorGo, hlk] at hstep
  obtain ⟨props, hprops, h1⟩ := exceptBind_ok_iff.mp hstep
  have hpropsv : props = lookupField fs "_props" := jsDot_ok hprops
  by_cases hvalid : isValidItem (some (JVal.obj fs)) = true
  · rw [if_pos hvalid] at h1
    obtain ⟨qv, hq, h2⟩ := exceptBind_ok_iff.mp h1
    have hqv : qv = some (overrideQueryObj rid) := by
      rw [hqR] at hq
      exact (Except.ok.inj hq).symm
    rw [hqv] at h2
    obtain ⟨m, hm, h3⟩ := exceptBind_ok_iff.mp h2
    have hmval : m = (match lookupField fs0 "_id" with
        | some pv => JVal.beq pv (.str rid)
        | none => false) := by
      rw [hevalL] at hm
      exact (Except.ok.inj hm).symm
    by_cases hmatch : m = true
    · rw [if_pos hmatch] at h3
      obtain ⟨mr, hmr, h4⟩ := exceptBind_ok_iff.mp h3
      have hmrv : mr = mult := by
        rw [hmultR] at hmr
        exact (Except.ok.inj hmr).symm
      obtain ⟨sr, hsr, h5⟩ := exceptBind_ok_iff.mp h4
      have hsrv : sr = setv := by
        rw [hsetR] at hsr
        exact (Except.ok.inj hsr).symm
      rw [hmrv] at h5
      rw [hsrv] at h5
      by_cases hnn : (jsNonNull mult || jsNonNull setv) = true
      · rw [if_pos hnn] at h5
        obtain ⟨r1, hr1, h6⟩ := exceptBind_ok_iff.mp h5
        obtain ⟨r2, hr2, h7⟩ := exceptBind_ok_iff.mp h6
        simp only [lookupAssoc] at hr1 hr2
        have hpnnL : jsNonNull (lookupField fs "_props") = true := by
          rw [isValidItem] at hvalid
          simp only [Bool.and_eq_true] at hvalid
          exact hvalid.1.2
        have hvalidR : isValidItem (some (JVal.obj fs0)) = true := by
          rw [← hvEq]
          exact hvalid
        have hpnnR : jsNonNull (lookupField fs0 "_props") = true := by
          rw [isValidItem] at hvalidR
          simp only [Bool.and_eq_true] at hvalidR
          exact hvalidR.1.2
        obtain ⟨pr, hpr, hprnn⟩ := jsNonNull_true_inv hpnnL
        obtain ⟨pr0, hpr0, hpr0nn⟩ := jsNonNull_true_inv hpnnR
        have hreadspr : getNestedProperty (some pr) (.str p)
            = getNestedProperty (some pr0) (.str p) := by
          rcases ha4 with heq | ⟨prA, prB, haA, hbB, _, _, hreads⟩
          · rw [hpr, hpr0] at heq
            rw [Option.some.inj heq]
          · rw [hpr] at haA
            rw [hpr0] at hbB
            rw [← Option.some.inj haA, ← Option.some.inj hbB] at hreads
            exact hreads
        rw [hpropsv, hpr] at hr1
        obtain ⟨nL1, tL1, nR1, tR1, hgoL1, hgoR1, hnnL1, hnnR1, hread1⟩ :=
          applyAllGo_parallel .MULTIPLY mult p (jsForInKeys mult)
            (fun q hq' => hkeysO q (List.mem_append_left _ hq'))
            pr pr0 hprnn hpr0nn hreadspr 0 0
        have hr1v : r1 = (nL1, some tL1) := by
          rw [tryToApplyAllChanges] at hr1
          rw [hr1] at hgoL1
          exact Except.ok.inj hgoL1
        rw [hr1v] at hr2
        obtain ⟨nL2, tL2, nR2, tR2, hgoL2, hgoR2, hnnL2, hnnR2, hread2⟩ :=
          applyAllGo_parallel .SET_VALUE setv p (jsForInKeys setv)
            (fun q hq' => hkeysO q (List.mem_append_right _ hq'))
            tL1 tR1 hnnL1 hnnR1 hread1 0 0
        have hr2v : r2 = (nL2, some tL2) := by
          rw [tryToApplyAllChanges] at hr2
          rw [hr2] at hgoL2
          exact Except.ok.inj hgoL2
        have hreadFinal : readItemPath (writeProps db rid r2.2) rid p
            = readItemPath (writeProps db0 rid (some tR2)) rid p := by
          rw [hr2v]
          rw [readItemPath, readItemPath,
            writeProps_lookup_self db rid fs tL2 hlk,
            writeProps_lookup_self db0 rid fs0 tR2 hdb0]
          show getNestedProperty (lookupField (jsSetKey.setField fs "_props" tL2) "_props")
              (.str p)
            = getNestedProperty (lookupField (jsSetKey.setField fs0 "_props" tR2) "_props")
              (.str p)
          rw [setField_lookup_self, setField_lookup_self]
          exact hread2
        have hmR : (match lookupField fs0 "_id" with
            | some pv => JVal.beq pv (.str rid)
            | none => false) = true := by
          rw [← hmval]
          exact hmatch
        have hgoR1' : tryToApplyAllChanges (lookupField fs0 "_props") mult .MULTIPLY
            = .ok (nR1, some tR1) := by
          rw [hpr0, tryToApplyAllChanges]
          exact hgoR1
        have hgoR2' : tryToApplyAllChanges (some tR1) setv .SET_VALUE
            = .ok (nR2, some tR2) := by
          rw [tryToApplyAllChanges]
          exact hgoR2
        have hRrun : ∃ c1 c2 cds, applySelectorGo (some (overrideOneSel rid mult setv))
            [] [rid] db0 0 0 [] = .ok (c1, c2, cds, writeProps db0 rid (some tR2)) := by
          rw [applySelectorGo, hdb0]
          simp only [hpropsR, exceptBind_ok, hvalidR, if_true, hqR,
            hevalR, hmR, hmultR, hsetR, hnn, lookupAssoc, hgoR1', hgoR2']
          by_cases htotR : nR1 + nR2 > 0
          · rw [if_pos htotR, applySelectorGo]
            exact ⟨_, _, _, rfl⟩
          · rw [if_neg htotR, applySelectorGo]
            exact ⟨_, _, _, rfl⟩
        obtain ⟨c1, c2, cds, hRrun'⟩ := hRrun
        have hLfinal : r.2.2.2 = writeProps db rid r2.2 := by
          by_cases htot : r1.1 + r2.1 > 0
          · rw [if_pos htot, applySelectorGo] at h7
            have := Except.ok.inj h7
            rw [← this]
          · rw [if_neg htot, applySelectorGo] at h7
            have := Except.ok.inj h7
            rw [← this]
        refine ⟨(c1, c2, cds, writeProps db0 rid (some tR2)), hRrun', ?_⟩
        rw [hLfinal]
        exact hreadFinal
      · rw [if_neg hnn] at h5
        rw [applySelectorGo] at h5
        have hLr : r = (0, 0, [], db) := (Except.ok.inj h5).symm
        refine ⟨(0, 0, [], db0), ?_, ?_⟩
        · rw [applySelectorGo, hdb0]
          simp only [hpropsR, exceptBind_ok, ← hvEq, hvalid, if_true, hqR, hevalR,
            ← hmval, hmatch, hmultR, hsetR, hnn, if_false, applySelectorGo]
          rfl
        · rw [hLr]
          exact readItemPath_agree hagree' hdb0
    · rw [if_neg hmatch] at h3
      rw [applySelectorGo] at h3
      have hLr : r = (0, 0, [], db) := (Except.ok.inj h3).symm
      refine ⟨(0, 0, [], db0), ?_, ?_⟩
      · rw [applySelectorGo, hdb0]
        simp only [hpropsR, exceptBind_ok, ← hvEq, hvalid, if_true, hqR, hevalR,
          ← hmval, hmatch, if_false, applySelectorGo]
        rfl
      · rw [hLr]
        exact readItemPath_agree hagree' hdb0
  · rw [if_neg hvalid] at h1
    rw [applySelectorGo] at h1
    have hLr : r = (0, 0, [], db) := (Except.ok.inj h1).symm
    refine ⟨(0, 0, [], db0), ?_, ?_⟩
    · rw [applySelectorGo, hdb0]
      rw [hvEq] at hvalid
      simp only [hpropsR, exceptBind_ok, hvalid, if_false, applySelectorGo]
      rfl
    · rw [hLr]
      exact readItemPath_agree hagree' hdb0

theorem readItemPath_congr {a b : DbItems} {rid : String}
    (h : lookupField a rid = lookupField b rid) (p : String) :
    readItemPath a rid p = readItemPath b rid p := by
  rw [readItemPath, readItemPath, h]

theorem lookupAssoc_mem {α : Type} {l : List (String × α)} {k : String} {v : α}
    (h : lookupAssoc l k = some v) : (k, v) ∈ l := by
  obtain ⟨pre, post, hsplit, _⟩ := lookupAssoc_split h
  rw [hsplit]
  exact List.mem_append_right _ (List.mem_cons_self _ _)

theorem dotSafe_name_obj {v : JVal} {n : String}
    (h : (dotSafe (some v) "_name" == some (JVal.str n)) = true) :
    ∃ gs, v = JVal.obj gs := by
  cases v with
  | obj gs => exact ⟨gs, rfl⟩
  | str s =>
    have hidx : jsArrayIndex? "_name" = none := by decide
    simp [dotSafe, hidx] at h
  | arr xs =>
    have hidx : jsArrayIndex? "_name" = none := by decide
    simp [dotSafe, arrIndex, hidx] at h
  | null => simp [dotSafe] at h
  | bool b => simp [dotSafe] at h
  | num q => simp [dotSafe] at h

/-- Override applications to other records leave `rid`'s binding alone. -/
theorem runOverridesPhase_other (overrides : List (String × JVal)) (rid : String) :
    ∀ (omL : List (String × OverwriteMetaData)), rid ∉ omL.map Prod.fst →
    ∀ (db dbF : DbItems), runOverridesPhase overrides omL db = .ok dbF →
    lookupField dbF rid = lookupField db rid
  | [], _, db, dbF => by
    intro h
    rw [runOverridesPhase] at h
    have := Except.ok.inj h
    rw [← this]
  | (id, meta') :: rest, hni, db, dbF => by
    intro h
    have hid : id ≠ rid := by
      intro hc
      apply hni
      rw [List.map_cons, hc]
      exact List.mem_cons_self _ _
    have hni' : rid ∉ rest.map Prod.fst := by
      intro hc
      exact hni (by rw [List.map_cons]; exact List.mem_cons_of_mem _ hc)
    rw [runOverridesPhase] at h
    obtain ⟨mult, hmult, h2⟩ := exceptBind_ok_iff.mp h
    obtain ⟨setv, hsetv, h3⟩ := exceptBind_ok_iff.mp h2
    obtain ⟨r, hr, h4⟩ := exceptBind_ok_iff.mp h3
    rw [applySelector] at hr
    have hother := applySelectorGo_other _ _ rid [id]
      (by simp [Ne.symm hid]) _ _ _ _ _ hr
    rw [runOverridesPhase_other overrides rid rest hni' _ dbF h4, hother]

/-- Processing the overwrite list around `rid`'s entry: entries before and
after leave the record alone, and the entry itself replays on the original
database. -/
theorem runOverridesPhase_at (p rid : String) (fs0 : List (String × JVal))
    (overrides : List (String × JVal)) (db0 : DbItems)
    (hdb0 : lookupField db0 rid = some (.obj fs0))
    (meta : OverwriteMetaData) (ow : JVal) (mult setv : Option JVal)
    (howmem : lookupField overrides meta.name = some ow)
    (hmult : jsDot (some ow) "multiply" = .ok mult)
    (hsetv : jsDot (some ow) "set" = .ok setv)
    (hkeysO : ∀ q ∈ jsForInKeys mult ++ jsForInKeys setv,
      q = p ∨ segsComparable (jsSplitDot q) (jsSplitDot p) = false) :
    ∀ (pre : List (String × OverwriteMetaData))
      (post : List (String × OverwriteMetaData)),
    rid ∉ pre.map Prod.fst → rid ∉ post.map Prod.fst →
    ∀ (db dbF : DbItems),
    runOverridesPhase overrides (pre ++ (rid, meta) :: post) db = .ok dbF →
    ItemAgree p db rid fs0 →
    ∃ r0, applySelector db0 (some (overrideOneSel rid mult setv)) [rid] [] = .ok r0
      ∧ readItemPath dbF rid p = readItemPath r0.2.2.2 rid p
  | [], post, _, hpost, db, dbF => by
    intro h hagree
    rw [List.nil_append, runOverridesPhase] at h
    obtain ⟨mult', hmult', h2⟩ := exceptBind_ok_iff.mp h
    rw [howmem] at hmult'
    have hmv : mult' = mult := by
      rw [hmult] at hmult'
      exact (Except.ok.inj hmult').symm
    obtain ⟨setv', hsetv', h3⟩ := exceptBind_ok_iff.mp h2
    rw [howmem] at hsetv'
    have hsv : setv' = setv := by
      rw [hsetv] at hsetv'
      exact (Except.ok.inj hsetv').symm
    rw [hmv] at h3
    rw [hsv] at h3
    obtain ⟨r, hr, h4⟩ := exceptBind_ok_iff.mp h3
    obtain ⟨r0, hr0, hread⟩ :=
      applySelector_override_replay p rid fs0 mult setv hkeysO hagree hdb0 hr
    refine ⟨r0, hr0, ?_⟩
    rw [readItemPath_congr (runOverridesPhase_other overrides rid post hpost _ dbF h4) p]
    exact hread
  | (id, meta') :: pre, post, hpre, hpost, db, dbF => by
    intro h hagree
    have hid : id ≠ rid := by
      intro hc
      apply hpre
      rw [List.map_cons, hc]
      exact List.mem_cons_self _ _
    have hpre' : rid ∉ pre.map Prod.fst := by
      intro hc
      exact hpre (by rw [List.map_cons]; exact List.mem_cons_of_mem _ hc)
    rw [List.cons_append, runOverridesPhase] at h
    obtain ⟨mult', hmult', h2⟩ := exceptBind_ok_iff.mp h
    obtain ⟨setv', hsetv', h3⟩ := exceptBind_ok_iff.mp h2
    obtain ⟨r, hr, h4⟩ := exceptBind_ok_iff.mp h3
    rw [applySelector] at hr
    have hother := applySelectorGo_other _ _ rid [id]
      (by simp [Ne.symm hid]) _ _ _ _ _ hr
    exact runOverridesPhase_at p rid fs0 overrides db0 hdb0 meta ow mult setv howmem
      hmult hsetv hkeysO pre post hpre' hpost r.2.2.2 dbF h4
      (ItemAgree_congr hother hagree)

/-- C1 (amended): override precedence holds under two prefix-separation
conditions.  For a record `rid` resolved in the overwrite metadata with
`meta`, a path `p` among the override's touched properties, every other
override key equal to `p` or not prefix-comparable with it, and every valid
configured selector applying (after the override filtering) only keys not
prefix-comparable with `p`, a full pass observes at `p` on `rid` exactly
the value obtained by applying only the synthesized one-record override
selector to the original database.  Without the selector-side condition a
selector write at a path prefix-comparable with `p` (for example writing a
parent object of `p`, which the filtering does not remove) changes the
override's input and the final value differs from the override-only
result. -/
theorem override_precedence_replay (db0 : DbItems)
    (selectors overrides : List (String × JVal)) (rid p : String)
    (meta : OverwriteMetaData) (om : List (String × OverwriteMetaData)) (dbF : DbItems)
    (hdbN : (db0.map Prod.fst).Nodup)
    (hselN : (selectors.map Prod.fst).Nodup)
    (hovN : (overrides.map Prod.fst).Nodup)
    (hom : computeOverwritesMeta db0 overrides = .ok om)
    (hmem : lookupAssoc om rid = some meta)
    (hcov : ∀ q ∈ meta.changedProperties,
      q = p ∨ segsComparable (jsSplitDot q) (jsSplitDot p) = false)
    (hsel : ∀ key sel ms, (key, sel) ∈ selectors →
      getSelectorMetaData db0 (some sel) = .ok ms → ms.isValid = true →
      ∀ q ∈ filteredMappingKeys (some sel) meta.changedProperties,
        segsComparable (jsSplitDot q) (jsSplitDot p) = false)
    (hrun : runPass db0 selectors overrides = .ok dbF) :
    ∃ ow mult setv r0,
      lookupField overrides meta.name = some ow
      ∧ jsDot (some ow) "multiply" = .ok mult
      ∧ jsDot (some ow) "set" = .ok setv
      ∧ applySelector db0 (some (overrideOneSel rid mult setv)) [rid] [] = .ok r0
      ∧ readItemPath dbF rid p = readItemPath r0.2.2.2 rid p := by
  rw [runPass] at hrun
  obtain ⟨metas, hmetas, hrun1⟩ := exceptBind_ok_iff.mp hrun
  obtain ⟨om', hom', hrun2⟩ := exceptBind_ok_iff.mp hrun1
  have homEq : om' = om := by
    rw [hom] at hom'
    exact (Except.ok.inj hom').symm
  rw [homEq] at hrun2
  obtain ⟨db1, hdb1, hrun3⟩ := exceptBind_ok_iff.mp hrun2
  have hmemO : (rid, meta) ∈ om := lookupAssoc_mem hmem
  rcases computeOverwritesMetaGo_char db0 overrides [] om hom (rid, meta) hmemO
    with hnil | ⟨itemName, ow, mult, setv, entry, hovmem, hmult, hsetv, hmeta, hfind, hfst⟩
  · cases hnil
  have hmeta' : meta = ⟨itemName, jsForInKeys mult ++ jsForInKeys setv⟩ := hmeta
  have hname : meta.name = itemName := by rw [hmeta']
  have hchanged : meta.changedProperties = jsForInKeys mult ++ jsForInKeys setv := by
    rw [hmeta']
  have howmem : lookupField overrides meta.name = some ow := by
    rw [hname]
    exact lookupField_of_mem_nodup hovN hovmem
  have hentry_mem : entry ∈ db0 := List.mem_of_find?_eq_some hfind
  have hentry_pred := List.find?_some hfind
  obtain ⟨fs0, hfs0⟩ := dotSafe_name_obj hentry_pred
  have hdb0 : lookupField db0 rid = some (JVal.obj fs0) := by
    have : (rid, JVal.obj fs0) ∈ db0 := by
      have h1 : entry.1 = rid := hfst
      have h2 : entry.2 = JVal.obj fs0 := hfs0
      have hpair : entry = (rid, JVal.obj fs0) := by
        rw [← h1, ← h2]
      rw [← hpair]
      exact hentry_mem
    exact lookupField_of_mem_nodup hdbN this
  have hkeysO : ∀ q ∈ jsForInKeys mult ++ jsForInKeys setv,
      q = p ∨ segsComparable (jsSplitDot q) (jsSplitDot p) = false := by
    intro q hq
    exact hcov q (by rw [hchanged]; exact hq)
  have hcharS : ∀ kv ∈ metas, ∃ sel, (kv.1, sel) ∈ selectors
      ∧ getSelectorMetaData db0 (some sel) = .ok kv.2 := by
    intro kv hkv
    rcases computeSelectorsMetaGo_char db0 selectors [] metas hmetas kv hkv
      with hnil | hgood
    · cases hnil
    · exact hgood
  have hagree0 : ItemAgree p db0 rid fs0 := ItemAgree_refl p hdb0
  have hagree1 : ItemAgree p db1 rid fs0 :=
    runSelectorsPhase_pres p rid fs0 selectors om meta hmem hselN db0 hsel
      metas hcharS db0 db1 hdb1 hagree0
  have homN : (om.map Prod.fst).Nodup :=
    computeOverwritesMetaGo_nodup db0 overrides [] om (by simp) hom
  obtain ⟨pre, post, hsplit, hpre⟩ := lookupAssoc_split hmem
  have hpost : rid ∉ post.map Prod.fst := by
    rw [hsplit, List.map_append, List.map_cons] at homN
    have := (List.nodup_append.mp homN).2.1
    exact (List.nodup_cons.mp this).1
  rw [hsplit] at hrun3
  obtain ⟨r0, hr0, hread⟩ := runOverridesPhase_at p rid fs0 overrides db0 hdb0 meta ow
    mult setv howmem hmult hsetv hkeysO pre post hpre hpost db1 dbF hrun3 hagree1
  exact ⟨ow, mult, setv, r0, howmem, hmult, hsetv, hr0, hread⟩

/-- Witness scenario: one record, no selectors, one multiply override. -/
def cwItem0 : JVal :=
  .obj [("_id", .str "r1"), ("_type", .str "Item"), ("_name", .str "gun"),
    ("_props", .obj [("a", .num 3)])]

def cwDb0 : DbItems := [("r1", cwItem0)]

def cwMulObj : JVal := .obj [("a", .num 2)]

def cwOverrides : List (String × JVal) := [("gun", .obj [("multiply", cwMulObj)])]

def cwMeta : OverwriteMetaData := ⟨"gun", ["a"]⟩

def cwOm : List (String × OverwriteMetaData) := [("r1", cwMeta)]

def cwDbF : DbItems :=
  [("r1", .obj [("_id", .str "r1"), ("_type", .str "Item"), ("_name", .str "gun"),
    ("_props", .obj [("a", .num 6)])])]

theorem cw_mul_step : tryToApplyMultiplier (some (JVal.obj [("a", JVal.num 3)]))
    (some cwMulObj) "a" = .ok (1, some (JVal.obj [("a", JVal.num 6)])) := by
  have h6 : (3 : Rat) * 2 = 6 := by norm_num
  rw [tryToApplyMultiplier, if_pos (by decide : canApplyMultiplier
    (some (JVal.obj [("a", JVal.num 3)])) (some cwMulObj) "a" = true)]
  have hg : getNestedProperty (some (JVal.obj [("a", JVal.num 3)])) (.str "a")
      = .ok (some (.num 3)) := by decide
  rw [hg, exceptBind_ok]
  have hd : dotSafe (some cwMulObj) "a" = some (JVal.num 2) := by decide
  simp only [hd]
  have hset : setNestedProperty (some (JVal.obj [("a", JVal.num 3)])) (JVal.str "a")
      (JVal.num (3 * 2)) = .ok (JVal.obj [("a", JVal.num (3 * 2))]) := rfl
  rw [hset, exceptBind_ok]
  have hrb : getNestedProperty (some (JVal.obj [("a", JVal.num (3 * 2))])) (JVal.str "a")
      = .ok (some (JVal.num (3 * 2))) := rfl
  rw [hrb, exceptBind_ok]
  have hne : (some (JVal.num 3) : Option JVal) ≠ some (JVal.num (3 * 2)) := by
    simp
  rw [if_pos hne, h6]
  rfl

theorem cw_batch1 : tryToApplyAllChanges (some (JVal.obj [("a", JVal.num 3)]))
    (some cwMulObj) .MULTIPLY = .ok (1, some (JVal.obj [("a", JVal.num 6)])) := by
  rw [tryToApplyAllChanges]
  have hkeys : jsForInKeys (some cwMulObj) = ["a"] := by decide
  simp only [hkeys, tryToApplyAllGo, tryToApplyStep, cw_mul_step, exceptBind_ok,
    Nat.zero_add]

theorem cw_apply : applySelectorGo (some (overrideOneSel "r1" (some cwMulObj) none))
    [] ["r1"] cwDb0 0 0 [] = .ok (1, 1, ["r1"], cwDbF) := by
  rw [applySelectorGo]
  have hitem : lookupField cwDb0 "r1" = some cwItem0 := by decide
  rw [hitem]
  have hprops : jsDot (some cwItem0) "_props"
      = .ok (some (JVal.obj [("a", JVal.num 3)])) := by decide
  rw [hprops, exceptBind_ok]
  rw [if_pos (by decide : isValidItem (some cwItem0) = true)]
  have hq : jsDot (some (overrideOneSel "r1" (some cwMulObj) none)) "query"
      = .ok (some (overrideQueryObj "r1")) := by decide
  rw [hq, exceptBind_ok]
  have hev : evaluateQuery (some (overrideQueryObj "r1")) (some cwItem0) = .ok true := by
    show evaluateQuery (some (overrideQueryObj "r1"))
      (some (JVal.obj [("_id", .str "r1"), ("_type", .str "Item"), ("_name", .str "gun"),
        ("_props", .obj [("a", .num 3)])])) = .ok true
    rw [evaluateQuery_overrideQueryObj]
    decide
  rw [hev, exceptBind_ok, if_pos rfl]
  have hmr : jsDot (some (overrideOneSel "r1" (some cwMulObj) none)) "multiply"
      = .ok (some cwMulObj) := by decide
  rw [hmr, exceptBind_ok]
  have hsr : jsDot (some (overrideOneSel "r1" (some cwMulObj) none)) "set"
      = .ok none := by decide
  rw [hsr, exceptBind_ok]
  rw [if_pos (by decide : (jsNonNull (some cwMulObj) || jsNonNull none) = true)]
  simp only [lookupAssoc]
  rw [cw_batch1, exceptBind_ok]
  have hb2 : tryToApplyAllChanges (some (JVal.obj [("a", JVal.num 6)])) none .SET_VALUE
      = .ok (0, some (JVal.obj [("a", JVal.num 6)])) := rfl
  rw [hb2, exceptBind_ok]
  rw [if_pos (by decide : 1 + 0 > 0), applySelectorGo]
  decide

theorem cw_run : runPass cwDb0 [] cwOverrides = .ok cwDbF := by
  rw [runPass]
  have h1 : computeSelectorsMeta cwDb0 [] = .ok [] := rfl
  rw [h1, exceptBind_ok]
  have hom : computeOverwritesMeta cwDb0 cwOverrides = .ok cwOm := by decide
  rw [hom, exceptBind_ok]
  have h2 : runSelectorsPhase [] cwOm [] cwDb0 = .ok cwDb0 := rfl
  rw [h2, exceptBind_ok]
  show runOverridesPhase cwOverrides [("r1", cwMeta)] cwDb0 = .ok cwDbF
  rw [runOverridesPhase]
  have hm1 : jsDot (lookupField cwOverrides cwMeta.name) "multiply"
      = .ok (some cwMulObj) := by decide
  rw [hm1, exceptBind_ok]
  have hm2 : jsDot (lookupField cwOverrides cwMeta.name) "set" = .ok none := by decide
  rw [hm2, exceptBind_ok]
  rw [applySelector, cw_apply, exceptBind_ok, runOverridesPhase]
  rfl

/-- Witness for `override_precedence_replay`: one record with `a = 3`, no
selectors, one multiply-by-2 override; the pass and the override-only run
both observe `a = 6`. -/
theorem override_precedence_replay_witness :
    computeOverwritesMeta cwDb0 cwOverrides = .ok cwOm
    ∧ lookupAssoc cwOm "r1" = some cwMeta
    ∧ runPass cwDb0 [] cwOverrides = .ok cwDbF
    ∧ ∃ ow mult setv r0,
        lookupField cwOverrides cwMeta.name = some ow
        ∧ jsDot (some ow) "multiply" = .ok mult
        ∧ jsDot (some ow) "set" = .ok setv
        ∧ applySelector cwDb0 (some (overrideOneSel "r1" mult setv)) ["r1"] [] = .ok r0
        ∧ readItemPath cwDbF "r1" "a" = readItemPath r0.2.2.2 "r1" "a" := by
  have hom : computeOverwritesMeta cwDb0 cwOverrides = .ok cwOm := by decide
  refine ⟨hom, by decide, cw_run, ?_⟩
  exact override_precedence_replay cwDb0 [] cwOverrides "r1" "a" cwMeta cwOm cwDbF
    (by decide) (by decide) (by decide) hom (by decide)
    (by decide)
    (fun key sel ms hmem => absurd hmem (List.not_mem_nil _))
    cw_run

/-- Counterexample scenario: the selector writes the parent object `a`
(not covered by the override, which touches only `a.b`), so the override's
multiply sees the selector's value. -/
def cxItem0 : JVal :=
  .obj [("_id", .str "r1"), ("_type", .str "Item"), ("_name", .str "gun"),
    ("_props", .obj [("a", .obj [("b", .num 1)])])]

def cxDb0 : DbItems := [("r1", cxItem0)]

def cxSetObj : JVal := .obj [("a", .obj [("b", .num 5)]), ("a.b", .num 9)]

def cxSel : JVal := .obj [("query", overrideQueryObj "r1"), ("set", cxSetObj)]

def cxSelectors : List (String × JVal) := [("s1", cxSel)]

def cxMulObj : JVal := .obj [("a.b", .num 2)]

def cxOverrides : List (String × JVal) := [("gun", .obj [("multiply", cxMulObj)])]

def cxMeta : OverwriteMetaData := ⟨"gun", ["a.b"]⟩

def cxOm : List (String × OverwriteMetaData) := [("r1", cxMeta)]

def cxMs : SelectorMetaData := ⟨["r1"], ["r1"], ["a", "a.b"], true⟩

def cxItem1 : JVal :=
  .obj [("_id", .str "r1"), ("_type", .str "Item"), ("_name", .str "gun"),
    ("_props", .obj [("a", .obj [("b", .num 5)])])]

def cxDb1 : DbItems := [("r1", cxItem1)]

def cxDbF : DbItems :=
  [("r1", .obj [("_id", .str "r1"), ("_type", .str "Item"), ("_name", .str "gun"),
    ("_props", .obj [("a", .obj [("b", .num 10)])])])]

def cxDbO : DbItems :=
  [("r1", .obj [("_id", .str "r1"), ("_type", .str "Item"), ("_name", .str "gun"),
    ("_props", .obj [("a", .obj [("b", .num 2)])])])]

theorem cx_ev0 : evaluateQuery (some (overrideQueryObj "r1")) (some cxItem0) = .ok true := by
  show evaluateQuery (some (overrideQueryObj "r1"))
    (some (JVal.obj [("_id", .str "r1"), ("_type", .str "Item"), ("_name", .str "gun"),
      ("_props", .obj [("a", .obj [("b", .num 1)])])])) = .ok true
  rw [evaluateQuery_overrideQueryObj]
  decide

theorem cx_ev1 : evaluateQuery (some (overrideQueryObj "r1")) (some cxItem1) = .ok true := by
  show evaluateQuery (some (overrideQueryObj "r1"))
    (some (JVal.obj [("_id", .str "r1"), ("_type", .str "Item"), ("_name", .str "gun"),
      ("_props", .obj [("a", .obj [("b", .num 5)])])])) = .ok true
  rw [evaluateQuery_overrideQueryObj]
  decide

theorem cx_gsm : getSelectorMetaData cxDb0 (some cxSel) = .ok cxMs := by
  rw [getSelectorMetaData]
  have hm : jsDot (some cxSel) "multiply" = .ok none := by decide
  rw [hm, exceptBind_ok]
  have hs : jsDot (some cxSel) "set" = .ok (some cxSetObj) := by decide
  rw [hs, exceptBind_ok]
  have hq : jsDot (some cxSel) "query" = .ok (some (overrideQueryObj "r1")) := by decide
  rw [hq, exceptBind_ok, isQuery_overrideQueryObj, exceptBind_ok, if_pos rfl]
  rw [if_neg (by decide : ¬ ((badMapping none || badMapping (some cxSetObj)) = true))]
  have hmatch : getMatchingItemIds cxDb0 (some cxSel) = .ok ["r1"] := by
    rw [getMatchingItemIds, show cxDb0 = [("r1", cxItem0)] from rfl, filterIdsM]
    have hf : (if isValidItem (some cxItem0) = true then do
        let q ← jsDot (some cxSel) "query"
        evaluateQuery q (some cxItem0)
      else pure false) = .ok true := by
      rw [if_pos (by decide), hq, exceptBind_ok, cx_ev0]
    simp only [hf, exceptBind_ok, filterIdsM]
    rfl
  rw [hmatch, exceptBind_ok]
  have haff : getAffectedItemIds cxDb0 (some cxSel) = .ok ["r1"] := by
    rw [getAffectedItemIds, show cxDb0 = [("r1", cxItem0)] from rfl, filterIdsM]
    have hf : (do
        let props ← jsDot (some cxItem0) "_props"
        if isValidItem (some cxItem0) = true then do
          let q ← jsDot (some cxSel) "query"
          let m ← evaluateQuery q (some cxItem0)
          if m = true then do
            let mult ← jsDot (some cxSel) "multiply"
            let setv ← jsDot (some cxSel) "set"
            pure (canApplyAnyChanges props mult .MULTIPLY
              || canApplyAnyChanges props setv .SET_VALUE)
          else pure false
        else pure false) = .ok true := by
      have hp : jsDot (some cxItem0) "_props"
          = .ok (some (JVal.obj [("a", JVal.obj [("b", JVal.num 1)])])) := by decide
      rw [hp, exceptBind_ok, if_pos (by decide), hq, exceptBind_ok, cx_ev0,
        exceptBind_ok, if_pos rfl, hm, exceptBind_ok, hs, exceptBind_ok]
      decide
    simp only [hf, exceptBind_ok, filterIdsM]
    rfl
  rw [haff, exceptBind_ok]
  decide

theorem cx_metas : computeSelectorsMeta cxDb0 cxSelectors = .ok [("s1", cxMs)] := by
  rw [computeSelectorsMeta, show cxSelectors = [("s1", cxSel)] from rfl,
    computeSelectorsMetaGo, cx_gsm, exceptBind_ok, computeSelectorsMetaGo]
  rfl

theorem cx_apply_sel : applySelectorGo (some cxSel) cxOm ["r1"] cxDb0 0 0 []
    = .ok (1, 1, ["r1"], cxDb1) := by
  rw [applySelectorGo]
  have hitem : lookupField cxDb0 "r1" = some cxItem0 := by decide
  rw [hitem]
  have hprops : jsDot (some cxItem0) "_props"
      = .ok (some (JVal.obj [("a", JVal.obj [("b", JVal.num 1)])])) := by decide
  rw [hprops, exceptBind_ok]
  rw [if_pos (by decide : isValidItem (some cxItem0) = true)]
  have hq : jsDot (some cxSel) "query" = .ok (some (overrideQueryObj "r1")) := by decide
  rw [hq, exceptBind_ok, cx_ev0, exceptBind_ok, if_pos rfl]
  have hm : jsDot (some cxSel) "multiply" = .ok none := by decide
  rw [hm, exceptBind_ok]
  have hs : jsDot (some cxSel) "set" = .ok (some cxSetObj) := by decide
  rw [hs, exceptBind_ok]
  rw [if_pos (by decide : (jsNonNull none || jsNonNull (some cxSetObj)) = true)]
  simp only [show lookupAssoc cxOm "r1" = some cxMeta from by decide]
  have hb1 : tryToApplyAllChanges (some (JVal.obj [("a", JVal.obj [("b", JVal.num 1)])]))
      (some (filterObjectProperties (nullishOrEmptyObj none)
        (fun k => !(cxMeta.changedProperties.contains k)))) .MULTIPLY
      = .ok (0, some (JVal.obj [("a", JVal.obj [("b", JVal.num 1)])])) := by decide
  have hb2 : tryToApplyAllChanges (some (JVal.obj [("a", JVal.obj [("b", JVal.num 1)])]))
      (some (filterObjectProperties (nullishOrEmptyObj (some cxSetObj))
        (fun k => !(cxMeta.changedProperties.contains k)))) .SET_VALUE
      = .ok (1, some (JVal.obj [("a", JVal.obj [("b", JVal.num 5)])])) := by decide
  rw [hb1, exceptBind_ok, hb2, exceptBind_ok]
  rw [if_pos (by decide : 0 + 1 > 0), applySelectorGo]
  decide

theorem cx_phase1 : runSelectorsPhase cxSelectors cxOm [("s1", cxMs)] cxDb0
    = .ok cxDb1 := by
  rw [runSelectorsPhase, if_pos (by decide : cxMs.isValid = true)]
  have hlk : lookupField cxSelectors "s1" = some cxSel := by decide
  rw [hlk]
  have hii : (if cxMs.affectedIds.length < 1 then cxMs.matchingIds else cxMs.affectedIds)
      = ["r1"] := by decide
  rw [hii]
  show (do
    let r ← applySelector cxDb0 (some cxSel) ["r1"] cxOm
    runSelectorsPhase cxSelectors cxOm [] r.2.2.2) = Except.ok cxDb1
  rw [applySelector, cx_apply_sel, exceptBind_ok, runSelectorsPhase]
  rfl

theorem cx_mul_step1 : tryToApplyMultiplier
    (some (JVal.obj [("a", JVal.obj [("b", JVal.num 5)])])) (some cxMulObj) "a.b"
    = .ok (1, some (JVal.obj [("a", JVal.obj [("b", JVal.num 10)])])) := by
  have h10 : (5 : Rat) * 2 = 10 := by norm_num
  rw [tryToApplyMultiplier, if_pos (by decide : canApplyMultiplier
    (some (JVal.obj [("a", JVal.obj [("b", JVal.num 5)])])) (some cxMulObj) "a.b" = true)]
  have hg : getNestedProperty (some (JVal.obj [("a", JVal.obj [("b", JVal.num 5)])]))
      (.str "a.b") = .ok (some (.num 5)) := by decide
  rw [hg, exceptBind_ok]
  have hd : dotSafe (some cxMulObj) "a.b" = some (JVal.num 2) := by decide
  simp only [hd]
  have hset : setNestedProperty (some (JVal.obj [("a", JVal.obj [("b", JVal.num 5)])]))
      (JVal.str "a.b") (JVal.num (5 * 2))
      = .ok (JVal.obj [("a", JVal.obj [("b", JVal.num (5 * 2))])]) := rfl
  rw [hset, exceptBind_ok]
  have hrb : getNestedProperty
      (some (JVal.obj [("a", JVal.obj [("b", JVal.num (5 * 2))])])) (JVal.str "a.b")
      = .ok (some (JVal.num (5 * 2))) := rfl
  rw [hrb, exceptBind_ok]
  have hne : (some (JVal.num 5) : Option JVal) ≠ some (JVal.num (5 * 2)) := by
    simp
  rw [if_pos hne, h10]
  rfl

theorem cx_mul_step0 : tryToApplyMultiplier
    (some (JVal.obj [("a", JVal.obj [("b", JVal.num 1)])])) (some cxMulObj) "a.b"
    = .ok (1, some (JVal.obj [("a", JVal.obj [("b", JVal.num 2)])])) := by
  have h2 : (1 : Rat) * 2 = 2 := by norm_num
  rw [tryToApplyMultiplier, if_pos (by decide : canApplyMultiplier
    (some (JVal.obj [("a", JVal.obj [("b", JVal.num 1)])])) (some cxMulObj) "a.b" = true)]
  have hg : getNestedProperty (some (JVal.obj [("a", JVal.obj [("b", JVal.num 1)])]))
      (.str "a.b") = .ok (some (.num 1)) := by decide
  rw [hg, exceptBind_ok]
  have hd : dotSafe (some cxMulObj) "a.b" = some (JVal.num 2) := by decide
  simp only [hd]
  have hset : setNestedProperty (some (JVal.obj [("a", JVal.obj [("b", JVal.num 1)])]))
      (JVal.str "a.b") (JVal.num (1 * 2))
      = .ok (JVal.obj [("a", JVal.obj [("b", JVal.num (1 * 2))])]) := rfl
  rw [hset, exceptBind_ok]
  have hrb : getNestedProperty
      (some (JVal.obj [("a", JVal.obj [("b", JVal.num (1 * 2))])])) (JVal.str "a.b")
      = .ok (some (JVal.num (1 * 2))) := rfl
  rw [hrb, exceptBind_ok]
  have hne : (some (JVal.num 1) : Option JVal) ≠ some (JVal.num (1 * 2)) := by
    simp
  rw [if_pos hne, h2]
  rfl

theorem cx_batch1 : tryToApplyAllChanges
    (some (JVal.obj [("a", JVal.obj [("b", JVal.num 5)])])) (some cxMulObj) .MULTIPLY
    = .ok (1, some (JVal.obj [("a", JVal.obj [("b", JVal.num 10)])])) := by
  rw [tryToApplyAllChanges]
  have hkeys : jsForInKeys (some cxMulObj) = ["a.b"] := by decide
  simp only [hkeys, tryToApplyAllGo, tryToApplyStep, cx_mul_step1, exceptBind_ok,
    Nat.zero_add]

theorem cx_batch0 : tryToApplyAllChanges
    (some (JVal.obj [("a", JVal.obj [("b", JVal.num 1)])])) (some cxMulObj) .MULTIPLY
    = .ok (1, some (JVal.obj [("a", JVal.obj [("b", JVal.num 2)])])) := by
  rw [tryToApplyAllChanges]
  have hkeys : jsForInKeys (some cxMulObj) = ["a.b"] := by decide
  simp only [hkeys, tryToApplyAllGo, tryToApplyStep, cx_mul_step0, exceptBind_ok,
    Nat.zero_add]

theorem cx_apply_ov1 : applySelectorGo (some (overrideOneSel "r1" (some cxMulObj) none))
    [] ["r1"] cxDb1 0 0 [] = .ok (1, 1, ["r1"], cxDbF) := by
  rw [applySelectorGo]
  have hitem : lookupField cxDb1 "r1" = some cxItem1 := by decide
  rw [hitem]
  have hprops : jsDot (some cxItem1) "_props"
      = .ok (some (JVal.obj [("a", JVal.obj [("b", JVal.num 5)])])) := by decide
  rw [hprops, exceptBind_ok]
  rw [if_pos (by decide : isValidItem (some cxItem1) = true)]
  have hq : jsDot (some (overrideOneSel "r1" (some cxMulObj) none)) "query"
      = .ok (some (overrideQueryObj "r1")) := by decide
  rw [hq, exceptBind_ok, cx_ev1, exceptBind_ok, if_pos rfl]
  have hmr : jsDot (some (overrideOneSel "r1" (some cxMulObj) none)) "multiply"
      = .ok (some cxMulObj) := by decide
  rw [hmr, exceptBind_ok]
  have hsr : jsDot (some (overrideOneSel "r1" (some cxMulObj) none)) "set"
      = .ok none := by decide
  rw [hsr, exceptBind_ok]
  rw [if_pos (by decide : (jsNonNull (some cxMulObj) || jsNonNull none) = true)]
  simp only [lookupAssoc]
  rw [cx_batch1, exceptBind_ok]
  have hb2 : tryToApplyAllChanges (some (JVal.obj [("a", JVal.obj [("b", JVal.num 10)])]))
      none .SET_VALUE
      = .ok (0, some (JVal.obj [("a", JVal.obj [("b", JVal.num 10)])])) := rfl
  rw [hb2, exceptBind_ok]
  rw [if_pos (by decide : 1 + 0 > 0), applySelectorGo]
  decide

theorem cx_apply_ov0 : applySelectorGo (some (overrideOneSel "r1" (some cxMulObj) none))
    [] ["r1"] cxDb0 0 0 [] = .ok (1, 1, ["r1"], cxDbO) := by
  rw [applySelectorGo]
  have hitem : lookupField cxDb0 "r1" = some cxItem0 := by decide
  rw [hitem]
  have hprops : jsDot (some cxItem0) "_props"
      = .ok (some (JVal.obj [("a", JVal.obj [("b", JVal.num 1)])])) := by decide
  rw [hprops, exceptBind_ok]
  rw [if_pos (by decide : isValidItem (some cxItem0) = true)]
  have hq : jsDot (some (overrideOneSel "r1" (some cxMulObj) none)) "query"
      = .ok (some (overrideQueryObj "r1")) := by decide
  rw [hq, exceptBind_ok, cx_ev0, exceptBind_ok, if_pos rfl]
  have hmr : jsDot (some (overrideOneSel "r1" (some cxMulObj) none)) "multiply"
      = .ok (some cxMulObj) := by decide
  rw [hmr, exceptBind_ok]
  have hsr : jsDot (some (overrideOneSel "r1" (some cxMulObj) none)) "set"
      = .ok none := by decide
  rw [hsr, exceptBind_ok]
  rw [if_pos (by decide : (jsNonNull (some cxMulObj) || jsNonNull none) = true)]
  simp only [lookupAssoc]
  rw [cx_batch0, exceptBind_ok]
  have hb2 : tryToApplyAllChanges (some (JVal.obj [("a", JVal.obj [("b", JVal.num 2)])]))
      none .SET_VALUE
      = .ok (0, some (JVal.obj [("a", JVal.obj [("b", JVal.num 2)])])) := rfl
  rw [hb2, exceptBind_ok]
  rw [if_pos (by decide : 1 + 0 > 0), applySelectorGo]
  decide

theorem cx_run : runPass cxDb0 cxSelectors cxOverrides = .ok cxDbF := by
  rw [runPass, cx_metas, exceptBind_ok]
  have hom : computeOverwritesMeta cxDb0 cxOverrides = .ok cxOm := by decide
  rw [hom, exceptBind_ok, cx_phase1, exceptBind_ok]
  show runOverridesPhase cxOverrides [("r1", cxMeta)] cxDb1 = .ok cxDbF
  rw [runOverridesPhase]
  have hm1 : jsDot (lookupField cxOverrides cxMeta.name) "multiply"
      = .ok (some cxMulObj) := by decide
  rw [hm1, exceptBind_ok]
  have hm2 : jsDot (lookupField cxOverrides cxMeta.name) "set" = .ok none := by decide
  rw [hm2, exceptBind_ok]
  rw [applySelector, cx_apply_ov1, exceptBind_ok, runOverridesPhase]
  rfl

/-- C1 counterexample: the path `a.b` is touched by a valid selector (its
set mapping writes both `a` and `a.b`) and by the record's override
(multiply `a.b` by 2).  After a full pass the record holds `a.b = 10`
(the override multiplied the selector's 5), while applying only the
override to the original record yields `a.b = 2` (the override multiplying
the original 1): the selector's write at the uncovered parent path `a`
reached `p`, so the pass result is not the override-only result. -/
theorem override_precedence_cex :
    runPass cxDb0 cxSelectors cxOverrides = .ok cxDbF
    ∧ computeOverwritesMeta cxDb0 cxOverrides = .ok cxOm
    ∧ "a.b" ∈ cxMeta.changedProperties
    ∧ getSelectorMetaData cxDb0 (some cxSel) = .ok cxMs ∧ cxMs.isValid = true
    ∧ "a.b" ∈ cxMs.changedProperties
    ∧ applySelector cxDb0 (some (overrideOneSel "r1" (some cxMulObj) none)) ["r1"] []
        = .ok (1, 1, ["r1"], cxDbO)
    ∧ readItemPath cxDbF "r1" "a.b" = .ok (some (.num 10))
    ∧ readItemPath cxDbO "r1" "a.b" = .ok (some (.num 2))
    ∧ (some (JVal.num 10) : Option JVal) ≠ some (JVal.num 2) := by
  refine ⟨cx_run, by decide, by decide, cx_gsm, by decide, by decide, ?_, by decide,
    by decide, by decide⟩
  rw [applySelector]
  exact cx_apply_ov0
